import Mathlib

/-!
# matlab-mcp-core-server: environment block builder, watchdog and launcher

A shallow embedding of

* `internal/adaptors/.../processlauncher/utils/winenvironmentbuilder/winenvironmentbuilder.go`
* `internal/watchdog/watchdog.go`
* `internal/adaptors/watchdog/watchdog.go` and `internal/adaptors/watchdog/process/process.go`
* `internal/adaptors/.../processlauncher/processlauncher_windows.go`

and of the lifecycle signaler, the global engine session and the application
directory as the specification describes them.

Go strings are byte sequences; a byte is a natural number below 256.  The
functions of Go's standard library that the code calls and whose tables are
not part of the repository (`strings.ToUpper`, the `%q` verb of `fmt`, the
UTF-16 encoder behind `windows.UTF16FromString`) are fields of `GoLib`; every
theorem holds for every choice of them.
-/

namespace WinEnv

/-- A Go `string`: a finite sequence of bytes. -/
abbrev GoString := List Nat

/-- The bytes of an ASCII string literal. -/
def lit (s : String) : GoString := s.toList.map Char.toNat

/-- The byte `'='`. -/
abbrev eqByte : Nat := 61

/-- Standard-library functions used by the builder, left uninterpreted. -/
structure GoLib where
  /-- Go's `strings.ToUpper` -/
  ToUpper : GoString → GoString
  /-- Go's `strconv.Quote`, the rendering of the `%q` verb -/
  Quote : GoString → GoString
  /-- the UTF-16 code units of a string, without terminator -/
  utf16 : GoString → List Nat

/-- Go's built-in `<` on strings: bytewise lexicographic comparison. -/
def stringLess : GoString → GoString → Bool
  | [], [] => false
  | [], _ :: _ => true
  | _ :: _, [] => false
  | a :: s, b :: t => if a < b then true else if b < a then false else stringLess s t

/-- Model of `strings.IndexByte`: the index of the first byte `c` in `s`, or `-1`. -/
def IndexByte : GoString → Nat → Int
  | [], _ => -1
  | b :: s, c =>
    if b = c then 0
    else
      let i := IndexByte s c
      if i < 0 then -1 else i + 1

/-- Model of `strings.Cut` with a one-byte separator (for which `strings.Index` is
`IndexByte`). -/
def Cut (s : GoString) (sep : Nat) : GoString × GoString × Bool :=
  let i := IndexByte s sep
  if i ≥ 0 then (s.take i.toNat, s.drop (i.toNat + 1), true) else (s, [], false)

/-- The struct `envEntry`. -/
structure envEntry where
  upperName : GoString
  entry : GoString
deriving DecidableEq, Repr

/-- Model of `parseEntry`: `(name, value, ok)`. -/
def parseEntry (entry : GoString) : GoString × GoString × Bool :=
  if entry.length ≥ 2 ∧ entry.head? = some eqByte then
    let idx := IndexByte (entry.drop 1) eqByte
    if idx > 0 then (entry.take (idx + 1).toNat, entry.drop (idx + 2).toNat, true)
    else ([], [], false)
  else
    match Cut entry eqByte with
    | (name, value, ok) =>
      if !ok || name == [] then ([], [], false) else (name, value, true)

/-- The message of the error returned by `validateNoNUL`. -/
def nulError (L : GoLib) (entry : GoString) : GoString :=
  lit "environment entry contains NUL: " ++ L.Quote entry

/-- The message of the error returned for an entry that does not parse. -/
def formatError (L : GoLib) (entry : GoString) : GoString :=
  lit "invalid environment entry (expected name=value): " ++ L.Quote entry

/-- Model of `validateNoNUL`: `none` is the nil error. -/
def validateNoNUL (L : GoLib) (entry : GoString) : Option GoString :=
  if IndexByte entry 0 ≥ 0 then some (nulError L entry) else none

/-- The body of the `for _, e := range env` loop of
`deduplicateCaseInsensitive`, run over the remaining input with the current
`seen` map and `entries` slice. -/
def dedupLoop (L : GoLib) :
    List GoString → (GoString → Option Nat) → List envEntry → Except GoString (List envEntry)
  | [], _, entries => .ok entries
  | e :: rest, seen, entries =>
    match validateNoNUL L e with
    | some err => .error err
    | none =>
      match parseEntry e with
      | (name, value, ok) =>
        if !ok then .error (formatError L e)
        else
          let upperName := L.ToUpper name
          let entry : envEntry := { upperName := upperName, entry := name ++ [eqByte] ++ value }
          match seen upperName with
          | some idx => dedupLoop L rest seen (entries.set idx entry)
          | none =>
            dedupLoop L rest (fun k => if k = upperName then some entries.length else seen k)
              (entries ++ [entry])

/-- Model of `deduplicateCaseInsensitive`. -/
def deduplicateCaseInsensitive (L : GoLib) (env : List GoString) :
    Except GoString (List envEntry) :=
  dedupLoop L env (fun _ => none) []

/-- One insertion step of the sort. -/
def insertByLess {α : Type} (less : α → α → Bool) (x : α) : List α → List α
  | [] => [x]
  | y :: ys => if less x y then x :: y :: ys else y :: insertByLess less x ys

/-- Model of `sort.Slice`: the slice sorted by `less` (insertion sort, the algorithm
`sort.Slice` itself uses on short slices; `sortSlice_unique` shows that on
the slices `Build` sorts every sorting algorithm gives this result). -/
def sortSlice {α : Type} (less : α → α → Bool) : List α → List α
  | [] => []
  | x :: xs => insertByLess less x (sortSlice less xs)

/-- Model of `sortEntriesByName`. -/
def sortEntriesByName (entries : List envEntry) : List GoString :=
  (sortSlice (fun a b => stringLess a.upperName b.upperName) entries).map (·.entry)

/-- Model of `windows.UTF16FromString`: the code units followed by a NUL, or `EINVAL`
(here `none`) for a string with a NUL byte. -/
def UTF16FromString (L : GoLib) (s : GoString) : Option (List Nat) :=
  if IndexByte s 0 ≥ 0 then none else some (L.utf16 s ++ [0])

/-- Model of `encodeToUTF16Block`; the error of `UTF16FromString` is discarded and the
nil slice it comes with is appended. -/
def encodeToUTF16Block (L : GoLib) (entries : List GoString) : List Nat :=
  (entries.foldl (fun block entry => block ++ (UTF16FromString L entry).getD []) []) ++ [0]

/-- Model of `Build`: the pair `(block, err)`; `none` is Go's `nil`. -/
def Build (L : GoLib) (env : List GoString) : Option (List Nat) × Option GoString :=
  if env.length = 0 then (none, none)
  else
    match deduplicateCaseInsensitive L env with
    | .error err => (none, some err)
    | .ok deduped => (some (encodeToUTF16Block L (sortEntriesByName deduped)), none)

/-- Model of `environmentBlock.PointerToFirstElement`: `none` is the nil pointer,
`some i` the address of element `i`. -/
def PointerToFirstElement (b : Option (List Nat)) : Option Nat :=
  if (b.getD []).length = 0 then none else some 0

/-- ASCII upper-casing: what `strings.ToUpper` computes on ASCII strings. -/
def asciiUpper (s : GoString) : GoString :=
  s.map (fun c => if 97 ≤ c ∧ c ≤ 122 then c - 32 else c)

/-- A lower-case hexadecimal digit. -/
def hexDigit (n : Nat) : Nat := if n < 10 then 48 + n else 87 + n

/-- How `strconv.Quote` renders one ASCII byte: `"` and `\` are escaped with
a backslash, printable bytes are kept, the control bytes with a short escape
get it, the others are written `\xhh`. -/
def quoteByte (c : Nat) : GoString :=
  if c = 34 ∨ c = 92 then [92, c]
  else if 32 ≤ c ∧ c < 127 then [c]
  else if c = 7 then [92, 97]
  else if c = 8 then [92, 98]
  else if c = 12 then [92, 102]
  else if c = 10 then [92, 110]
  else if c = 13 then [92, 114]
  else if c = 9 then [92, 116]
  else if c = 11 then [92, 118]
  else [92, 120, hexDigit (c / 16), hexDigit (c % 16)]

/-- What `strconv.Quote` computes on ASCII strings. -/
def asciiQuote (s : GoString) : GoString := [34] ++ (s.map quoteByte).flatten ++ [34]

/-- An instance of the library that agrees with Go on ASCII strings. -/
def asciiLib : GoLib where
  ToUpper := asciiUpper
  Quote := asciiQuote
  utf16 := id

/-- The upper-cased name of an entry: `strings.ToUpper` of its parsed name. -/
def upperNameOf (L : GoLib) (e : GoString) : GoString := L.ToUpper (parseEntry e).1

/-- Holds when `k` is the index of the first byte `c` of `s`. -/
def IsFirstIndex (s : GoString) (c : Nat) (k : Nat) : Prop :=
  s[k]? = some c ∧ ∀ j, j < k → s[j]? ≠ some c

/-- An entry the loop of `deduplicateCaseInsensitive` accepts: it has no NUL
byte and `parseEntry` reports `ok`. -/
def entryAccepted (e : GoString) : Prop := 0 ∉ e ∧ (parseEntry e).2.2 = true

instance (e : GoString) : Decidable (entryAccepted e) := by
  unfold entryAccepted
  exact inferInstance

/-- The last entry of `env` whose upper-cased name is `u`, if there is one. -/
def lastWithName (L : GoLib) (u : GoString) (env : List GoString) : Option GoString :=
  (env.filter (fun e => upperNameOf L e = u)).getLast?

/-- The loop invariant of `deduplicateCaseInsensitive`: the upper names held
in `entries` are distinct, and `seen` maps exactly each of them to its index. -/
def SeenInv (seen : GoString → Option Nat) (entries : List envEntry) : Prop :=
  (entries.map (·.upperName)).Nodup ∧
    ∀ u i, seen u = some i ↔ (entries.map (·.upperName))[i]? = some u

/-- The entries `Build` emits for `env`, in the order of the block: what
`sortEntriesByName` returns (no entry when `Build` returns an error). -/
def emitted (L : GoLib) (env : List GoString) : List GoString :=
  match deduplicateCaseInsensitive L env with
  | .ok deduped => sortEntriesByName deduped
  | .error _ => []

/-- An ASCII letter. -/
def isASCIILetter (b : Nat) : Bool := (65 ≤ b && b ≤ 90) || (97 ≤ b && b ≤ 122)

/-- A valid entry, in the words of the specification: NUL-free, non-empty, and
either not starting with `=` and containing an `=`, or starting with `=`,
with a second byte other than `=` and an `=` at index 2 or later. -/
def validEntry (e : GoString) : Prop :=
  0 ∉ e ∧ e ≠ [] ∧
    ((e.head? ≠ some eqByte ∧ eqByte ∈ e) ∨
      (e.head? = some eqByte ∧ (∃ c, e[1]? = some c ∧ c ≠ eqByte) ∧
        ∃ i, 2 ≤ i ∧ e[i]? = some eqByte))

/-- The pieces of a block between its NUL code units. -/
def splitAtNUL : List Nat → List (List Nat)
  | [] => [[]]
  | u :: rest =>
    if u = 0 then [] :: splitAtNUL rest
    else
      match splitAtNUL rest with
      | [] => [[u]]
      | p :: ps => (u :: p) :: ps

/-- How an environment block is read: the NUL-terminated strings of the
block, up to the first empty one. -/
def blockStrings (block : List Nat) : List (List Nat) :=
  (splitAtNUL block).takeWhile (fun p => p != [])

/-- The layout of a block: each piece followed by a NUL, then a final NUL. -/
def blockOf (pieces : List (List Nat)) : List Nat :=
  (pieces.map (fun p => p ++ [0])).flatten ++ [0]

/-- An instance of the library that agrees with Go on the strings whose bytes
are ASCII bytes or the bytes `0xFE` and `0xFF`, which occur in no UTF-8
encoding: the UTF-16 encoder writes U+FFFD for each of these two bytes. -/
def replacingLib : GoLib where
  ToUpper := asciiUpper
  Quote := asciiQuote
  utf16 := fun s => s.map (fun b => if b < 128 then b else 65533)

end WinEnv

namespace Watchdog

/-! ## The watchdog receiver (`internal/watchdog/watchdog.go`)

`StartAndWaitForCompletion` runs two goroutines: the caller's (below: the main
goroutine) and the reader started at line 93.  Their interleaving, the
messages and signals that arrive, the order in which `range` visits the keys
of the map and the results of the calls on the collaborators are chosen by a
schedule, a list of `Action`s; `step` executes one action, or returns `none`
when the action cannot happen in the state.  The calls that act on the
outside (the logger, `KillProcess`, `SendGracefulShutdownCompleted`) are
appended to the trace, together with the events that arrive; calls that only
fetch a value or a channel are not.  Fields attached to a log record (`With`,
`WithError`) are not recorded. -/

/-- Model of `transport.Message`: the sealed interface with its two implementations. -/
inductive Message
  | ProcessToKill (PID : Int)
  | Shutdown
deriving DecidableEq, Repr

/-- The three cases of the `select` at line 112. -/
inductive Branch
  | shutdown
  | parentTerminated
  | interrupt
deriving DecidableEq, Repr

/-- Log levels of `entities.Logger` used by the watchdog. -/
inductive Level
  | debug
  | info
  | error
deriving DecidableEq, Repr

/-- What can be observed of a run, in order. -/
inductive Event
  /-- a call of the logger -/
  | log (level : Level) (text : String)
  /-- the reader goroutine took `rawMessage` from the receiver channel and
  passed it to `processIncomingMessage` -/
  | received (m : Message)
  /-- the reader goroutine found the receiver channel closed -/
  | channelClosed
  /-- the channel of `WatchProcessAndGetTerminationChan(parentPID)` fired -/
  | parentTerminated
  /-- a signal arrived on `InterruptSignalChan()` -/
  | interruptSignal
  /-- the main goroutine left the `select` through this case -/
  | selected (b : Branch)
  /-- a call of `processHandler.KillProcess(processPid)` (`failed`: it
  returned an error) -/
  | KillProcess (processPid : Int) (failed : Bool)
  /-- a call of `receiver.SendGracefulShutdownCompleted()` -/
  | SendGracefulShutdownCompleted (failed : Bool)
  /-- the return of `StartAndWaitForCompletion` (`failed`: with an error) -/
  | returned (failed : Bool)
deriving DecidableEq, Repr

/-- Where the main goroutine is. -/
inductive MainPC
  /-- before `NewReceiver` (line 75) -/
  | start
  /-- blocked in the `select` (line 112) -/
  | waiting
  /-- a case of the `select` has run; `terminateAllProcesses` (line 130) has
  not yet taken the lock -/
  | selected (b : Branch)
  /-- in the loop of `terminateAllProcesses` (line 162), holding the lock;
  `remaining` are the keys the `range` has not yet produced -/
  | killing (b : Branch) (remaining : List Int)
  /-- after `terminateAllProcesses` has returned; the deferred calls are pending -/
  | deferred (b : Branch)
  /-- the deferred function of the shutdown case (lines 114-120) has run -/
  | closing
  /-- after `StartAndWaitForCompletion` has returned -/
  | returned
deriving DecidableEq, Repr

/-- The state of a run. -/
structure State where
  pc : MainPC
  /-- the reader goroutine has been started and has not returned -/
  readerRunning : Bool
  /-- the channel `shutdownC` is closed -/
  shutdownC : Bool
  /-- the parent-termination channel is ready -/
  parentGone : Bool
  /-- a signal waits in the interrupt channel -/
  interruptPending : Bool
  /-- the keys of the map `processPIDsToKill` -/
  processPIDsToKill : List Int
  trace : List Event
deriving DecidableEq, Repr

/-- One step of a schedule. -/
inductive Action
  /-- main goroutine: `NewReceiver` returns (lines 75-87) -/
  | newReceiver (failed : Bool)
  /-- reader goroutine: a message arrives and is processed (lines 99-108) -/
  | deliver (m : Message)
  /-- reader goroutine: the receiver channel is closed (lines 100-103) -/
  | closeChannel
  /-- reader goroutine: `shutdownMessageProcessingC` is closed (line 97) -/
  | readerStop
  /-- the parent process terminates -/
  | parentTerminates
  /-- the operating system delivers an interrupt signal -/
  | interrupt
  /-- main goroutine: a ready case of the `select` runs (lines 112-128) -/
  | select (b : Branch)
  /-- main goroutine: `terminateAllProcesses` takes the lock (lines 155-160) -/
  | lock
  /-- main goroutine: one iteration of the `range` loop (lines 162-173) -/
  | kill (pid : Int) (failed : Bool)
  /-- main goroutine: the loop is over, the lock is released (line 156) -/
  | unlock
  /-- main goroutine: the deferred function of lines 114-120 runs -/
  | ack (failed : Bool)
  /-- main goroutine: `close(shutdownMessageProcessingC)`, the exit log, and
  the return (lines 85, 90, 132) -/
  | finish
deriving DecidableEq, Repr

/-- Model of `New`: an empty map, nothing started. -/
def init : State :=
  { pc := .start, readerRunning := false, shutdownC := false, parentGone := false,
    interruptPending := false, processPIDsToKill := [], trace := [] }

/-- The main goroutine holds `w.lock`. -/
def MainPC.holdsLock : MainPC → Bool
  | .killing _ _ => true
  | _ => false

/-- The case `b` of the `select` is ready. -/
def ready (s : State) : Branch → Bool
  | .shutdown => s.shutdownC
  | .parentTerminated => s.parentGone
  | .interrupt => s.interruptPending

/-- The debug line each case of the `select` logs. -/
def Branch.text : Branch → String
  | .shutdown => "Graceful shutdown signal received"
  | .parentTerminated => "Lost connection to parent, shutting down"
  | .interrupt => "Received unexpected graceful shutdown OS signal"

/-- Model of `processIncomingMessage`, called by the reader goroutine under the lock;
on `abort` the reader closes `shutdownC` and returns. -/
def processIncomingMessage (s : State) : Message → State
  | .ProcessToKill pid =>
    { s with
      processPIDsToKill :=
        if pid ∈ s.processPIDsToKill then s.processPIDsToKill else s.processPIDsToKill ++ [pid]
      trace := s.trace ++ [.received (.ProcessToKill pid), .log .info "Adding process to kill"] }
  | .Shutdown =>
    { s with
      shutdownC := true
      readerRunning := false
      trace := s.trace ++ [.received .Shutdown] }

/-- One step of `StartAndWaitForCompletion`; `none` when the action is not
possible in `s`. -/
def step (s : State) : Action → Option State
  | .newReceiver failed =>
    match s.pc with
    | .start =>
      if failed then some { s with pc := .returned, trace := s.trace ++ [.returned true] }
      else
        some { s with
          pc := .waiting
          readerRunning := true
          trace := s.trace ++ [.log .info "Watchdog process has started"] }
    | _ => none
  | .deliver m =>
    if s.readerRunning ∧ s.pc.holdsLock = false then some (processIncomingMessage s m) else none
  | .closeChannel =>
    if s.readerRunning then
      some { s with
        readerRunning := false
        trace := s.trace ++ [.channelClosed, .log .error "Receiver channel closed unexpectedly"] }
    else none
  | .readerStop =>
    if s.readerRunning ∧ s.pc = .returned then some { s with readerRunning := false } else none
  | .parentTerminates =>
    some { s with parentGone := true, trace := s.trace ++ [.parentTerminated] }
  | .interrupt =>
    some { s with interruptPending := true, trace := s.trace ++ [.interruptSignal] }
  | .select b =>
    match s.pc with
    | .waiting =>
      if ready s b then
        some { s with
          pc := .selected b
          interruptPending := if b = .interrupt then false else s.interruptPending
          trace := s.trace ++ [.selected b, .log .debug b.text] }
      else none
    | _ => none
  | .lock =>
    match s.pc with
    | .selected b =>
      some { s with
        pc := .killing b s.processPIDsToKill
        trace := s.trace ++ [.log .info "Trying to terminate children"] }
    | _ => none
  | .kill pid failed =>
    match s.pc with
    | .killing b remaining =>
      if pid ∈ remaining then
        some { s with
          pc := .killing b (remaining.erase pid)
          trace := s.trace ++ ([.log .debug "Killing process", .KillProcess pid failed] ++
            (if failed then [.log .error "Failed to kill child"] else [])) }
      else none
    | _ => none
  | .unlock =>
    match s.pc with
    | .killing b [] => some { s with pc := .deferred b }
    | _ => none
  | .ack failed =>
    match s.pc with
    | .deferred .shutdown =>
      some { s with
        pc := .closing
        trace := s.trace ++
          ([.log .debug "Graceful shutdown completed", .SendGracefulShutdownCompleted failed] ++
          (if failed then [.log .error "Failed to send graceful shutdown completed signal"]
            else [])) }
    | _ => none
  | .finish =>
    match s.pc with
    | .deferred .parentTerminated | .deferred .interrupt | .closing =>
      some { s with
        pc := .returned
        trace := s.trace ++ [.log .info "Watchdog process has exited", .returned false] }
    | _ => none

/-- Run a schedule. -/
def run (s : State) : List Action → Option State
  | [] => some s
  | a :: acts =>
    match step s a with
    | some s1 => run s1 acts
    | none => none

/-- The events that end the wait of the watchdog. -/
def Event.isTerminating : Event → Bool
  | .received .Shutdown => true
  | .parentTerminated => true
  | .interruptSignal => true
  | _ => false

/-- A call of `KillProcess`. -/
def Event.isKill : Event → Bool
  | .KillProcess _ _ => true
  | _ => false

/-- A call of `SendGracefulShutdownCompleted`. -/
def Event.isAck : Event → Bool
  | .SendGracefulShutdownCompleted _ => true
  | _ => false

/-- A terminating event has been observed. -/
def Armed (tr : List Event) : Prop := ∃ e ∈ tr, e.isTerminating = true

/-- Every call of `KillProcess` in the trace comes after a terminating event. -/
def GuardedKills (tr : List Event) : Prop :=
  ∀ pre e post, tr = pre ++ e :: post → e.isKill = true → Armed pre

/-- The main goroutine has left the `select` and has not yet returned. -/
def MainPC.pastSelect : MainPC → Bool
  | .selected _ => true
  | .killing _ _ => true
  | .deferred _ => true
  | .closing => true
  | _ => false

/-- The invariant behind "no kill before a terminating event". -/
def InvArmed (s : State) : Prop :=
  ((s.shutdownC = true ∨ s.parentGone = true ∨ s.interruptPending = true ∨
      s.pc.pastSelect = true) → Armed s.trace) ∧
    GuardedKills s.trace

/-- The case recorded by a `selected` event. -/
def Event.branch? : Event → Option Branch
  | .selected b => some b
  | _ => none

/-- The cases through which the `select` was left, in order. -/
def selections (tr : List Event) : List Branch := tr.filterMap Event.branch?

/-- The number of calls of `SendGracefulShutdownCompleted`. -/
def ackCount (tr : List Event) : Nat := tr.countP Event.isAck

/-- What the trace holds of selections and acknowledgements at each place of
the main goroutine. -/
def AckShape : MainPC → List Branch → Nat → Prop
  | .start, sel, n => sel = [] ∧ n = 0
  | .waiting, sel, n => sel = [] ∧ n = 0
  | .selected b, sel, n => sel = [b] ∧ n = 0
  | .killing b _, sel, n => sel = [b] ∧ n = 0
  | .deferred b, sel, n => sel = [b] ∧ n = 0
  | .closing, sel, n => sel = [.shutdown] ∧ n = 1
  | .returned, sel, n => (sel = [.shutdown] ∧ n = 1) ∨ (.shutdown ∉ sel ∧ n = 0)

/-- The invariant behind "the acknowledgement belongs to the shutdown case". -/
def InvAck (s : State) : Prop := AckShape s.pc (selections s.trace) (ackCount s.trace)

/-- Holds when `KillProcess(pid)` has been called. -/
def Killed (tr : List Event) (pid : Int) : Prop := ∃ failed, Event.KillProcess pid failed ∈ tr

/-- The invariant behind "every accumulated PID gets its kill attempt". -/
def InvKill (s : State) : Prop :=
  (s.pc = .start → s.readerRunning = false ∧ s.processPIDsToKill = [] ∧ s.shutdownC = false) ∧
  (∀ pid, Event.received (.ProcessToKill pid) ∈ s.trace → pid ∈ s.processPIDsToKill) ∧
  (s.shutdownC = true → s.readerRunning = false) ∧
  (Event.selected .shutdown ∈ s.trace → s.shutdownC = true) ∧
  (∀ b rem, s.pc = .killing b rem →
    ∀ pid ∈ s.processPIDsToKill, pid ∈ rem ∨ Killed s.trace pid) ∧
  (Event.selected .shutdown ∈ s.trace →
    (s.pc = .closing ∨ s.pc = .returned ∨ ∃ b, s.pc = .deferred b) →
    ∀ pid ∈ s.processPIDsToKill, Killed s.trace pid)

/-- The deferred calls of the main goroutine after case `b`. -/
def deferredCalls (b : Branch) (ackFailed : Bool) : List Action :=
  match b with
  | .shutdown => [.ack ackFailed, .finish]
  | _ => [.finish]

/-- The steps of the main goroutine from a state after the `select` to its
return, when `KillProcess pid` fails exactly for `results pid = true`. -/
def completion (results : Int → Bool) (ackFailed : Bool) (s : State) : List Action :=
  match s.pc with
  | .selected b =>
    .lock :: ((s.processPIDsToKill.map fun p => Action.kill p (results p)) ++
      .unlock :: deferredCalls b ackFailed)
  | .killing b rem =>
    (rem.map fun p => Action.kill p (results p)) ++ .unlock :: deferredCalls b ackFailed
  | .deferred b => deferredCalls b ackFailed
  | .closing => [.finish]
  | _ => []

/-- The run of `TestWatchdog_StartAndWatch_KillProcessError` with PIDs 111
and 222: the kill of 111 fails. -/
def gracefulSchedule : List Action :=
  [.newReceiver false, .deliver (.ProcessToKill 111), .deliver (.ProcessToKill 222),
    .deliver .Shutdown, .select .shutdown, .lock, .kill 111 true, .kill 222 false, .unlock,
    .ack false, .finish]

/-- The run of `TestWatchdog_StartAndWatch_ParentProcessTermination`. -/
def parentDeathSchedule : List Action :=
  [.newReceiver false, .deliver (.ProcessToKill 123654), .parentTerminates,
    .select .parentTerminated, .lock, .kill 123654 false, .unlock, .finish]

/-- The state a schedule that can run leads to. -/
def finalState (acts : List Action) (h : (run init acts).isSome = true) : State :=
  (run init acts).get h

/-- The invariant that ties each case of the `select` to the event that made
it ready, and every processed message to a started reader goroutine. -/
def InvCause (s : State) : Prop :=
  (s.parentGone = true → Event.parentTerminated ∈ s.trace) ∧
  (s.interruptPending = true → Event.interruptSignal ∈ s.trace) ∧
  (Event.selected .parentTerminated ∈ s.trace → Event.parentTerminated ∈ s.trace) ∧
  (Event.selected .interrupt ∈ s.trace → Event.interruptSignal ∈ s.trace) ∧
  (s.pc = .start → s.readerRunning = false ∧ ∀ m, Event.received m ∉ s.trace) ∧
  (Event.received .Shutdown ∈ s.trace → s.shutdownC = true) ∧
  (s.pc.pastSelect = true → ∃ b, Event.selected b ∈ s.trace) ∧
  (s.pc = .returned → (s.readerRunning = true ∨ ∃ m, Event.received m ∈ s.trace) →
    ∃ b, Event.selected b ∈ s.trace)

/-- Every event of the trace that satisfies `Q` comes after a part of the
trace that satisfies `R`. -/
def Ordered (Q : Event → Bool) (R : List Event → Prop) (tr : List Event) : Prop :=
  ∀ pre e post, tr = pre ++ e :: post → Q e = true → R pre

/-- The event is `selected shutdown`. -/
def Event.isShutdownSelect : Event → Bool
  | .selected .shutdown => true
  | _ => false

/-- The invariant behind "the kill set is drained after the terminating event
and before the acknowledgement". -/
def InvOrder (s : State) : Prop :=
  (s.shutdownC = true → Event.received .Shutdown ∈ s.trace) ∧
  Ordered Event.isShutdownSelect (fun pre => Event.received .Shutdown ∈ pre) s.trace ∧
  Ordered Event.isKill
    (fun pre => (∃ b, Event.selected b ∈ pre) ∧ ∀ x ∈ pre, x.isAck = false) s.trace ∧
  Ordered Event.isAck (fun pre => ∀ pid ∈ s.processPIDsToKill, Killed pre pid) s.trace

/-- All the invariants of the receiver together. -/
def InvAll (s : State) : Prop := InvAck s ∧ InvKill s ∧ InvCause s ∧ InvOrder s

/-- The PID of a `KillProcess` call. -/
def Event.killPid? : Event → Option Int
  | .KillProcess pid _ => some pid
  | _ => none

/-- The PIDs on which `KillProcess` was called, in order, one entry per call. -/
def kills (tr : List Event) : List Int := tr.filterMap Event.killPid?

/-- The PIDs of the `ProcessToKill` messages processed before the main
goroutine left the `select`. -/
def receivedBeforeSelect : List Event → List Int
  | [] => []
  | .selected _ :: _ => []
  | .received (.ProcessToKill pid) :: tr => pid :: receivedBeforeSelect tr
  | _ :: tr => receivedBeforeSelect tr

/-- The invariant behind "no PID is killed twice". -/
def InvOnce (s : State) : Prop :=
  s.processPIDsToKill.Nodup ∧
  (kills s.trace).Nodup ∧
  (∀ pid ∈ kills s.trace, pid ∈ s.processPIDsToKill) ∧
  ((s.pc = .start ∨ s.pc = .waiting ∨ ∃ b, s.pc = .selected b) → kills s.trace = []) ∧
  (∀ b rem, s.pc = .killing b rem →
    rem.Nodup ∧ ∀ pid ∈ rem, pid ∈ s.processPIDsToKill ∧ pid ∉ kills s.trace) ∧
  (∀ pid ∈ receivedBeforeSelect s.trace, pid ∈ s.processPIDsToKill) ∧
  ((s.pc = .closing ∨ s.pc = .returned ∨ ∃ b, s.pc = .deferred b) →
    ∀ pid ∈ receivedBeforeSelect s.trace, pid ∈ kills s.trace)

/-- The run in which a PID arrives after the terminate phase: PID 5 is
received, an interrupt arrives, the main goroutine kills PID 5 and releases
the lock; the reader goroutine, still running, then processes PID 7; the
main goroutine returns. -/
def lateSchedule : List Action :=
  [.newReceiver false, .deliver (.ProcessToKill 5), .interrupt, .select .interrupt, .lock,
    .kill 5 false, .unlock, .deliver (.ProcessToKill 7), .finish]

/-- The run of `TestWatchdog_StartAndWatch_MulitplePIDs`, with the first PID
sent twice. -/
def repeatedSchedule : List Action :=
  [.newReceiver false, .deliver (.ProcessToKill 123654), .deliver (.ProcessToKill 64687),
    .deliver (.ProcessToKill 123654), .deliver .Shutdown, .select .shutdown, .lock,
    .kill 64687 true, .kill 123654 false, .unlock, .ack false, .finish]

/-- The log line written once the receiver has been constructed (line 84). -/
def startedLog : Event := .log .info "Watchdog process has started"

/-- The message of a `received` event. -/
def Event.message? : Event → Option Message
  | .received m => some m
  | _ => none

/-- The messages the reader goroutine took from the receiver channel, in order. -/
def consumed (tr : List Event) : List Message := tr.filterMap Event.message?

/-- The PID carried by a `ProcessToKill` message. -/
def Message.pid? : Message → Option Int
  | .ProcessToKill pid => some pid
  | .Shutdown => none

/-- The PIDs carried by the `ProcessToKill` messages of `msgs` that precede
the first `Shutdown`. -/
def pidsBeforeShutdown : List Message → List Int
  | [] => []
  | .Shutdown :: _ => []
  | .ProcessToKill pid :: msgs => pid :: pidsBeforeShutdown msgs

/-- The invariant on how a run starts and returns, and on what the flags of
the state record. -/
def InvRet (s : State) : Prop :=
  (s.pc = .start → ∀ e ∈ s.trace, e = .parentTerminated ∨ e = .interruptSignal) ∧
  (Event.returned true ∈ s.trace → s.pc = .returned ∧ s.readerRunning = false ∧
    ∀ e ∈ s.trace, e = .returned true ∨ e = .parentTerminated ∨ e = .interruptSignal) ∧
  (Event.returned false ∈ s.trace → ∃ b, Event.selected b ∈ s.trace) ∧
  (s.pc = .returned ↔ ∃ f, Event.returned f ∈ s.trace) ∧
  (Event.parentTerminated ∈ s.trace → s.parentGone = true) ∧
  (Event.interruptSignal ∈ s.trace →
    s.interruptPending = true ∨ Event.selected .interrupt ∈ s.trace) ∧
  (Event.channelClosed ∈ s.trace → s.readerRunning = false ∧ s.shutdownC = false) ∧
  (∀ pid ∈ s.processPIDsToKill, Event.received (.ProcessToKill pid) ∈ s.trace)

/-- The invariant on the consumed messages: a `Shutdown` is the last message
the reader goroutine consumes. -/
def InvMsgs (s : State) : Prop :=
  (Message.Shutdown ∈ consumed s.trace → s.readerRunning = false) ∧
  (∀ pre post, consumed s.trace = pre ++ Message.Shutdown :: post → post = [])

/-- Every invariant of the receiver. -/
def InvFull (s : State) : Prop :=
  (InvAll s ∧ InvOnce s) ∧ InvArmed s ∧ InvRet s ∧ InvMsgs s

/-- The steps of the main goroutine (the others are those of the reader
goroutine and of the environment). -/
def Action.isMain : Action → Bool
  | .newReceiver _ => true
  | .select _ => true
  | .lock => true
  | .kill _ _ => true
  | .unlock => true
  | .ack _ => true
  | .finish => true
  | _ => false

/-- A run in which the receiver channel is closed after PID 5 was received. -/
def closedChannelSchedule : List Action :=
  [.newReceiver false, .deliver (.ProcessToKill 5), .closeChannel]

/-- The reader goroutine consumes `msgs`, one after the other. -/
def deliveries (msgs : List Message) : List Action := msgs.map Action.deliver

/-- The run in which PIDs 111 and 222 are received in this order, then
`Shutdown`, and the `range` over the map visits 222 before 111. -/
def reversedKillSchedule : List Action :=
  [.newReceiver false, .deliver (.ProcessToKill 111), .deliver (.ProcessToKill 222),
    .deliver .Shutdown, .select .shutdown, .lock, .kill 222 false, .kill 111 false, .unlock,
    .ack false, .finish]

/-- The terminate phase in which the `range` visits the keys in the order
`order`. -/
def terminatePhase (results : Int → Bool) (order : List Int) : List Action :=
  .lock :: ((order.map fun p => Action.kill p (results p)) ++ [.unlock])

end Watchdog

/-- The identity of a Go `error` value (`none` in an `Option GoError` is the
nil error); `errors.Is` on the errors used here is equality. -/
abbrev GoError := Nat

namespace WatchdogFacade

/-! ## The server-side watchdog facade (`internal/adaptors/watchdog/watchdog.go`)

The facade is a record of its two mutable fields.  Each method takes the
results of the collaborator calls it makes as arguments and returns the new
record, the calls it made in order, and how it ended. -/

/-- Log levels used by the facade. -/
inductive LogLevel
  | debug
  | error
deriving DecidableEq, Repr

/-- The calls the facade makes on its collaborators. -/
inductive Call
  /-- a call of the logger -/
  | log (level : LogLevel) (text : String)
  /-- the call `w.watchdogProcess.Stdio()`, returning the handle `stdio` -/
  | Stdio (stdio : Nat)
  /-- the call `w.transportFactory.NewClient(stdio)` and the pair it returned -/
  | NewClient (stdio : Nat) (client : Option Nat) (err : Option GoError)
  /-- the call `w.watchdogProcess.Start()` and the error it returned -/
  | ProcessStart (err : Option GoError)
  /-- the statement `close(w.startedC)` -/
  | closeStartedC
  /-- the call `client.SendProcessPID(processPID)` on the client `client` -/
  | SendProcessPID (client : Nat) (processPID : Int) (err : Option GoError)
  /-- the call `client.SendStop()` on the client `client` -/
  | SendStop (client : Nat) (err : Option GoError)
  /-- a run-time panic (closing the closed channel, calling a nil interface) -/
  | panic
deriving DecidableEq, Repr

/-- How a method call ended. -/
inductive Outcome
  /-- it returned this error (`none`: nil) -/
  | returned (err : Option GoError)
  /-- it panicked -/
  | panicked
  /-- it waits in `<-w.startedC` -/
  | blocked
deriving DecidableEq, Repr

/-- The mutable fields of the struct `Watchdog`. -/
structure Watchdog where
  /-- the field `client` (`none`: the nil interface) -/
  client : Option Nat
  /-- the channel `startedC` is closed -/
  startedC : Bool
deriving DecidableEq, Repr

/-- Model of `New`: no client, an open `startedC`. -/
def New : Watchdog := { client := none, startedC := false }

/-- Model of `Watchdog.Start`; `stdio` is what `Stdio()` returns, `newClient`
the pair `NewClient` returns, `processStart` the error `watchdogProcess.Start()`
returns. -/
def Start (w : Watchdog) (stdio : Nat) (newClient : Option Nat × Option GoError)
    (processStart : Option GoError) : Watchdog × List Call × Outcome :=
  let calls0 : List Call :=
    [.log .debug "Starting watchdog", .Stdio stdio, .NewClient stdio newClient.1 newClient.2]
  match newClient.2 with
  | some err => (w, calls0, .returned (some err))
  | none =>
    let w1 : Watchdog := { w with client := newClient.1 }
    match processStart with
    | some err =>
      (w1, calls0 ++ [.ProcessStart (some err), .log .error "Failed to start watchdog process"],
        .returned (some err))
    | none =>
      if w1.startedC then (w1, calls0 ++ [.ProcessStart none, .panic], .panicked)
      else
        ({ w1 with startedC := true },
          calls0 ++ [.ProcessStart none, .closeStartedC, .log .debug "Started watchdog"],
          .returned none)

/-- Model of `Watchdog.RegisterProcessPIDWithWatchdog`; `send` is the error
`SendProcessPID` returns. -/
def RegisterProcessPIDWithWatchdog (w : Watchdog) (processPID : Int) (send : Option GoError) :
    Watchdog × List Call × Outcome :=
  if w.startedC = false then (w, [], .blocked)
  else
    match w.client with
    | none => (w, [.log .debug "Adding child process to watchdog", .panic], .panicked)
    | some c =>
      (w, [.log .debug "Adding child process to watchdog", .SendProcessPID c processPID send],
        .returned send)

/-- Model of `Watchdog.Stop`; `send` is the error `SendStop` returns. -/
def Stop (w : Watchdog) (send : Option GoError) : Watchdog × List Call × Outcome :=
  if w.startedC = false then (w, [], .blocked)
  else
    match w.client with
    | none => (w, [.log .debug "Sending graceful shutdown signal to watchdog", .panic], .panicked)
    | some c =>
      (w, [.log .debug "Sending graceful shutdown signal to watchdog", .SendStop c send],
        .returned send)

/-- A method call on the facade together with the results of the collaborator
calls it makes. -/
inductive Op
  | Start (stdio : Nat) (newClient : Option Nat × Option GoError) (processStart : Option GoError)
  | Register (processPID : Int) (send : Option GoError)
  | Stop (send : Option GoError)
deriving DecidableEq, Repr

/-- The facade, the calls made so far, and whether the program has panicked. -/
structure Run where
  w : Watchdog
  calls : List Call
  crashed : Bool
deriving DecidableEq, Repr

/-- The method call `op` gets past its wait (if any) and runs to its end;
`none` when it cannot: the program has panicked, or the call waits in
`<-w.startedC`. -/
def step (r : Run) (op : Op) : Option Run :=
  if r.crashed then none
  else
    let res :=
      match op with
      | .Start stdio nc ps => Start r.w stdio nc ps
      | .Register pid send => RegisterProcessPIDWithWatchdog r.w pid send
      | .Stop send => Stop r.w send
    match res with
    | (_, _, .blocked) => none
    | (w1, calls, .panicked) => some { w := w1, calls := r.calls ++ calls, crashed := true }
    | (w1, calls, .returned _) => some { w := w1, calls := r.calls ++ calls, crashed := false }

/-- The method calls `ops` run to their ends in this order. -/
def run (r : Run) : List Op → Option Run
  | [] => some r
  | op :: ops =>
    match step r op with
    | some r1 => run r1 ops
    | none => none

/-- The facade right after `New`. -/
def initial : Run := { w := New, calls := [], crashed := false }

/-- A call on the transport client. -/
def Call.isClientCall : Call → Bool
  | .SendProcessPID _ _ _ => true
  | .SendStop _ _ => true
  | _ => false

/-- A `Start` that returns an error. -/
def Op.isFailedStart : Op → Bool
  | .Start _ nc ps => nc.2.isSome || ps.isSome
  | _ => false

/-- The invariant of the runs of the facade: `startedC` is closed exactly
when `close(w.startedC)` has run, that statement comes right after a
`NewClient` and a `WatchdogProcess.Start` that returned no error, and every
call on the transport client comes after it. -/
def FacadeInv (r : Run) : Prop :=
  (r.w.startedC = true ↔ Call.closeStartedC ∈ r.calls) ∧
  (∀ pre c post, r.calls = pre ++ c :: post → c.isClientCall = true →
    Call.closeStartedC ∈ pre) ∧
  (∀ pre post, r.calls = pre ++ Call.closeStartedC :: post →
    ∃ p1 stdio client, pre = p1 ++ [Call.NewClient stdio client none, Call.ProcessStart none])

/-- The run reached by the method calls `ops` from a fresh facade. -/
def finalRun (ops : List Op) (h : (run initial ops).isSome = true) : Run :=
  (run initial ops).get h

/-- Two calls of `Start`: in the first `NewClient` returns an error, in the
second `WatchdogProcess.Start` does. -/
def failedStarts : List Op :=
  [.Start 3 (none, some 1) none, .Start 3 (some 7, none) (some 2)]

end WatchdogFacade

namespace WatchdogProcess

open WinEnv

/-! ## The watchdog process (`internal/adaptors/watchdog/process/process.go`) -/

/-- The flag names of package `flags` (`flags.WatchdogMode`, `flags.BaseDir`,
`flags.ServerInstanceID`), which `New` reads; their values are declared
outside the embedded sources and are taken as given. -/
structure Flags where
  WatchdogMode : GoString
  BaseDir : GoString
  ServerInstanceID : GoString

/-- The value `osfacade.Cmd` that `osLayer.Command` builds. -/
structure Cmd where
  name : GoString
  arg : List GoString
deriving DecidableEq, Repr

/-- The calls `New` makes on its collaborators, with what they returned. -/
inductive Call
  | GetGlobalLogger
  | Args (args : List GoString)
  | BaseDir (dir : GoString)
  | ID (id : GoString)
  | Command (name : GoString) (arg : List GoString)
  | StdinPipe (err : Option GoError)
  | StdoutPipe (err : Option GoError)
  | StderrPipe (err : Option GoError)
  | logError (text : String) (err : GoError)
  | SetSysProcAttr
deriving DecidableEq, Repr

/-- How `New` ends: with the index panic of `osLayer.Args()[0]`, with
`(nil, err)`, or with the process built around the command. -/
inductive Result
  | panicked
  | error (err : GoError)
  | process (cmd : Cmd)
deriving DecidableEq, Repr

/-- Model of `New`.  `osArgs` is what `osLayer.Args()` returns, `baseDir` and
`id` what `directory.BaseDir()` and `directory.ID()` return, and the three
last arguments are the errors of `StdinPipe`, `StdoutPipe` and `StderrPipe`
(`none`: nil). -/
def New (flags : Flags) (osArgs : List GoString) (baseDir id : GoString)
    (stdinPipe stdoutPipe stderrPipe : Option GoError) : List Call × Result :=
  match osArgs with
  | [] => ([.GetGlobalLogger, .Args []], .panicked)
  | programPath :: _ =>
    let arg : List GoString :=
      [lit "--" ++ flags.WatchdogMode,
       lit "--" ++ flags.BaseDir, baseDir,
       lit "--" ++ flags.ServerInstanceID, id]
    let calls0 : List Call :=
      [.GetGlobalLogger, .Args osArgs, .BaseDir baseDir, .ID id, .Command programPath arg]
    match stdinPipe with
    | some err =>
      (calls0 ++ [.StdinPipe (some err), .logError "Failed to get stdin pipe for watchdog" err],
        .error err)
    | none =>
      match stdoutPipe with
      | some err =>
        (calls0 ++ [.StdinPipe none, .StdoutPipe (some err),
            .logError "Failed to get stdout pipe for watchdog" err],
          .error err)
      | none =>
        match stderrPipe with
        | some err =>
          (calls0 ++ [.StdinPipe none, .StdoutPipe none, .StderrPipe (some err),
              .logError "Failed to get stderr pipe for watchdog" err],
            .error err)
        | none =>
          (calls0 ++ [.StdinPipe none, .StdoutPipe none, .StderrPipe none, .SetSysProcAttr],
            .process { name := programPath, arg := arg })

/-- The `Command` calls among `calls`, as commands. -/
def commands : List Call → List Cmd
  | [] => []
  | .Command name arg :: rest => { name := name, arg := arg } :: commands rest
  | _ :: rest => commands rest

end WatchdogProcess

namespace ProcessLauncher

open WinEnv

/-! ## Finding the MATLAB child of the launcher
(`processlauncher_windows.go`, `getMATLABChildProcess`) -/

/-- The constant `EXPECTED_CHILD_MATLAB_PROCESS_NAME`. -/
def EXPECTED_CHILD_MATLAB_PROCESS_NAME : GoString := lit "MATLAB.exe"

/-- The fields of `windows.ProcessEntry32` that the search reads; `ExeFile`
holds the UTF-16 code units of the array. -/
structure ProcessEntry32 where
  ProcessID : Nat
  ParentProcessID : Nat
  ExeFile : List Nat
deriving DecidableEq, Repr

/-- The value `*os.Process`, by its field `Pid`. -/
structure Process where
  Pid : Nat
deriving DecidableEq, Repr

/-- The library calls of the search: `windows.UTF16ToString`, and whether
`os.FindProcess` returns an error for a PID (`some err`) or the process
(`none`). -/
structure OSLayer where
  UTF16ToString : List Nat → GoString
  FindProcess : Nat → Option GoError

/-- The loop `for processEntry := range snapshotProcessIterator(snapshot)`
over the entries of the snapshot in the order `Process32First`,
`Process32Next` yield them. -/
def searchSnapshot (os : OSLayer) (matlabLauncherProcessID : Nat) :
    List ProcessEntry32 → Option Process
  | [] => none
  | processEntry :: rest =>
    if processEntry.ParentProcessID ≠ matlabLauncherProcessID then
      searchSnapshot os matlabLauncherProcessID rest
    else if os.UTF16ToString processEntry.ExeFile ≠ EXPECTED_CHILD_MATLAB_PROCESS_NAME then
      searchSnapshot os matlabLauncherProcessID rest
    else
      match os.FindProcess processEntry.ProcessID with
      | some _ => searchSnapshot os matlabLauncherProcessID rest
      | none => some { Pid := processEntry.ProcessID }

/-- Model of `getMATLABChildProcess`; `snapshot` is `none` when
`CreateToolhelp32Snapshot` returns an error, else the entries of the
snapshot.  The warnings it logs are left out. -/
def getMATLABChildProcess (os : OSLayer) (snapshot : Option (List ProcessEntry32))
    (matlabLauncherProcessID : Nat) : Option Process :=
  match snapshot with
  | none => none
  | some entries => searchSnapshot os matlabLauncherProcessID entries

/-- The entry is a child of the launcher named exactly `MATLAB.exe`. -/
def isMATLABChild (os : OSLayer) (matlabLauncherProcessID : Nat) (e : ProcessEntry32) : Bool :=
  e.ParentProcessID = matlabLauncherProcessID ∧
    os.UTF16ToString e.ExeFile = EXPECTED_CHILD_MATLAB_PROCESS_NAME

/-- A decoder of `ExeFile` for names of ASCII characters: the code units up
to the first NUL. -/
def asciiUTF16ToString (units : List Nat) : GoString :=
  units.takeWhile (fun u => u != 0)

/-- An `OSLayer` in which every process can be opened. -/
def plainOS : OSLayer := { UTF16ToString := asciiUTF16ToString, FindProcess := fun _ => none }

/-- The array `ExeFile` of an entry with this executable name. -/
def exeFile (name : String) : List Nat := lit name ++ [0, 0]

/-- A snapshot in which the launcher 1 has two children named `MATLAB.exe`. -/
def twoChildren : List ProcessEntry32 :=
  [{ ProcessID := 1, ParentProcessID := 0, ExeFile := exeFile "matlab.exe" },
   { ProcessID := 10, ParentProcessID := 1, ExeFile := exeFile "MATLAB.exe" },
   { ProcessID := 11, ParentProcessID := 1, ExeFile := exeFile "MATLAB.exe" }]

/-- A snapshot in which the launcher 1 has a child named `matlab.exe`, a
child named `MATLAB.exe`, and where another `MATLAB.exe` has parent 2. -/
def oneChild : List ProcessEntry32 :=
  [{ ProcessID := 9, ParentProcessID := 2, ExeFile := exeFile "MATLAB.exe" },
   { ProcessID := 10, ParentProcessID := 1, ExeFile := exeFile "matlab.exe" },
   { ProcessID := 11, ParentProcessID := 1, ExeFile := exeFile "MATLAB.exe" }]

/-! ## Starting MATLAB (`processlauncher_windows.go`, `startMatlab`) -/

/-- An error value `startMatlab` returns: the error of a library call returned
unchanged, or one made by `fmt.Errorf` from a text and, with the verb `%w`, a
wrapped error (each error is given by its message). -/
inductive StartError
  | asIs (msg : GoString)
  | errorf (text : GoString) (wrapped : Option GoString)
deriving DecidableEq, Repr

/-- The library calls of `startMatlab` before and at the creation of the
process: `filepath.Join`, the error of `os.Stat` (`none`: nil), the error of
`windows.CreateProcess` for a command line, an environment block and a working
directory, and the message of `syscall.EINVAL`. -/
structure StartOS where
  Join : List GoString → GoString
  Stat : GoString → Option GoString
  CreateProcess : GoString → List Nat → GoString → Option GoString
  EINVAL : GoString

/-- The calls of `startMatlab` that act on the outside. -/
inductive StartCall
  /-- the call `os.Stat(matlabPath)` -/
  | Stat (path : GoString)
  /-- the call `windows.CreateProcess`, with its command line, its argument
  `env` (`none`: the nil pointer, else the index of the element of the block
  it points to), the block behind the pointer and the working directory -/
  | CreateProcess (cmdLine : GoString) (envPtr : Option Nat) (envBlock : List Nat)
      (workingDir : GoString)
deriving DecidableEq, Repr

/-- How the part of `startMatlab` up to `CreateProcess` ends: with `(nil, err)`,
or with the process created (the function then closes the thread handle and
looks for the MATLAB child of the launcher). -/
inductive StartOutcome
  | failed (err : StartError)
  | created
deriving DecidableEq, Repr

/-- Model of `windows.UTF16PtrFromString`: `EINVAL` for a string with a NUL
byte. -/
def UTF16PtrFromString (os : StartOS) (s : GoString) : Option GoString :=
  if IndexByte s 0 ≥ 0 then some os.EINVAL else none

/-- The loop that builds `cmdLine`: each argument is appended in quotes. -/
def quoteArgs (cmdLine : GoString) : List GoString → GoString
  | [] => cmdLine
  | arg :: args => quoteArgs (cmdLine ++ lit " \"" ++ arg ++ lit "\"") args

/-- Model of `startMatlab` up to the return of `windows.CreateProcess`
(lines 21-80): the calls made and how this part ends. -/
def startMatlab (L : GoLib) (os : StartOS) (matlabRoot workingDir : GoString)
    (args env : List GoString) : List StartCall × StartOutcome :=
  let matlabPath := os.Join [matlabRoot, lit "bin", lit "matlab.exe"]
  match os.Stat matlabPath with
  | some err => ([.Stat matlabPath], .failed (.asIs err))
  | none =>
    let cmdLine := quoteArgs (lit "\"" ++ matlabPath ++ lit "\"") args
    match Build L env with
    | (_, some err) =>
      ([.Stat matlabPath],
        .failed (.errorf (lit "failed to build environment block: ") (some err)))
    | (envBlock, none) =>
      match PointerToFirstElement envBlock with
      | none =>
        ([.Stat matlabPath],
          .failed (.errorf (lit "failed to get environment block pointer") none))
      | some envPtr =>
        match UTF16PtrFromString os cmdLine with
        | some err =>
          ([.Stat matlabPath],
            .failed (.errorf (lit "error converting command line: ") (some err)))
        | none =>
          match UTF16PtrFromString os workingDir with
          | some err =>
            ([.Stat matlabPath],
              .failed (.errorf (lit "error converting working directory: ") (some err)))
          | none =>
            match os.CreateProcess cmdLine (envBlock.getD []) workingDir with
            | some err =>
              ([.Stat matlabPath,
                  .CreateProcess cmdLine (some envPtr) (envBlock.getD []) workingDir],
                .failed (.errorf (lit "error creating MATLAB process: ") (some err)))
            | none =>
              ([.Stat matlabPath,
                  .CreateProcess cmdLine (some envPtr) (envBlock.getD []) workingDir],
                .created)

/-- A call of `windows.CreateProcess`. -/
def StartCall.isCreateProcess : StartCall → Bool
  | .CreateProcess _ _ _ _ => true
  | _ => false

/-- An operating system in which `matlab.exe` exists and processes can be
created. -/
def plainStartOS : StartOS where
  Join := fun parts => (parts.map fun p => p ++ [92]).flatten.dropLast
  Stat := fun _ => none
  CreateProcess := fun _ _ _ => none
  EINVAL := lit "invalid argument"

/-- An operating system in which `matlab.exe` does not exist: `os.Stat`
returns an error. -/
def missingExeOS : StartOS where
  Join := fun parts => (parts.map fun p => p ++ [92]).flatten.dropLast
  Stat := fun _ => some (lit "The system cannot find the file specified.")
  CreateProcess := fun _ _ _ => none
  EINVAL := lit "invalid argument"

end ProcessLauncher

namespace LifecycleSignaler

/-! ## The lifecycle signaler (package `lifecyclesignaler`) -/

/-- A shutdown closure, by a label that identifies it and the error it
returns when it is invoked (`none`: nil). -/
structure ShutdownFunction where
  label : Nat
  err : Option GoError
deriving DecidableEq, Repr

/-- Modelled from the spec: the state of the lifecycle signaler, whose source
file `lifecyclesignaler.go` is missing: the ordered list of registered
closures, whether shutdown has been requested, the labels of the closures
invoked so far in the order of their invocation, and the first non-nil error
a closure returned. -/
structure State where
  shutdownFuncs : List ShutdownFunction
  requested : Bool
  invoked : List Nat
  firstErr : Option GoError
deriving DecidableEq, Repr

/-- Modelled from the spec: the missing constructor `New` of the signaler:
no closure, no request. -/
def New : State := { shutdownFuncs := [], requested := false, invoked := [], firstErr := none }

/-- Modelled from the spec: the missing method `AddShutdownFunction`, which
"appends a zero-arg, error-returning closure to an ordered list". -/
def AddShutdownFunction (s : State) (fn : ShutdownFunction) : State :=
  { s with shutdownFuncs := s.shutdownFuncs ++ [fn] }

/-- Modelled from the spec: the missing execution of the closures: "All
registered closures are invoked sequentially in registration order. A
non-nil error does not abort the sequence; every closure is run. The
returned error is the first error encountered." -/
def runShutdownFunctions : List ShutdownFunction → List Nat → Option GoError →
    List Nat × Option GoError
  | [], invoked, firstErr => (invoked, firstErr)
  | fn :: rest, invoked, firstErr =>
    runShutdownFunctions rest (invoked ++ [fn.label])
      (match firstErr with
        | some e => some e
        | none => fn.err)

/-- Modelled from the spec: the missing method `RequestShutdown`, which "is
idempotent; only the first call triggers execution". -/
def RequestShutdown (s : State) : State :=
  if s.requested then s
  else
    let res := runShutdownFunctions s.shutdownFuncs s.invoked s.firstErr
    { s with requested := true, invoked := res.1, firstErr := res.2 }

/-- The error `context.DeadlineExceeded`. -/
def DeadlineExceeded : GoError := 0

/-- Modelled from the spec: the missing method `WaitForShutdownToComplete`,
which "blocks until either (a) all registered closures have run to
completion, or (b) the configured timeout elapses" and returns "the first
non-nil error returned by any closure, or a deadline-exceeded error on
timeout, or nil"; without a request it blocks (`none`).  Whether the timeout
elapses before the closures have run is the argument `timeoutElapses`. -/
def WaitForShutdownToComplete (s : State) (timeoutElapses : Bool) : Option (Option GoError) :=
  if s.requested = false then none
  else if timeoutElapses then some (some DeadlineExceeded)
  else some s.firstErr

/-- The signaler after the closures `fns` were registered in this order. -/
def register (fns : List ShutdownFunction) : State := fns.foldl AddShutdownFunction New

/-- The state after `n` calls of `RequestShutdown`. -/
def requestShutdowns (s : State) : Nat → State
  | 0 => s
  | n + 1 => requestShutdowns (RequestShutdown s) n

/-- The first non-nil error among the errors the closures return. -/
def firstError (fns : List ShutdownFunction) : Option GoError :=
  (fns.filterMap ShutdownFunction.err).head?

end LifecycleSignaler

namespace GlobalMATLAB

open WinEnv

/-! ## The global engine session (package `globalmatlab`) -/

/-- The value `entities.LocalSessionDetails` passed to `StartMATLABSession`. -/
structure LocalSessionDetails where
  MATLABRoot : GoString
  IsStartingDirectorySet : Bool
  StartingDirectory : GoString
  ShowMATLABDesktop : Bool
deriving DecidableEq, Repr

/-- The calls `Client` makes on its collaborators. -/
inductive Call
  | SelectFirstMATLABVersionOnPath
  | SelectMatlabStartingDir
  | StartMATLABSession (details : LocalSessionDetails)
  | GetMATLABSessionClient (sessionID : Nat)
deriving DecidableEq, Repr

/-- Modelled from the spec: the state machine of the global engine session,
whose source file `globalmatlab.go` is missing: "NotStarted → Running →
Done(ok) | Done(err)", as seen between two calls of `Client` (`Running` is
only seen by a caller that arrives during the initialisation).  `Done(ok)`
holds the id of the started session: the session client is not stored, it is
fetched with `GetSessionClient(sessionID)` for each caller ("the post-launch
GetSessionClient is called twice (once per resolved caller)"). -/
inductive State
  | NotStarted
  | DoneOk (sessionID : Nat)
  | DoneErr (err : GoError)
deriving DecidableEq, Repr

end GlobalMATLAB

namespace AppDirectory

open WinEnv

/-! ## The application directory (package `directory`) -/

/-- The fields of the application directory that `CreateSubDir` reads. -/
structure Directory where
  baseDir : GoString
  id : GoString
deriving DecidableEq, Repr

/-- The call of the temp-directory primitive `OSLayer.MkdirTemp`. -/
inductive Call
  | MkdirTemp (dir : GoString) (pattern : GoString)
deriving DecidableEq, Repr

/-- The function `strings.HasSuffix`. -/
def HasSuffix (s suffix : GoString) : Bool := suffix.isSuffixOf s

/-- Modelled from the spec: the missing method `Directory.CreateSubDir` of
`directory.go`, which "normalises pattern to end with a dash (foo → foo-,
foo- unchanged), appends id-, delegates to a temp-subdir primitive under
baseDir, returns the created path"; on an error of the primitive it returns
the empty path and that error.  `MkdirTemp` is the primitive. -/
def CreateSubDir (d : Directory) (pattern : GoString)
    (MkdirTemp : GoString → GoString → GoString × Option GoError) :
    List Call × (GoString × Option GoError) :=
  let pattern1 := if HasSuffix pattern (lit "-") then pattern else pattern ++ lit "-"
  let pattern2 := pattern1 ++ d.id ++ lit "-"
  match MkdirTemp d.baseDir pattern2 with
  | (_, some err) => ([.MkdirTemp d.baseDir pattern2], ([], some err))
  | (path, none) => ([.MkdirTemp d.baseDir pattern2], (path, none))

end AppDirectory

namespace WinEnv

/-! ## `strings.IndexByte` -/

theorem IndexByte_ge_neg_one (s : GoString) (c : Nat) : -1 ≤ IndexByte s c := by
  induction s with
  | nil => simp [IndexByte]
  | cons b s ih =>
    simp only [IndexByte]
    split_ifs <;> omega

theorem IndexByte_neg_iff (s : GoString) (c : Nat) : IndexByte s c < 0 ↔ c ∉ s := by
  induction s with
  | nil => simp [IndexByte]
  | cons b s ih =>
    simp only [IndexByte, List.mem_cons, not_or]
    by_cases hb : b = c
    · simp [hb]
    · have hc : ¬ c = b := fun h => hb h.symm
      simp only [hb, if_false, hc, not_false_eq_true, true_and]
      rw [← ih]
      have := IndexByte_ge_neg_one s c
      split_ifs <;> omega

theorem IndexByte_nonneg_iff (s : GoString) (c : Nat) : 0 ≤ IndexByte s c ↔ c ∈ s := by
  have := IndexByte_neg_iff s c
  constructor
  · intro h
    by_contra hc
    have := this.2 hc
    omega
  · intro h
    by_contra hc
    exact (this.1 (by omega)) h

theorem IndexByte_first (s : GoString) (c : Nat) (k : Nat) :
    IndexByte s c = (k : Int) ↔ IsFirstIndex s c k := by
  induction s generalizing k with
  | nil => simp [IndexByte, IsFirstIndex]
  | cons b s ih =>
    simp only [IndexByte, IsFirstIndex]
    by_cases hb : b = c
    · subst hb
      simp only [if_true]
      constructor
      · intro h
        have : k = 0 := by omega
        subst this
        simp
      · rintro ⟨_, h2⟩
        cases k with
        | zero => rfl
        | succ k => exact absurd (by simp) (h2 0 (by omega))
    · simp only [hb, if_false]
      have hge := IndexByte_ge_neg_one s c
      cases k with
      | zero =>
        constructor
        · intro h
          split_ifs at h
          omega
        · rintro ⟨h1, _⟩
          simp at h1
          exact absurd h1 hb
      | succ k =>
        have ihk := ih k
        constructor
        · intro h
          have hk : IndexByte s c = (k : Int) := by
            split_ifs at h
            push_cast at h
            omega
          obtain ⟨h1, h2⟩ := ihk.1 hk
          refine ⟨by simpa using h1, ?_⟩
          intro j hj
          cases j with
          | zero => simpa using hb
          | succ j => simpa using h2 j (by omega)
        · rintro ⟨h1, h2⟩
          have hk : IndexByte s c = (k : Int) :=
            ihk.2 ⟨by simpa using h1, fun j hj => by simpa using h2 (j + 1) (by omega)⟩
          rw [hk]
          split_ifs <;> push_cast <;> omega

theorem IsFirstIndex_split {s : GoString} {c k : Nat} (h : IsFirstIndex s c k) :
    s = s.take k ++ c :: s.drop (k + 1) ∧ c ∉ s.take k := by
  obtain ⟨h1, h2⟩ := h
  have hk : k < s.length := by
    by_contra hc
    rw [List.getElem?_eq_none (by omega)] at h1
    cases h1
  constructor
  · have hget : s[k] = c := by
      rw [List.getElem?_eq_getElem hk] at h1
      exact Option.some.inj h1
    conv_lhs => rw [← List.take_append_drop k s]
    rw [List.drop_eq_getElem_cons hk, hget]
  · intro hmem
    obtain ⟨j, hj, hjc⟩ := List.getElem_of_mem hmem
    have hjk : j < k := by
      simp at hj
      omega
    apply h2 j hjk
    rw [List.getElem_take] at hjc
    rw [List.getElem?_eq_getElem (by omega), hjc]

/-! ## `parseEntry` -/

theorem parseEntry_hidden_eq (entry : GoString) (hlen : 2 ≤ entry.length)
    (hhead : entry.head? = some eqByte) :
    parseEntry entry =
      if IndexByte (entry.drop 1) eqByte > 0 then
        (entry.take (IndexByte (entry.drop 1) eqByte + 1).toNat,
          entry.drop (IndexByte (entry.drop 1) eqByte + 2).toNat, true)
      else ([], [], false) := by
  unfold parseEntry
  rw [if_pos ⟨hlen, hhead⟩]

theorem parseEntry_plain_eq (entry : GoString)
    (h : ¬ (2 ≤ entry.length ∧ entry.head? = some eqByte)) :
    parseEntry entry =
      if IndexByte entry eqByte ≥ 0 ∧ entry.take (IndexByte entry eqByte).toNat ≠ [] then
        (entry.take (IndexByte entry eqByte).toNat,
          entry.drop ((IndexByte entry eqByte).toNat + 1), true)
      else ([], [], false) := by
  unfold parseEntry Cut
  rw [if_neg h]
  by_cases h0 : IndexByte entry eqByte ≥ 0
  · by_cases h1 : entry.take (IndexByte entry eqByte).toNat = []
    · simp [h0, h1]
    · simp [h0, h1]
  · simp [h0]

/-- A successfully parsed entry is its name, a `=`, and its value; the name is
not empty. -/
theorem parseEntry_ok {e n v : GoString} (h : parseEntry e = (n, v, true)) :
    n ++ [eqByte] ++ v = e ∧ n ≠ [] := by
  by_cases hh : 2 ≤ e.length ∧ e.head? = some eqByte
  · rw [parseEntry_hidden_eq e hh.1 hh.2] at h
    split_ifs at h with hidx
    swap
    · simp at h
    obtain ⟨k, hk⟩ : ∃ k : Nat, IndexByte (e.drop 1) eqByte = (k : Int) :=
      ⟨(IndexByte (e.drop 1) eqByte).toNat, by omega⟩
    rw [hk] at h hidx
    have hfirst := (IndexByte_first _ _ _).1 hk
    obtain ⟨hsplit, -⟩ := IsFirstIndex_split hfirst
    have h1 : ((k : Int) + 1).toNat = k + 1 := by omega
    have h2 : ((k : Int) + 2).toNat = k + 2 := by omega
    rw [h1, h2] at h
    simp only [Prod.mk.injEq, and_true] at h
    obtain ⟨hn, hv⟩ := h
    cases e with
    | nil => simp at hh
    | cons b r =>
      simp only [List.drop_succ_cons, List.drop_zero] at hsplit
      simp only [List.take_succ_cons] at hn
      have hv2 : r.drop (k + 1) = v := by simpa using hv
      subst hn
      subst hv2
      refine ⟨?_, by simp⟩
      simp only [List.cons_append, List.append_assoc, List.singleton_append, List.nil_append]
      rw [← hsplit]
  · rw [parseEntry_plain_eq e hh] at h
    split_ifs at h with hidx
    swap
    · simp at h
    obtain ⟨hge, hne⟩ := hidx
    obtain ⟨k, hk⟩ : ∃ k : Nat, IndexByte e eqByte = (k : Int) :=
      ⟨(IndexByte e eqByte).toNat, by omega⟩
    rw [hk] at h hne
    have hfirst := (IndexByte_first _ _ _).1 hk
    obtain ⟨hsplit, -⟩ := IsFirstIndex_split hfirst
    simp only [Int.toNat_ofNat, Prod.mk.injEq, and_true] at h hne
    obtain ⟨hn, hv⟩ := h
    subst hn
    subst hv
    refine ⟨?_, hne⟩
    simp only [List.append_assoc, List.singleton_append]
    exact hsplit.symm

theorem parseEntry_fst_snd {e : GoString} (h : (parseEntry e).2.2 = true) :
    parseEntry e = ((parseEntry e).1, (parseEntry e).2.1, true) := by
  rw [← h]

/-- An entry without any `=` does not parse. -/
theorem parseEntry_no_eq {e : GoString} (h : eqByte ∉ e) : (parseEntry e).2.2 = false := by
  have hh : ¬ (2 ≤ e.length ∧ e.head? = some eqByte) := by
    rintro ⟨-, h2⟩
    cases e with
    | nil => simp at h2
    | cons b r =>
      simp at h2
      exact h (by simp [h2])
  rw [parseEntry_plain_eq e hh]
  have := (IndexByte_neg_iff e eqByte).2 h
  rw [if_neg (by omega)]

/-- An entry that starts with `=` and has no `=` at index 2 or later does not
parse. -/
theorem parseEntry_leading_eq {e : GoString} (hhead : e.head? = some eqByte)
    (h : ∀ i, 2 ≤ i → e[i]? ≠ some eqByte) : (parseEntry e).2.2 = false := by
  by_cases hlen : 2 ≤ e.length
  · rw [parseEntry_hidden_eq e hlen hhead]
    split_ifs with hidx
    · exfalso
      obtain ⟨k, hk⟩ : ∃ k : Nat, IndexByte (e.drop 1) eqByte = (k : Int) :=
        ⟨(IndexByte (e.drop 1) eqByte).toNat, by omega⟩
      have hfirst := (IndexByte_first _ _ _).1 hk
      have hk0 : 0 < k := by omega
      apply h (k + 1) (by omega)
      have := hfirst.1
      rw [List.getElem?_drop] at this
      rw [← this]
      congr 1
      omega
    · rfl
  · have hh : ¬ (2 ≤ e.length ∧ e.head? = some eqByte) := fun hc => hlen hc.1
    rw [parseEntry_plain_eq e hh]
    cases e with
    | nil => simp at hhead
    | cons b r =>
      simp at hhead
      subst hhead
      simp [IndexByte]

/-! ## The loop of `deduplicateCaseInsensitive` -/

theorem validateNoNUL_eq_none {L : GoLib} {e : GoString} (h : 0 ∉ e) :
    validateNoNUL L e = none := by
  unfold validateNoNUL
  have := (IndexByte_neg_iff e 0).2 h
  rw [if_neg (by omega)]

theorem validateNoNUL_eq_some {L : GoLib} {e : GoString} (h : 0 ∈ e) :
    validateNoNUL L e = some (nulError L e) := by
  unfold validateNoNUL
  rw [if_pos ((IndexByte_nonneg_iff e 0).2 h)]

theorem dedupLoop_cons_nul (L : GoLib) {e : GoString} (rest : List GoString)
    (seen : GoString → Option Nat) (entries : List envEntry) (h : 0 ∈ e) :
    dedupLoop L (e :: rest) seen entries = .error (nulError L e) := by
  rw [dedupLoop, validateNoNUL_eq_some h]

theorem dedupLoop_cons_format (L : GoLib) {e : GoString} (rest : List GoString)
    (seen : GoString → Option Nat) (entries : List envEntry) (h : 0 ∉ e)
    (hp : (parseEntry e).2.2 = false) :
    dedupLoop L (e :: rest) seen entries = .error (formatError L e) := by
  rw [dedupLoop, validateNoNUL_eq_none h]
  simp only [hp, Bool.not_false, if_true]

theorem dedupLoop_cons_accepted (L : GoLib) {e : GoString} (rest : List GoString)
    (seen : GoString → Option Nat) (entries : List envEntry) (h : entryAccepted e) :
    dedupLoop L (e :: rest) seen entries =
      match seen (upperNameOf L e) with
      | some idx => dedupLoop L rest seen (entries.set idx ⟨upperNameOf L e, e⟩)
      | none =>
        dedupLoop L rest (fun k => if k = upperNameOf L e then some entries.length else seen k)
          (entries ++ [⟨upperNameOf L e, e⟩]) := by
  obtain ⟨h0, hp⟩ := h
  have hrt := (parseEntry_ok (parseEntry_fst_snd hp)).1
  rw [dedupLoop, validateNoNUL_eq_none h0]
  simp only [hp, Bool.not_true, Bool.false_eq_true, if_false, hrt, upperNameOf]

/-- Running the loop over accepted entries never fails: it arrives at the rest
of the input with some `seen` map and `entries` slice. -/
theorem dedupLoop_skip_accepted (L : GoLib) (pre : List GoString) :
    ∀ (seen : GoString → Option Nat) (entries : List envEntry),
      (∀ x ∈ pre, entryAccepted x) →
      ∃ seen1 entries1, ∀ rest,
        dedupLoop L (pre ++ rest) seen entries = dedupLoop L rest seen1 entries1 := by
  induction pre with
  | nil => intro seen entries _; exact ⟨seen, entries, fun _ => rfl⟩
  | cons x pre ih =>
    intro seen entries h
    have hx := h x (List.mem_cons_self _ _)
    have hpre : ∀ y ∈ pre, entryAccepted y := fun y hy => h y (List.mem_cons_of_mem _ hy)
    cases hs : seen (upperNameOf L x) with
    | some idx =>
      obtain ⟨s1, e1, h1⟩ := ih seen (entries.set idx ⟨upperNameOf L x, x⟩) hpre
      refine ⟨s1, e1, fun rest => ?_⟩
      rw [List.cons_append, dedupLoop_cons_accepted L _ _ _ hx, hs]
      exact h1 rest
    | none =>
      obtain ⟨s1, e1, h1⟩ := ih (fun k => if k = upperNameOf L x then some entries.length else seen k)
        (entries ++ [⟨upperNameOf L x, x⟩]) hpre
      refine ⟨s1, e1, fun rest => ?_⟩
      rw [List.cons_append, dedupLoop_cons_accepted L _ _ _ hx, hs]
      exact h1 rest

/-- A loop that returns a result accepted every entry. -/
theorem dedupLoop_ok_accepted (L : GoLib) (env : List GoString) :
    ∀ (seen : GoString → Option Nat) (entries out : List envEntry),
      dedupLoop L env seen entries = .ok out → ∀ x ∈ env, entryAccepted x := by
  induction env with
  | nil => intro _ _ _ _ x hx; cases hx
  | cons e env ih =>
    intro seen entries out h x hx
    have he : entryAccepted e := by
      by_contra hc
      by_cases h0 : 0 ∈ e
      · rw [dedupLoop_cons_nul L _ _ _ h0] at h
        cases h
      · have hp : (parseEntry e).2.2 = false := by
          cases hq : (parseEntry e).2.2
          · rfl
          · exact absurd ⟨h0, hq⟩ hc
        rw [dedupLoop_cons_format L _ _ _ h0 hp] at h
        cases h
    rcases List.mem_cons.1 hx with rfl | hx
    · exact he
    · rw [dedupLoop_cons_accepted L _ _ _ he] at h
      cases hs : seen (upperNameOf L e) with
      | some idx => rw [hs] at h; exact ih _ _ _ h x hx
      | none => rw [hs] at h; exact ih _ _ _ h x hx

/-- A loop over an input with a NUL byte in some entry returns an error. -/
theorem dedupLoop_error_of_nul (L : GoLib) (env : List GoString)
    (seen : GoString → Option Nat) (entries : List envEntry) (h : ∃ e ∈ env, 0 ∈ e) :
    ∃ msg, dedupLoop L env seen entries = .error msg := by
  cases hr : dedupLoop L env seen entries with
  | error msg => exact ⟨msg, rfl⟩
  | ok out =>
    obtain ⟨e, he, h0⟩ := h
    exact absurd h0 (dedupLoop_ok_accepted L env seen entries out hr e he).1

theorem Build_of_error {L : GoLib} {env : List GoString} {msg : GoString} (hne : env ≠ [])
    (h : deduplicateCaseInsensitive L env = .error msg) : Build L env = (none, some msg) := by
  unfold Build
  rw [if_neg (by simpa using hne), h]

theorem Build_of_ok {L : GoLib} {env : List GoString} {out : List envEntry} (hne : env ≠ [])
    (h : deduplicateCaseInsensitive L env = .ok out) :
    Build L env = (some (encodeToUTF16Block L (sortEntriesByName out)), none) := by
  unfold Build
  rw [if_neg (by simpa using hne), h]

/-! ## Go string comparison and `sort.Slice` -/

theorem stringLess_irrefl (a : GoString) : stringLess a a = false := by
  induction a with
  | nil => rfl
  | cons x a ih => simp [stringLess, ih]

theorem stringLess_trans : ∀ {a b c : GoString},
    stringLess a b = true → stringLess b c = true → stringLess a c = true
  | [], [], _, h, _ => by simp [stringLess] at h
  | [], _ :: _, [], _, h => by simp [stringLess] at h
  | [], _ :: _, _ :: _, _, _ => by simp [stringLess]
  | _ :: _, [], _, h, _ => by simp [stringLess] at h
  | _ :: _, _ :: _, [], _, h => by simp [stringLess] at h
  | x :: a, y :: b, z :: c, h1, h2 => by
    simp only [stringLess] at h1 h2 ⊢
    by_cases hxy : x < y
    · by_cases hyz : y < z
      · rw [if_pos (by omega)]
      · by_cases hzy : z < y
        · simp [hyz, hzy] at h2
        · have : y = z := by omega
          subst this
          rw [if_pos hxy]
    · by_cases hyx : y < x
      · simp [hxy, hyx] at h1
      · have hxy2 : x = y := by omega
        subst hxy2
        simp only [hxy, if_false] at h1
        by_cases hxz : x < z
        · rw [if_pos hxz]
        · by_cases hzx : z < x
          · simp [hxz, hzx] at h2
          · simp only [hxz, hzx, if_false] at h2 ⊢
            exact stringLess_trans h1 h2

theorem stringLess_total : ∀ {a b : GoString},
    stringLess a b = false → a ≠ b → stringLess b a = true
  | [], [], _, h => absurd rfl h
  | [], _ :: _, h, _ => by simp [stringLess] at h
  | _ :: _, [], _, _ => by simp [stringLess]
  | x :: a, y :: b, h1, h2 => by
    simp only [stringLess] at h1 ⊢
    by_cases hxy : x < y
    · simp [hxy] at h1
    · by_cases hyx : y < x
      · rw [if_pos hyx]
      · have hxy2 : x = y := by omega
        subst hxy2
        simp only [hxy, if_false] at h1 ⊢
        exact stringLess_total h1 (fun h => h2 (by rw [h]))

theorem stringLess_asymm {a b : GoString} (h : stringLess a b = true) :
    stringLess b a = false := by
  cases hba : stringLess b a
  · rfl
  · have := stringLess_trans h hba
    rw [stringLess_irrefl] at this
    cases this

theorem insertByLess_perm {α : Type} (less : α → α → Bool) (x : α) (l : List α) :
    (insertByLess less x l).Perm (x :: l) := by
  induction l with
  | nil => exact List.Perm.refl _
  | cons y ys ih =>
    simp only [insertByLess]
    split_ifs
    · exact List.Perm.refl _
    · exact (List.Perm.cons y ih).trans (List.Perm.swap x y ys)

theorem sortSlice_perm {α : Type} (less : α → α → Bool) (l : List α) :
    (sortSlice less l).Perm l := by
  induction l with
  | nil => exact List.Perm.refl _
  | cons x xs ih =>
    exact (insertByLess_perm less x _).trans (List.Perm.cons x ih)

/-- Inserting an entry with a fresh upper name keeps a strictly ascending
slice strictly ascending. -/
theorem insertByLess_sorted (x : envEntry) (l : List envEntry)
    (hs : l.Pairwise (fun a b => stringLess a.upperName b.upperName = true))
    (hx : ∀ y ∈ l, y.upperName ≠ x.upperName) :
    (insertByLess (fun a b => stringLess a.upperName b.upperName) x l).Pairwise
      (fun a b => stringLess a.upperName b.upperName = true) := by
  induction l with
  | nil => simp [insertByLess]
  | cons y ys ih =>
    rw [List.pairwise_cons] at hs
    simp only [insertByLess]
    split_ifs with hxy
    · refine List.pairwise_cons.2 ⟨?_, List.pairwise_cons.2 hs⟩
      intro z hz
      rcases List.mem_cons.1 hz with rfl | hz
      · exact hxy
      · exact stringLess_trans hxy (hs.1 z hz)
    · refine List.pairwise_cons.2 ⟨?_, ih hs.2 (fun z hz => hx z (List.mem_cons_of_mem _ hz))⟩
      intro z hz
      rcases List.mem_cons.1 ((insertByLess_perm _ x ys).subset hz) with rfl | hz
      · exact stringLess_total (by simpa using hxy) (fun h => hx y (List.mem_cons_self _ _) h.symm)
      · exact hs.1 z hz

/-- Sorting entries with distinct upper names puts them in strictly ascending
order of upper name. -/
theorem sortSlice_sorted (l : List envEntry) (hnd : (l.map (·.upperName)).Nodup) :
    (sortSlice (fun a b => stringLess a.upperName b.upperName) l).Pairwise
      (fun a b => stringLess a.upperName b.upperName = true) := by
  induction l with
  | nil => simp [sortSlice]
  | cons x xs ih =>
    rw [List.map_cons, List.nodup_cons] at hnd
    refine insertByLess_sorted x _ (ih hnd.2) ?_
    intro y hy hxy
    exact hnd.1 (hxy ▸ List.mem_map_of_mem _ ((sortSlice_perm _ xs).subset hy))

/-- Any rearrangement of the slice in which no element is less than an
earlier one is the one `sortSlice` returns: on slices with distinct upper
names the outcome of `sort.Slice` does not depend on the sorting algorithm. -/
theorem sortSlice_unique (l sorted : List envEntry) (hnd : (l.map (·.upperName)).Nodup)
    (hp : sorted.Perm l)
    (hs : sorted.Pairwise (fun a b => stringLess b.upperName a.upperName = false)) :
    sorted = sortSlice (fun a b => stringLess a.upperName b.upperName) l := by
  have hanti : IsAntisymm envEntry (fun a b => stringLess a.upperName b.upperName = true) :=
    ⟨fun a b hab hba => by rw [stringLess_asymm hab] at hba; cases hba⟩
  have hnd1 : (sorted.map (·.upperName)).Nodup := ((hp.map _).nodup_iff).2 hnd
  have hne : sorted.Pairwise (fun a b => a.upperName ≠ b.upperName) := by
    unfold List.Nodup at hnd1
    exact List.pairwise_map.1 hnd1
  have hstrict : sorted.Pairwise (fun a b => stringLess a.upperName b.upperName = true) :=
    (hs.and hne).imp (fun hab => stringLess_total hab.1 (Ne.symm hab.2))
  exact List.eq_of_perm_of_sorted (hp.trans (sortSlice_perm _ l).symm) hstrict
    (sortSlice_sorted l hnd)

/-! ## What the loop of `deduplicateCaseInsensitive` returns -/

theorem lastWithName_cons (L : GoLib) (u e : GoString) (rest : List GoString) :
    lastWithName L u (e :: rest) =
      match lastWithName L u rest with
      | some x => some x
      | none => if upperNameOf L e = u then some e else none := by
  unfold lastWithName
  rw [List.filter_cons]
  by_cases h : upperNameOf L e = u
  · simp only [h, decide_True, if_true, List.getLast?_cons]
    cases List.getLast? (List.filter (fun e => decide (upperNameOf L e = u)) rest) <;> rfl
  · simp only [h, decide_False, if_false, Bool.false_eq_true]
    cases List.getLast? (List.filter (fun e => decide (upperNameOf L e = u)) rest) <;> rfl

theorem lastWithName_some {L : GoLib} {u x : GoString} {env : List GoString}
    (h : lastWithName L u env = some x) : x ∈ env ∧ upperNameOf L x = u := by
  have := List.mem_of_getLast?_eq_some h
  simpa using this

theorem lastWithName_isSome {L : GoLib} {u e : GoString} {env : List GoString}
    (he : e ∈ env) (hu : upperNameOf L e = u) : ∃ x, lastWithName L u env = some x := by
  cases h : lastWithName L u env with
  | some x => exact ⟨x, rfl⟩
  | none =>
    unfold lastWithName at h
    rw [List.getLast?_eq_none_iff, List.filter_eq_nil_iff] at h
    exact absurd (by simpa using hu) (h e he)

theorem SeenInv_empty : SeenInv (fun _ => none) [] := by
  constructor
  · simp
  · intro u i
    simp

/-- One round of the loop for an accepted entry `e`, seen from the state
`entries1` it leaves: what holds of the result for the rest of the input
holds of it for `e :: rest`. -/
theorem dedup_round (L : GoLib) (e : GoString) (rest : List GoString)
    (entries entries1 out : List envEntry)
    (hmem : (⟨upperNameOf L e, e⟩ : envEntry) ∈ entries1)
    (hnd : (entries1.map (·.upperName)).Nodup)
    (hold : ∀ en ∈ entries1, en ∈ entries ∨ en = ⟨upperNameOf L e, e⟩)
    (hkeys : ∀ en ∈ entries, ∃ en1 ∈ entries1, en1.upperName = en.upperName)
    (ih : (out.map (·.upperName)).Nodup ∧
      (∀ en ∈ out, lastWithName L en.upperName rest = some en.entry ∨
        (lastWithName L en.upperName rest = none ∧ en ∈ entries1)) ∧
      (∀ x ∈ rest, ∃ en ∈ out, en.upperName = upperNameOf L x) ∧
      (∀ en ∈ entries1, ∃ en1 ∈ out, en1.upperName = en.upperName)) :
    (out.map (·.upperName)).Nodup ∧
      (∀ en ∈ out, lastWithName L en.upperName (e :: rest) = some en.entry ∨
        (lastWithName L en.upperName (e :: rest) = none ∧ en ∈ entries)) ∧
      (∀ x ∈ e :: rest, ∃ en ∈ out, en.upperName = upperNameOf L x) ∧
      (∀ en ∈ entries, ∃ en1 ∈ out, en1.upperName = en.upperName) := by
  obtain ⟨hA, hB, hC, hD⟩ := ih
  refine ⟨hA, ?_, ?_, ?_⟩
  · intro en hen
    rw [lastWithName_cons]
    rcases hB en hen with h | ⟨h, hmem1⟩
    · left
      rw [h]
    · rw [h]
      by_cases hu : upperNameOf L e = en.upperName
      · left
        have : en = ⟨upperNameOf L e, e⟩ :=
          List.inj_on_of_nodup_map hnd hmem1 hmem hu.symm
        simp only [hu, if_true]
        rw [this]
      · right
        simp only [hu, if_false, true_and]
        rcases hold en hmem1 with h1 | h1
        · exact h1
        · exact absurd (by rw [h1]) hu
  · intro x hx
    rcases List.mem_cons.1 hx with rfl | hx
    · exact hD _ hmem
    · exact hC x hx
  · intro en hen
    obtain ⟨en1, hen1, hk⟩ := hkeys en hen
    obtain ⟨en2, hen2, hk2⟩ := hD en1 hen1
    exact ⟨en2, hen2, hk2.trans hk⟩

theorem dedupLoop_spec (L : GoLib) (rest : List GoString) :
    ∀ (seen : GoString → Option Nat) (entries out : List envEntry),
      SeenInv seen entries → dedupLoop L rest seen entries = .ok out →
      (out.map (·.upperName)).Nodup ∧
      (∀ en ∈ out, lastWithName L en.upperName rest = some en.entry ∨
        (lastWithName L en.upperName rest = none ∧ en ∈ entries)) ∧
      (∀ x ∈ rest, ∃ en ∈ out, en.upperName = upperNameOf L x) ∧
      (∀ en ∈ entries, ∃ en1 ∈ out, en1.upperName = en.upperName) := by
  induction rest with
  | nil =>
    intro seen entries out hinv h
    simp only [dedupLoop, Except.ok.injEq] at h
    subst h
    refine ⟨hinv.1, fun en hen => Or.inr ⟨rfl, hen⟩, fun x hx => (by cases hx),
      fun en hen => ⟨en, hen, rfl⟩⟩
  | cons e rest ih =>
    intro seen entries out hinv h
    have he : entryAccepted e :=
      dedupLoop_ok_accepted L _ seen entries out h e (List.mem_cons_self _ _)
    rw [dedupLoop_cons_accepted L _ _ _ he] at h
    obtain ⟨hnd, hseen⟩ := hinv
    cases hs : seen (upperNameOf L e) with
    | some idx =>
      rw [hs] at h
      have hidx := (hseen _ _).1 hs
      have hlt : idx < entries.length := by
        by_contra hc
        rw [List.getElem?_eq_none (by simpa using hc)] at hidx
        cases hidx
      have hmap : (entries.set idx (envEntry.mk (upperNameOf L e) e)).map (·.upperName)
          = entries.map (·.upperName) := by
        rw [List.map_set]
        apply List.ext_getElem?
        intro j
        by_cases hj : idx = j
        · subst hj
          rw [List.getElem?_set_self (by simpa using hlt), hidx]
        · rw [List.getElem?_set_ne hj]
      have hinv1 : SeenInv seen (entries.set idx (envEntry.mk (upperNameOf L e) e)) := by
        unfold SeenInv
        rw [hmap]
        exact ⟨hnd, hseen⟩
      refine dedup_round L e rest entries _ out (List.mem_set _ _ hlt _) hinv1.1
        (fun en hen => List.mem_or_eq_of_mem_set hen) ?_ (ih _ _ _ hinv1 h)
      intro en hen
      have : en.upperName ∈ (entries.set idx (envEntry.mk (upperNameOf L e) e)).map (·.upperName) := by
        rw [hmap]
        exact List.mem_map_of_mem _ hen
      obtain ⟨en1, hen1, hk⟩ := List.mem_map.1 this
      exact ⟨en1, hen1, hk⟩
    | none =>
      rw [hs] at h
      have hfresh : upperNameOf L e ∉ entries.map (·.upperName) := by
        intro hc
        obtain ⟨i, hi, hget⟩ := List.getElem_of_mem hc
        have := (hseen (upperNameOf L e) i).2 (by rw [List.getElem?_eq_getElem hi, hget])
        rw [hs] at this
        cases this
      have hnd1 : ((entries ++ [(envEntry.mk (upperNameOf L e) e)]).map (·.upperName)).Nodup := by
        rw [List.map_append, List.map_singleton]
        exact List.Nodup.append hnd (List.nodup_singleton _) (by simpa using hfresh)
      have hinv1 : SeenInv
          (fun k => if k = upperNameOf L e then some entries.length else seen k)
          (entries ++ [(envEntry.mk (upperNameOf L e) e)]) := by
        refine ⟨hnd1, ?_⟩
        intro u i
        rw [List.map_append, List.map_singleton, List.getElem?_append]
        simp only [List.length_map]
        by_cases hu : u = upperNameOf L e
        · subst hu
          simp only [if_true, Option.some.injEq]
          constructor
          · intro hi
            subst hi
            simp
          · intro hi
            split_ifs at hi with hlt
            · exact absurd (List.mem_iff_getElem?.2 ⟨_, hi⟩) hfresh
            · by_cases heq : i = entries.length
              · exact heq.symm
              · rw [List.getElem?_eq_none (by simp; omega)] at hi
                cases hi
        · simp only [hu, if_false]
          rw [hseen u i]
          split_ifs with hlt
          · rfl
          · rw [List.getElem?_eq_none (by simpa using hlt)]
            constructor
            · intro hc
              cases hc
            · intro hc
              have := List.mem_iff_getElem?.2 ⟨_, hc⟩
              simp at this
              exact absurd this hu
      refine dedup_round L e rest entries _ out (by simp) hnd1
        (fun en hen => by simpa using hen) ?_ (ih _ _ _ hinv1 h)
      intro en hen
      exact ⟨en, by simp [hen], rfl⟩

/-- What `deduplicateCaseInsensitive` returns: entries with distinct upper
names, each of them the last input entry of its upper name, one for every
upper name of the input. -/
theorem deduplicateCaseInsensitive_spec {L : GoLib} {env : List GoString}
    {out : List envEntry} (h : deduplicateCaseInsensitive L env = .ok out) :
    (out.map (·.upperName)).Nodup ∧
    (∀ en ∈ out, lastWithName L en.upperName env = some en.entry) ∧
    (∀ x ∈ env, ∃ en ∈ out, en.upperName = upperNameOf L x) := by
  obtain ⟨hA, hB, hC, -⟩ := dedupLoop_spec L env _ _ _ SeenInv_empty h
  refine ⟨hA, ?_, hC⟩
  intro en hen
  rcases hB en hen with h1 | ⟨-, h1⟩
  · exact h1
  · cases h1

/-! ## The emitted block -/

theorem filter_key_singleton {α β : Type} [DecidableEq β] (f : α → β) (l : List α)
    (hnd : (l.map f).Nodup) (a : α) (ha : a ∈ l) :
    l.filter (fun x => f x = f a) = [a] := by
  induction l with
  | nil => cases ha
  | cons b l ih =>
    rw [List.map_cons, List.nodup_cons] at hnd
    rw [List.filter_cons]
    rcases List.mem_cons.1 ha with rfl | ha
    · simp only [decide_True, if_true, List.cons.injEq, true_and]
      rw [List.filter_eq_nil_iff]
      intro x hx hc
      exact hnd.1 ((of_decide_eq_true hc) ▸ List.mem_map_of_mem f hx)
    · have hne : ¬ f b = f a := fun hc => hnd.1 (hc ▸ List.mem_map_of_mem f ha)
      simp only [hne, decide_False, Bool.false_eq_true, if_false]
      exact ih hnd.2 ha

theorem encode_foldl (L : GoLib) (entries : List GoString) (h : ∀ e ∈ entries, 0 ∉ e) :
    ∀ acc : List Nat,
      entries.foldl (fun block entry => block ++ (UTF16FromString L entry).getD []) acc
        = acc ++ (entries.map (fun e => L.utf16 e ++ [0])).flatten := by
  induction entries with
  | nil => intro acc; simp
  | cons e entries ih =>
    intro acc
    have he : UTF16FromString L e = some (L.utf16 e ++ [0]) := by
      unfold UTF16FromString
      have := (IndexByte_neg_iff e 0).2 (h e (List.mem_cons_self _ _))
      rw [if_neg (by omega)]
    rw [List.foldl_cons, ih (fun x hx => h x (List.mem_cons_of_mem _ hx)), he]
    simp

/-- The facts about a successful `Build` that the claims on the emitted block
share. -/
theorem Build_ok_facts {L : GoLib} {env : List GoString} (hne : env ≠ [])
    (h : (Build L env).2 = none) :
    ∃ deduped, deduplicateCaseInsensitive L env = .ok deduped ∧
      (Build L env).1 = some (encodeToUTF16Block L (sortEntriesByName deduped)) ∧
      (∀ en ∈ deduped, upperNameOf L en.entry = en.upperName ∧ en.entry ∈ env ∧ 0 ∉ en.entry) := by
  cases hd : deduplicateCaseInsensitive L env with
  | error msg =>
    rw [Build_of_error hne hd] at h
    cases h
  | ok deduped =>
    refine ⟨deduped, rfl, by rw [Build_of_ok hne hd], ?_⟩
    intro en hen
    obtain ⟨hmem, hkey⟩ := lastWithName_some ((deduplicateCaseInsensitive_spec hd).2.1 en hen)
    exact ⟨hkey, hmem, (dedupLoop_ok_accepted L env _ _ _ hd _ hmem).1⟩

theorem sortEntriesByName_keys {L : GoLib} {deduped : List envEntry}
    (hwf : ∀ en ∈ deduped, upperNameOf L en.entry = en.upperName) :
    (sortEntriesByName deduped).map (upperNameOf L)
      = (sortSlice (fun a b => stringLess a.upperName b.upperName) deduped).map (·.upperName) := by
  unfold sortEntriesByName
  rw [List.map_map]
  apply List.map_congr_left
  intro en hen
  exact hwf en ((sortSlice_perm _ _).subset hen)

/-- C1: for a non-empty input on which `Build` returns no error, the block is
the encoding of the entries `sortEntriesByName` returns, and the upper-cased
names of these entries, in order, are strictly ascending in Go's string order;
hence no upper-cased name occurs twice. -/
theorem Build_sorted_by_upper_name (L : GoLib) (env : List GoString) (hne : env ≠ [])
    (h : (Build L env).2 = none) :
    ∃ deduped, deduplicateCaseInsensitive L env = .ok deduped ∧
      (Build L env).1 = some (encodeToUTF16Block L (sortEntriesByName deduped)) ∧
      ((sortEntriesByName deduped).map (upperNameOf L)).Pairwise
        (fun a b => stringLess a b = true) ∧
      ((sortEntriesByName deduped).map (upperNameOf L)).Nodup := by
  obtain ⟨deduped, hd, hb, hwf⟩ := Build_ok_facts hne h
  have hnd := (deduplicateCaseInsensitive_spec hd).1
  refine ⟨deduped, hd, hb, ?_, ?_⟩
  · rw [sortEntriesByName_keys (fun en hen => (hwf en hen).1), List.pairwise_map]
    exact sortSlice_sorted deduped hnd
  · rw [sortEntriesByName_keys (fun en hen => (hwf en hen).1)]
    exact (((sortSlice_perm _ deduped).map _).nodup_iff).2 hnd

/-- Witness of C1: `["ZEBRA=last", "ALPHA=first", "MIDDLE=middle"]`. -/
theorem Build_sorted_by_upper_name_witness :
    ∃ deduped,
      deduplicateCaseInsensitive asciiLib [lit "ZEBRA=last", lit "ALPHA=first", lit "MIDDLE=middle"]
        = .ok deduped ∧
      (Build asciiLib [lit "ZEBRA=last", lit "ALPHA=first", lit "MIDDLE=middle"]).1
        = some (encodeToUTF16Block asciiLib (sortEntriesByName deduped)) ∧
      ((sortEntriesByName deduped).map (upperNameOf asciiLib)).Pairwise
        (fun a b => stringLess a b = true) ∧
      ((sortEntriesByName deduped).map (upperNameOf asciiLib)).Nodup :=
  Build_sorted_by_upper_name asciiLib [lit "ZEBRA=last", lit "ALPHA=first", lit "MIDDLE=middle"]
    (by decide) (by decide)

/-- C2: for an input on which `Build` returns no error and an upper-cased name
`u` of some input entry, the emitted entries contain exactly one entry whose
upper-cased name is `u`, and it is, byte for byte, the last input entry whose
upper-cased name is `u`. -/
theorem Build_keeps_last_occurrence (L : GoLib) (env : List GoString)
    (h : (Build L env).2 = none) (u : GoString) (hu : ∃ e ∈ env, upperNameOf L e = u) :
    ∃ deduped x, deduplicateCaseInsensitive L env = .ok deduped ∧
      (Build L env).1 = some (encodeToUTF16Block L (sortEntriesByName deduped)) ∧
      lastWithName L u env = some x ∧
      (sortEntriesByName deduped).filter (fun e => upperNameOf L e = u) = [x] := by
  obtain ⟨e, he, hkey⟩ := hu
  have hne : env ≠ [] := List.ne_nil_of_mem he
  obtain ⟨deduped, hd, hb, hwf⟩ := Build_ok_facts hne h
  obtain ⟨hnd, hlast, hall⟩ := deduplicateCaseInsensitive_spec hd
  obtain ⟨en, hen, henu⟩ := hall e he
  rw [hkey] at henu
  refine ⟨deduped, en.entry, hd, hb, henu ▸ hlast en hen, ?_⟩
  have hperm := sortSlice_perm (fun a b : envEntry => stringLess a.upperName b.upperName) deduped
  have hnd1 : ((sortSlice (fun a b : envEntry => stringLess a.upperName b.upperName)
      deduped).map (·.upperName)).Nodup := ((hperm.map _).nodup_iff).2 hnd
  have hsingle := filter_key_singleton (·.upperName) _ hnd1 en (hperm.symm.subset hen)
  unfold sortEntriesByName
  rw [List.filter_map]
  have hcongr : (sortSlice (fun a b : envEntry => stringLess a.upperName b.upperName)
      deduped).filter ((fun e => decide (upperNameOf L e = u)) ∘ fun x => x.entry)
      = (sortSlice (fun a b : envEntry => stringLess a.upperName b.upperName)
        deduped).filter (fun x => x.upperName = en.upperName) := by
    apply List.filter_congr
    intro x hx
    simp only [Function.comp_apply, (hwf x (hperm.subset hx)).1, henu]
  rw [hcongr, hsingle]
  rfl

/-- Witness of C2: of `["path=first", "PATH=second", "Path=third"]` only
`"Path=third"` is emitted. -/
theorem Build_keeps_last_occurrence_witness :
    ∃ deduped x,
      deduplicateCaseInsensitive asciiLib [lit "path=first", lit "PATH=second", lit "Path=third"]
        = .ok deduped ∧
      (Build asciiLib [lit "path=first", lit "PATH=second", lit "Path=third"]).1
        = some (encodeToUTF16Block asciiLib (sortEntriesByName deduped)) ∧
      lastWithName asciiLib (lit "PATH") [lit "path=first", lit "PATH=second", lit "Path=third"]
        = some x ∧
      (sortEntriesByName deduped).filter (fun e => upperNameOf asciiLib e = lit "PATH") = [x] :=
  Build_keeps_last_occurrence asciiLib [lit "path=first", lit "PATH=second", lit "Path=third"]
    (by decide) (lit "PATH") ⟨lit "path=first", by decide, by decide⟩

/-- C3: for a non-empty input on which `Build` returns no error, the block is
`encodeToUTF16Block` of the sorted, de-duplicated entries, and that is the
concatenation, in order, of the UTF-16 code units of each such entry followed
by one NUL code unit, followed by one final NUL code unit. -/
theorem Build_block_layout (L : GoLib) (env : List GoString) (hne : env ≠ [])
    (h : (Build L env).2 = none) :
    ∃ deduped, deduplicateCaseInsensitive L env = .ok deduped ∧
      (Build L env).1 = some (encodeToUTF16Block L (sortEntriesByName deduped)) ∧
      encodeToUTF16Block L (sortEntriesByName deduped)
        = ((sortEntriesByName deduped).map (fun e => L.utf16 e ++ [0])).flatten ++ [0] := by
  obtain ⟨deduped, hd, hb, hwf⟩ := Build_ok_facts hne h
  refine ⟨deduped, hd, hb, ?_⟩
  unfold encodeToUTF16Block
  rw [encode_foldl L _ _ [], List.nil_append]
  intro e he
  unfold sortEntriesByName at he
  obtain ⟨en, hen, rfl⟩ := List.mem_map.1 he
  exact (hwf en ((sortSlice_perm _ _).subset hen)).2.2

/-- Witness of C3: `["PATH=C:\\Windows", "HOME=C:\\Users\\test", "SIMPLE=value"]`. -/
theorem Build_block_layout_witness :
    ∃ deduped,
      deduplicateCaseInsensitive asciiLib
          [lit "PATH=C:\\Windows", lit "HOME=C:\\Users\\test", lit "SIMPLE=value"]
        = .ok deduped ∧
      (Build asciiLib
          [lit "PATH=C:\\Windows", lit "HOME=C:\\Users\\test", lit "SIMPLE=value"]).1
        = some (encodeToUTF16Block asciiLib (sortEntriesByName deduped)) ∧
      encodeToUTF16Block asciiLib (sortEntriesByName deduped)
        = ((sortEntriesByName deduped).map (fun e => asciiLib.utf16 e ++ [0])).flatten ++ [0] :=
  Build_block_layout asciiLib
    [lit "PATH=C:\\Windows", lit "HOME=C:\\Users\\test", lit "SIMPLE=value"]
    (by decide) (by decide)

/-! ## Claims on the empty input and on rejected entries -/

/-- C4: `Build` applied to an empty (or nil) input returns the nil block and
the nil error, and the nil block has the nil pointer as its first-element
pointer. -/
theorem Build_empty_input (L : GoLib) :
    Build L [] = (none, none) ∧ PointerToFirstElement (Build L []).1 = none := by
  constructor <;> rfl

/-- C5: when some entry of the input contains a NUL byte, `Build` returns an
error and the nil block; when an entry with a NUL byte is the first entry that
is not accepted, the error is the "contains NUL" error of that entry, whether
or not the entry has the form name=value: its message contains
"contains NUL" and ends with the quoted entry. -/
theorem Build_rejects_NUL (L : GoLib) (env : List GoString) (h : ∃ e ∈ env, 0 ∈ e) :
    (∃ msg, Build L env = (none, some msg)) ∧
    ∀ pre e post, env = pre ++ e :: post → (∀ x ∈ pre, entryAccepted x) → 0 ∈ e →
      Build L env = (none, some (nulError L e)) ∧
      lit "contains NUL" <:+: nulError L e ∧ L.Quote e <:+ nulError L e := by
  have hne : env ≠ [] := by
    obtain ⟨e, he, -⟩ := h
    exact List.ne_nil_of_mem he
  constructor
  · obtain ⟨msg, hmsg⟩ := dedupLoop_error_of_nul L env (fun _ => none) [] h
    exact ⟨msg, Build_of_error hne hmsg⟩
  · intro pre e post henv hpre h0
    refine ⟨?_, ?_, ?_⟩
    · apply Build_of_error hne
      obtain ⟨s1, e1, h1⟩ := dedupLoop_skip_accepted L pre (fun _ => none) [] hpre
      rw [deduplicateCaseInsensitive, henv, h1, dedupLoop_cons_nul L _ _ _ h0]
    · exact ⟨lit "environment entry ", lit ": " ++ L.Quote e, by
        simp only [nulError, ← List.append_assoc]
        rfl⟩
    · exact ⟨_, rfl⟩

/-- Witness of C5: `["A=1", "B\x00=2", "C=3"]` is refused with the NUL error of
its second entry. -/
theorem Build_rejects_NUL_witness :
    Build asciiLib [lit "A=1", lit "B\x00=2", lit "C=3"]
      = (none, some (nulError asciiLib (lit "B\x00=2"))) :=
  ((Build_rejects_NUL asciiLib [lit "A=1", lit "B\x00=2", lit "C=3"]
    ⟨lit "B\x00=2", by decide, by decide⟩).2 [lit "A=1"] (lit "B\x00=2") [lit "C=3"] rfl
    (by decide) (by decide)).1

/-- C6: when the first entry of the input that is not accepted has no NUL byte
and either contains no `=` at all, or starts with `=` and has no `=` at index 2
or later, `Build` returns the nil block and the error whose message contains
"expected name=value". -/
theorem Build_rejects_unusable_name (L : GoLib) (pre post : List GoString) (e : GoString)
    (hpre : ∀ x ∈ pre, entryAccepted x) (hnul : 0 ∉ e)
    (hname : eqByte ∉ e ∨ (e.head? = some eqByte ∧ ∀ i, 2 ≤ i → e[i]? ≠ some eqByte)) :
    Build L (pre ++ e :: post) = (none, some (formatError L e)) ∧
      lit "expected name=value" <:+: formatError L e := by
  have hp : (parseEntry e).2.2 = false := by
    rcases hname with h | ⟨h1, h2⟩
    · exact parseEntry_no_eq h
    · exact parseEntry_leading_eq h1 h2
  constructor
  · apply Build_of_error (by simp)
    obtain ⟨s1, e1, h1⟩ := dedupLoop_skip_accepted L pre (fun _ => none) [] hpre
    rw [deduplicateCaseInsensitive, h1, dedupLoop_cons_format L _ _ _ hnul hp]
  · exact ⟨lit "invalid environment entry (", lit "): " ++ L.Quote e, by
      simp only [formatError, ← List.append_assoc]
      rfl⟩

/-- Witness of C6: `["A=1", "==value"]` is refused with the format error of
`"==value"`. -/
theorem Build_rejects_unusable_name_witness :
    Build asciiLib ([lit "A=1"] ++ lit "==value" :: [])
        = (none, some (formatError asciiLib (lit "==value"))) ∧
      lit "expected name=value" <:+: formatError asciiLib (lit "==value") :=
  Build_rejects_unusable_name asciiLib [lit "A=1"] [] (lit "==value") (by decide) (by decide)
    (Or.inr ⟨by decide, fun i hi => by
      match i, hi with
      | 2, _ => decide
      | 3, _ => decide
      | 4, _ => decide
      | 5, _ => decide
      | 6, _ => decide
      | n + 7, _ => simp [lit]⟩)

/-- C7: for an entry of length at least 2 that starts with `=`, with `k` the
index of the first `=` inside `entry[1:]`: `parseEntry` succeeds exactly when
`k` exists and `k > 0`, and then returns the name `entry[0:k+1]` and the value
`entry[k+2:]`; that name starts with `=`. -/
theorem parseEntry_hidden (entry : GoString) (hlen : 2 ≤ entry.length)
    (hhead : entry.head? = some eqByte) :
    ((parseEntry entry).2.2 = true ↔ ∃ k, IsFirstIndex (entry.drop 1) eqByte k ∧ 0 < k) ∧
    (∀ k, IsFirstIndex (entry.drop 1) eqByte k → 0 < k →
      parseEntry entry = (entry.take (k + 1), entry.drop (k + 2), true) ∧
      (entry.take (k + 1)).head? = some eqByte) := by
  have key : ∀ k, IsFirstIndex (entry.drop 1) eqByte k → 0 < k →
      parseEntry entry = (entry.take (k + 1), entry.drop (k + 2), true) := by
    intro k hk hpos
    have hidx := (IndexByte_first _ _ _).2 hk
    rw [parseEntry_hidden_eq entry hlen hhead, hidx, if_pos (by omega)]
    have h1 : ((k : Int) + 1).toNat = k + 1 := by omega
    have h2 : ((k : Int) + 2).toNat = k + 2 := by omega
    rw [h1, h2]
  refine ⟨⟨?_, ?_⟩, ?_⟩
  · intro hok
    rw [parseEntry_hidden_eq entry hlen hhead] at hok
    split_ifs at hok with hidx
    refine ⟨(IndexByte (entry.drop 1) eqByte).toNat, ?_, by omega⟩
    exact (IndexByte_first _ _ _).1 (by omega)
  · rintro ⟨k, hk, hpos⟩
    rw [key k hk hpos]
  · intro k hk hpos
    refine ⟨key k hk hpos, ?_⟩
    cases entry with
    | nil => simp at hlen
    | cons b r => simpa using hhead

/-- Witness of C7: `"=C:=C:\\path"` has the name `"=C:"` and the value
`"C:\\path"`. -/
theorem parseEntry_hidden_witness :
    parseEntry (lit "=C:=C:\\path") = (lit "=C:", lit "C:\\path", true) ∧
      (lit "=C:").head? = some eqByte :=
  (parseEntry_hidden (lit "=C:=C:\\path") (by decide) (by decide)).2 2
    ⟨by decide, fun j hj => by
      match j, hj with
      | 0, _ => decide
      | 1, _ => decide⟩ (by decide)

/-! ## The emitted entries -/

theorem pairwise_getElem? {α : Type} {R : α → α → Prop} {l : List α} (h : l.Pairwise R)
    {i j : Nat} {a b : α} (hi : l[i]? = some a) (hj : l[j]? = some b) (hij : i < j) :
    R a b := by
  obtain ⟨hi1, rfl⟩ := List.getElem?_eq_some.1 hi
  obtain ⟨hj1, rfl⟩ := List.getElem?_eq_some.1 hj
  exact List.pairwise_iff_getElem.1 h i j hi1 hj1 hij

/-- What a successful `Build` emits: the de-duplicated entries have distinct
upper-cased names, each is the last input entry of its name, and `emitted` is
their sorted list; the block is its encoding. -/
theorem emitted_deduped {L : GoLib} {env : List GoString} (h : (Build L env).2 = none) :
    ∃ deduped, deduplicateCaseInsensitive L env = .ok deduped ∧
      emitted L env = sortEntriesByName deduped ∧
      (env ≠ [] → (Build L env).1 = some (encodeToUTF16Block L (emitted L env))) ∧
      (deduped.map (·.upperName)).Nodup ∧
      (∀ en ∈ deduped, upperNameOf L en.entry = en.upperName ∧ en.entry ∈ env ∧
        entryAccepted en.entry ∧ lastWithName L en.upperName env = some en.entry) ∧
      (∀ x ∈ env, ∃ en ∈ deduped, en.upperName = upperNameOf L x) := by
  by_cases hne : env = []
  · subst hne
    refine ⟨[], rfl, rfl, fun hh => absurd rfl hh, by simp, by simp, by simp⟩
  · obtain ⟨deduped, hd, hb, hwf⟩ := Build_ok_facts hne h
    obtain ⟨hnd, hlast, hall⟩ := deduplicateCaseInsensitive_spec hd
    have hem : emitted L env = sortEntriesByName deduped := by simp [emitted, hd]
    refine ⟨deduped, hd, hem, fun _ => by rw [hem]; exact hb, hnd, ?_, hall⟩
    intro en hen
    exact ⟨(hwf en hen).1, (hwf en hen).2.1,
      dedupLoop_ok_accepted L env _ _ _ hd _ (hwf en hen).2.1, hlast en hen⟩

/-- The emitted entries are accepted entries of the input, and their
upper-cased names are strictly ascending. -/
theorem emitted_sorted {L : GoLib} {env : List GoString} (h : (Build L env).2 = none) :
    (∀ e ∈ emitted L env, e ∈ env ∧ entryAccepted e) ∧
    ((emitted L env).map (upperNameOf L)).Pairwise (fun a b => stringLess a b = true) := by
  obtain ⟨deduped, -, hem, -, hnd, hwf, -⟩ := emitted_deduped h
  rw [hem]
  constructor
  · intro e he
    unfold sortEntriesByName at he
    obtain ⟨en, hen, rfl⟩ := List.mem_map.1 he
    have hen1 := (sortSlice_perm _ _).subset hen
    exact ⟨(hwf en hen1).2.1, (hwf en hen1).2.2.1⟩
  · rw [sortEntriesByName_keys (fun en hen => (hwf en hen).1), List.pairwise_map]
    exact sortSlice_sorted deduped hnd

theorem stringLess_head {a b : GoString} {x y : Nat} (ha : a.head? = some x)
    (hb : b.head? = some y) (hxy : x < y) : stringLess a b = true ∧ stringLess b a = false := by
  cases a with
  | nil => cases ha
  | cons a0 a =>
    cases b with
    | nil => cases hb
    | cons b0 b =>
      simp only [List.head?_cons, Option.some.injEq] at ha hb
      subst ha hb
      simp only [stringLess]
      constructor
      · rw [if_pos hxy]
      · rw [if_neg (by omega), if_pos hxy]

theorem isASCIILetter_gt {b : Nat} (h : isASCIILetter b = true) : eqByte < b := by
  simp only [isASCIILetter, Bool.or_eq_true, Bool.and_eq_true, decide_eq_true_eq] at h
  show 61 < b
  omega

/-- C24: let `strings.ToUpper` keep a leading `=` and map a name whose first
byte is above `=` (such as a letter) to a name whose first byte is above `=`.
Then, in the entries emitted by a successful `Build`, every entry whose name
starts with `=` comes before every entry whose name starts with a letter (or
any other byte above `=`); and the entries `=C:=C:\Users\test` and
`PATH=C:\Windows` are emitted in this order, whatever their order in the
input. -/
theorem hidden_entries_come_first (L : GoLib)
    (hEq : ∀ s : GoString, s.head? = some eqByte → (L.ToUpper s).head? = some eqByte)
    (hGt : ∀ (s : GoString) (b : Nat), s.head? = some b → eqByte < b →
      ∃ c, (L.ToUpper s).head? = some c ∧ eqByte < c)
    (env : List GoString) (h : (Build L env).2 = none) :
    (∀ (i j : Nat) (x y : GoString) (b : Nat), (emitted L env)[i]? = some x → (emitted L env)[j]? = some y →
      (parseEntry x).1.head? = some eqByte → (parseEntry y).1.head? = some b →
      (isASCIILetter b = true ∨ eqByte < b) → i < j) ∧
    emitted asciiLib [lit "=C:=C:\\Users\\test", lit "PATH=C:\\Windows"] =
      [lit "=C:=C:\\Users\\test", lit "PATH=C:\\Windows"] ∧
    emitted asciiLib [lit "PATH=C:\\Windows", lit "=C:=C:\\Users\\test"] =
      [lit "=C:=C:\\Users\\test", lit "PATH=C:\\Windows"] := by
  refine ⟨?_, by decide, by decide⟩
  intro i j x y b hi hj hx hy hb
  have hb1 : eqByte < b := by
    rcases hb with hb | hb
    · exact isASCIILetter_gt hb
    · exact hb
  have hux : (upperNameOf L x).head? = some eqByte := hEq _ hx
  obtain ⟨c, huy, hc⟩ := hGt _ b hy hb1
  have hpw := (emitted_sorted h).2
  have hi1 : ((emitted L env).map (upperNameOf L))[i]? = some (upperNameOf L x) := by
    rw [List.getElem?_map, hi]
    rfl
  have hj1 : ((emitted L env).map (upperNameOf L))[j]? = some (upperNameOf L y) := by
    rw [List.getElem?_map, hj]
    rfl
  rcases Nat.lt_trichotomy i j with hlt | heq | hgt
  · exact hlt
  · exfalso
    subst heq
    rw [hi] at hj
    simp only [Option.some.injEq] at hj
    subst hj
    rw [hx] at hy
    simp only [Option.some.injEq] at hy
    omega
  · exfalso
    have := pairwise_getElem? hpw hj1 hi1 hgt
    have h2 : stringLess (upperNameOf L y) (upperNameOf L x) = false :=
      (stringLess_head hux huy hc).2
    change stringLess (upperNameOf L y) (upperNameOf L x) = true at this
    rw [h2] at this
    cases this

/-- Witness of C24: with ASCII upper-casing, in the block built from
`PATH=C:\Windows` and `=C:=C:\Users\test` the hidden entry has index 0 and the
entry `PATH` index 1. -/
theorem hidden_entries_come_first_witness :
    (emitted asciiLib [lit "PATH=C:\\Windows", lit "=C:=C:\\Users\\test"])[0]? =
        some (lit "=C:=C:\\Users\\test") ∧
      (emitted asciiLib [lit "PATH=C:\\Windows", lit "=C:=C:\\Users\\test"])[1]? =
        some (lit "PATH=C:\\Windows") ∧
      0 < 1 :=
  ⟨by decide, by decide,
   (hidden_entries_come_first asciiLib
    (by
      intro s hs
      cases s with
      | nil => cases hs
      | cons a s =>
        simp only [List.head?_cons, Option.some.injEq] at hs
        subst hs
        rfl)
    (by
      intro s b hs hb
      cases s with
      | nil => cases hs
      | cons a s =>
        simp only [List.head?_cons, Option.some.injEq] at hs
        subst hs
        refine ⟨_, rfl, ?_⟩
        show 61 < (if 97 ≤ a ∧ a ≤ 122 then a - 32 else a)
        have : 61 < a := hb
        split <;> omega)
    [lit "PATH=C:\\Windows", lit "=C:=C:\\Users\\test"] (by decide)).1 0 1
    (lit "=C:=C:\\Users\\test") (lit "PATH=C:\\Windows") 80 (by decide) (by decide)
    (by decide) (by decide) (Or.inl (by decide))⟩

/-! ## The entries `Build` accepts -/

theorem IndexByte_pos_iff (s : GoString) (c : Nat) :
    0 < IndexByte s c ↔ s.head? ≠ some c ∧ c ∈ s := by
  cases s with
  | nil => simp [IndexByte]
  | cons b t =>
    simp only [IndexByte, List.head?_cons, ne_eq, Option.some.injEq, List.mem_cons]
    by_cases hb : b = c
    · simp [hb]
    · rw [if_neg hb]
      have h1 := IndexByte_neg_iff t c
      have h2 := IndexByte_ge_neg_one t c
      by_cases hm : c ∈ t
      · have : ¬ IndexByte t c < 0 := fun hh => (h1.1 hh) hm
        rw [if_neg this]
        simp only [hb, not_false_eq_true, hm, or_true, and_self, iff_true]
        omega
      · have : IndexByte t c < 0 := h1.2 hm
        rw [if_pos this]
        simp [hm, Ne.symm hb]

/-- When `parseEntry` reports `ok`, by the shape of the entry. -/
theorem parseEntry_ok_iff (e : GoString) :
    (parseEntry e).2.2 = true ↔
      (e.head? ≠ some eqByte ∧ eqByte ∈ e) ∨
      (∃ c u, e = eqByte :: c :: u ∧ c ≠ eqByte ∧ eqByte ∈ u) := by
  by_cases hh : 2 ≤ e.length ∧ e.head? = some eqByte
  · obtain ⟨hlen, hhead⟩ := hh
    rw [parseEntry_hidden_eq e hlen hhead]
    obtain ⟨a, c, u, rfl⟩ : ∃ a c u, e = a :: c :: u := by
      rcases e with _ | ⟨a, _ | ⟨c, u⟩⟩
      · simp at hlen
      · simp at hlen
      · exact ⟨a, c, u, rfl⟩
    simp only [List.head?_cons, Option.some.injEq] at hhead
    subst hhead
    have hpos := IndexByte_pos_iff (c :: u) eqByte
    simp only [List.drop_succ_cons, List.drop_zero, gt_iff_lt]
    by_cases hp : 0 < IndexByte (c :: u) eqByte
    · rw [if_pos hp]
      have := hpos.1 hp
      simp only [List.head?_cons, ne_eq, Option.some.injEq, List.mem_cons] at this
      simp only [true_iff]
      right
      refine ⟨c, u, rfl, this.1, ?_⟩
      rcases this.2 with h1 | h1
      · exact absurd h1.symm this.1
      · exact h1
    · rw [if_neg hp]
      simp only [Bool.false_eq_true, List.head?_cons, ne_eq, not_true_eq_false, false_and,
        false_or, false_iff, not_exists, not_and]
      intro c1 u1 heq hc hu
      simp only [List.cons.injEq, true_and] at heq
      obtain ⟨rfl, rfl⟩ := heq
      exact hp (hpos.2 ⟨by simpa using hc, List.mem_cons_of_mem _ hu⟩)
  · rw [parseEntry_plain_eq e hh]
    have hpos := IndexByte_pos_iff e eqByte
    have hfirst : (IndexByte e eqByte ≥ 0 ∧ e.take (IndexByte e eqByte).toNat ≠ []) ↔
        0 < IndexByte e eqByte := by
      constructor
      · rintro ⟨h1, h2⟩
        rcases lt_or_eq_of_le h1 with h3 | h3
        · exact h3
        · rw [← h3] at h2
          simp at h2
      · intro h1
        refine ⟨le_of_lt h1, ?_⟩
        have hne : e ≠ [] := List.ne_nil_of_mem (hpos.1 h1).2
        cases e with
        | nil => exact absurd rfl hne
        | cons a t =>
          have : 0 < (IndexByte (a :: t) eqByte).toNat := by omega
          obtain ⟨n, hn⟩ : ∃ n, (IndexByte (a :: t) eqByte).toNat = n + 1 :=
            ⟨_, (Nat.succ_pred_eq_of_pos this).symm⟩
          rw [hn]
          simp
    by_cases hp : 0 < IndexByte e eqByte
    · rw [if_pos (hfirst.2 hp)]
      simp only [true_iff]
      exact Or.inl (hpos.1 hp)
    · rw [if_neg (fun hh1 => hp (hfirst.1 hh1))]
      simp only [Bool.false_eq_true, false_iff, not_or, not_exists, not_and]
      refine ⟨fun hh1 hm => hp (hpos.2 ⟨hh1, hm⟩), ?_⟩
      intro c u heq
      exfalso
      apply hh
      rw [heq]
      exact ⟨by simp, rfl⟩

/-- The valid entries are the entries the loop accepts. -/
theorem validEntry_iff_accepted (e : GoString) : validEntry e ↔ entryAccepted e := by
  unfold validEntry entryAccepted
  rw [parseEntry_ok_iff]
  constructor
  · rintro ⟨hnul, -, h | ⟨hhead, ⟨c, hc, hne⟩, i, hi, hie⟩⟩
    · exact ⟨hnul, Or.inl h⟩
    · refine ⟨hnul, Or.inr ?_⟩
      rcases e with _ | ⟨a, _ | ⟨c1, u⟩⟩
      · cases hhead
      · simp at hc
      · simp only [List.head?_cons, Option.some.injEq] at hhead
        simp only [List.getElem?_cons_succ, List.getElem?_cons_zero, Option.some.injEq] at hc
        subst hhead hc
        refine ⟨c1, u, rfl, hne, ?_⟩
        obtain ⟨k, rfl⟩ : ∃ k, i = k + 2 := ⟨i - 2, by omega⟩
        simp only [List.getElem?_cons_succ] at hie
        exact List.mem_iff_getElem?.2 ⟨k, hie⟩
  · rintro ⟨hnul, h | ⟨c, u, rfl, hne, hu⟩⟩
    · exact ⟨hnul, List.ne_nil_of_mem h.2, Or.inl h⟩
    · refine ⟨hnul, by simp, Or.inr ⟨rfl, ⟨c, by simp, hne⟩, ?_⟩⟩
      obtain ⟨k, hk⟩ := List.getElem?_of_mem hu
      exact ⟨k + 2, by omega, by simpa using hk⟩

/-- The loop returns a result exactly when it accepts every entry. -/
theorem Build_ok_iff_accepted (L : GoLib) (env : List GoString) :
    (Build L env).2 = none ↔ ∀ e ∈ env, entryAccepted e := by
  by_cases hne : env = []
  · subst hne
    simp [Build]
  · constructor
    · intro h e he
      obtain ⟨deduped, hd, -⟩ := Build_ok_facts hne h
      exact dedupLoop_ok_accepted L env _ _ _ hd e he
    · intro hall
      obtain ⟨seen1, entries1, hloop⟩ := dedupLoop_skip_accepted L env (fun _ => none) [] hall
      have hd : deduplicateCaseInsensitive L env = .ok entries1 := by
        have := hloop []
        rw [List.append_nil] at this
        rw [deduplicateCaseInsensitive, this]
        rfl
      rw [Build_of_ok hne hd]

/-- C25: `Build` returns no error exactly when every entry of the input is
valid: NUL-free, non-empty, and either not starting with `=` and containing an
`=`, or starting with `=`, with a second byte other than `=` and an `=` at
index 2 or later; on a non-empty input of valid entries it returns a block.
Empty values, values with further `=` and names with spaces are valid. -/
theorem Build_succeeds_iff_valid (L : GoLib) (env : List GoString) :
    ((Build L env).2 = none ↔ ∀ e ∈ env, validEntry e) ∧
    (env ≠ [] → (∀ e ∈ env, validEntry e) → ∃ block, Build L env = (some block, none)) ∧
    (validEntry (lit "A=") ∧ validEntry (lit "A=b=c") ∧ validEntry (lit "MY VAR=x") ∧
      validEntry (lit "=C:=C:\\path")) := by
  have hiff : (Build L env).2 = none ↔ ∀ e ∈ env, validEntry e := by
    rw [Build_ok_iff_accepted]
    exact forall₂_congr fun e _ => (validEntry_iff_accepted e).symm
  refine ⟨hiff, ?_, ?_⟩
  · intro hne hall
    obtain ⟨deduped, -, hb, -⟩ := Build_ok_facts hne (hiff.2 hall)
    exact ⟨_, Prod.ext hb (hiff.2 hall)⟩
  · exact ⟨(validEntry_iff_accepted _).2 (by decide), (validEntry_iff_accepted _).2 (by decide),
      (validEntry_iff_accepted _).2 (by decide), (validEntry_iff_accepted _).2 (by decide)⟩

/-! ## What the block depends on -/

theorem lastWithName_nil_iff {L : GoLib} {env : List GoString} :
    (∀ u, lastWithName L u env = none) ↔ env = [] := by
  constructor
  · intro h
    cases env with
    | nil => rfl
    | cons e rest =>
      obtain ⟨x, hx⟩ := lastWithName_isSome (L := L) (List.mem_cons_self e rest) rfl
      rw [h] at hx
      cases hx
  · rintro rfl u
    rfl

/-- The block depends on the input only through the last entry of each
upper-cased name. -/
theorem Build_congr_last {L : GoLib} {env1 env2 : List GoString}
    (h1 : (Build L env1).2 = none) (h2 : (Build L env2).2 = none)
    (hlast : ∀ u, lastWithName L u env1 = lastWithName L u env2) :
    emitted L env1 = emitted L env2 ∧ Build L env1 = Build L env2 := by
  obtain ⟨d1, hd1, hem1, hb1, hnd1, hwf1, hall1⟩ := emitted_deduped h1
  obtain ⟨d2, hd2, hem2, hb2, hnd2, hwf2, hall2⟩ := emitted_deduped h2
  have hsub : ∀ {envA envB : List GoString} {dA dB : List envEntry},
      (∀ en ∈ dA, lastWithName L en.upperName envA = some en.entry) →
      (∀ en ∈ dB, lastWithName L en.upperName envB = some en.entry) →
      (∀ x ∈ envB, ∃ en ∈ dB, en.upperName = upperNameOf L x) →
      (∀ u, lastWithName L u envA = lastWithName L u envB) →
      ∀ en ∈ dA, en ∈ dB := by
    intro envA envB dA dB hA hB hcov hl en hen
    have hlA := hA en hen
    rw [hl] at hlA
    obtain ⟨hx, hkey⟩ := lastWithName_some hlA
    obtain ⟨en1, hen1, hk1⟩ := hcov _ hx
    rw [hkey] at hk1
    have hlB := hB en1 hen1
    rw [hk1, hlA] at hlB
    simp only [Option.some.injEq] at hlB
    have : en1 = en := by
      cases en1
      cases en
      simp only at hk1 hlB
      rw [hk1, hlB]
    rw [← this]
    exact hen1
  have hperm : d1.Perm d2 := by
    rw [List.perm_ext_iff_of_nodup (List.Nodup.of_map _ hnd1) (List.Nodup.of_map _ hnd2)]
    intro en
    exact ⟨hsub (fun en hen => (hwf1 en hen).2.2.2) (fun en hen => (hwf2 en hen).2.2.2)
        hall2 hlast en,
      hsub (fun en hen => (hwf2 en hen).2.2.2) (fun en hen => (hwf1 en hen).2.2.2)
        hall1 (fun u => (hlast u).symm) en⟩
  have hsorted : sortSlice (fun a b => stringLess a.upperName b.upperName) d1 =
      sortSlice (fun a b => stringLess a.upperName b.upperName) d2 := by
    refine sortSlice_unique d2 _ hnd2 ((sortSlice_perm _ d1).trans hperm) ?_
    exact (sortSlice_sorted d1 hnd1).imp (fun hab => stringLess_asymm hab)
  have hem : emitted L env1 = emitted L env2 := by
    rw [hem1, hem2]
    unfold sortEntriesByName
    rw [hsorted]
  refine ⟨hem, ?_⟩
  by_cases hne : env1 = []
  · have hne2 : env2 = [] := by
      apply lastWithName_nil_iff.1
      intro u
      rw [← hlast u]
      exact lastWithName_nil_iff.2 hne u
    rw [hne, hne2]
  · have hne2 : env2 ≠ [] := by
      intro hc
      apply hne
      apply lastWithName_nil_iff.1
      intro u
      rw [hlast u]
      exact lastWithName_nil_iff.2 hc u
    exact Prod.ext (by rw [hb1 hne, hb2 hne2, hem]) (by rw [h1, h2])

/-- The emitted entries have distinct upper-cased names, each is the last
input entry of its name, and every name of the input is among them. -/
theorem emitted_last {L : GoLib} {env : List GoString} (h : (Build L env).2 = none) :
    ((emitted L env).map (upperNameOf L)).Nodup ∧
    (∀ e ∈ emitted L env, lastWithName L (upperNameOf L e) env = some e) ∧
    (∀ x ∈ env, ∃ e ∈ emitted L env, upperNameOf L e = upperNameOf L x) := by
  obtain ⟨d, hd, hem, -, hnd, hwf, hall⟩ := emitted_deduped h
  have hperm := sortSlice_perm (fun a b : envEntry => stringLess a.upperName b.upperName) d
  refine ⟨?_, ?_, ?_⟩
  · rw [hem, sortEntriesByName_keys (fun en hen => (hwf en hen).1)]
    exact ((hperm.map _).nodup_iff).2 hnd
  · intro e he
    rw [hem] at he
    unfold sortEntriesByName at he
    obtain ⟨en, hen, rfl⟩ := List.mem_map.1 he
    have hen1 := hperm.subset hen
    rw [(hwf en hen1).1]
    exact (hwf en hen1).2.2.2
  · intro x hx
    obtain ⟨en, hen, hk⟩ := hall x hx
    refine ⟨en.entry, ?_, by rw [(hwf en hen).1, hk]⟩
    rw [hem]
    unfold sortEntriesByName
    exact List.mem_map_of_mem _ (hperm.symm.subset hen)

/-- In a list with distinct upper-cased names, the last entry of a name is the
entry of that name. -/
theorem lastWithName_of_nodup {L : GoLib} {l : List GoString}
    (hnd : (l.map (upperNameOf L)).Nodup) {e : GoString} (he : e ∈ l) :
    lastWithName L (upperNameOf L e) l = some e := by
  unfold lastWithName
  rw [filter_key_singleton (upperNameOf L) l hnd e he]
  rfl

theorem lastWithName_eq_none {L : GoLib} {l : List GoString} {u : GoString}
    (h : ∀ e ∈ l, upperNameOf L e ≠ u) : lastWithName L u l = none := by
  unfold lastWithName
  rw [List.filter_eq_nil_iff.2 (fun e he => by simpa using h e he)]
  rfl

/-- C26: when `Build` returns no error on `env`, it returns no error on the
list of the entries it emitted, and returns the same block for it; the
entries emitted for that list are the same entries in the same order. -/
theorem Build_idempotent (L : GoLib) (env : List GoString) (h : (Build L env).2 = none) :
    (Build L (emitted L env)).2 = none ∧
    Build L (emitted L env) = Build L env ∧
    emitted L (emitted L env) = emitted L env := by
  obtain ⟨e1, e2, e3⟩ := emitted_last h
  have h2 : (Build L (emitted L env)).2 = none :=
    (Build_ok_iff_accepted L _).2 (fun e he => ((emitted_sorted h).1 e he).2)
  have hlast : ∀ u, lastWithName L u env = lastWithName L u (emitted L env) := by
    intro u
    cases hl : lastWithName L u env with
    | some x =>
      obtain ⟨hx, hkey⟩ := lastWithName_some hl
      obtain ⟨e, he, hk⟩ := e3 x hx
      have hle := e2 e he
      rw [hk, hkey, hl] at hle
      simp only [Option.some.injEq] at hle
      subst hle
      rw [← hkey]
      exact (lastWithName_of_nodup e1 he).symm
    | none =>
      refine (lastWithName_eq_none ?_).symm
      intro e he hk
      have hle := e2 e he
      rw [hk, hl] at hle
      cases hle
  obtain ⟨c1, c2⟩ := Build_congr_last h h2 hlast
  exact ⟨h2, c2.symm, c1.symm⟩

/-- Witness of C26: for `["path=first", "B=2", "PATH=second", "A=1"]` the
emitted entries are `["A=1", "B=2", "PATH=second"]`, and `Build` returns the
same block for them. -/
theorem Build_idempotent_witness :
    emitted asciiLib [lit "path=first", lit "B=2", lit "PATH=second", lit "A=1"] =
        [lit "A=1", lit "B=2", lit "PATH=second"] ∧
      Build asciiLib
          (emitted asciiLib [lit "path=first", lit "B=2", lit "PATH=second", lit "A=1"]) =
        Build asciiLib [lit "path=first", lit "B=2", lit "PATH=second", lit "A=1"] :=
  ⟨by decide,
   (Build_idempotent asciiLib [lit "path=first", lit "B=2", lit "PATH=second", lit "A=1"]
    (by decide)).2.1⟩

/-- C27: let `Build` return no error on `env`.  When no two entries of `env`
have the same upper-cased name, `Build` returns the same block, without
error, for every rearrangement `env1` of `env`.  In general, `Build` returns
the same block for every input it accepts in which each upper-cased name has
the same last entry as in `env`: the order of the input matters only through
which entry of a name comes last. -/
theorem Build_independent_of_order (L : GoLib) (env env1 : List GoString)
    (h : (Build L env).2 = none) :
    ((env.map (upperNameOf L)).Nodup → env1.Perm env → Build L env1 = Build L env) ∧
    ((Build L env1).2 = none → (∀ u, lastWithName L u env1 = lastWithName L u env) →
      Build L env1 = Build L env) := by
  constructor
  · intro hnd hperm
    have h1 : (Build L env1).2 = none :=
      (Build_ok_iff_accepted L _).2
        (fun e he => (Build_ok_iff_accepted L env).1 h e (hperm.subset he))
    have hnd1 : (env1.map (upperNameOf L)).Nodup := ((hperm.map _).nodup_iff).2 hnd
    refine (Build_congr_last h1 h ?_).2
    intro u
    by_cases hu : ∃ e ∈ env, upperNameOf L e = u
    · obtain ⟨e, he, rfl⟩ := hu
      rw [lastWithName_of_nodup hnd he, lastWithName_of_nodup hnd1 (hperm.symm.subset he)]
    · rw [lastWithName_eq_none (fun e he hk => hu ⟨e, he, hk⟩),
        lastWithName_eq_none (fun e he hk => hu ⟨e, hperm.subset he, hk⟩)]
  · intro h1 hlast
    exact (Build_congr_last h1 h hlast).2

/-- Witness of C27: `["B=2", "a=1", "C=3"]` and its rearrangement
`["C=3", "B=2", "a=1"]` give the same block. -/
theorem Build_independent_of_order_witness :
    Build asciiLib [lit "C=3", lit "B=2", lit "a=1"] =
      Build asciiLib [lit "B=2", lit "a=1", lit "C=3"] :=
  (Build_independent_of_order asciiLib [lit "B=2", lit "a=1", lit "C=3"]
    [lit "C=3", lit "B=2", lit "a=1"] (by decide)).1 (by decide) (by decide)

/-! ## Reading the block back -/

theorem splitAtNUL_ne_nil (l : List Nat) : splitAtNUL l ≠ [] := by
  cases l with
  | nil => simp [splitAtNUL]
  | cons u rest =>
    simp only [splitAtNUL]
    split
    · simp
    · split <;> simp

theorem splitAtNUL_piece (p rest : List Nat) (hp : 0 ∉ p) :
    splitAtNUL (p ++ 0 :: rest) = p :: splitAtNUL rest := by
  induction p with
  | nil => simp [splitAtNUL]
  | cons u p ih =>
    have hu : u ≠ 0 := fun h => hp (by rw [h]; exact List.mem_cons_self _ _)
    have ih1 := ih (fun h => hp (List.mem_cons_of_mem _ h))
    rw [List.cons_append]
    simp only [splitAtNUL, if_neg hu]
    show (match splitAtNUL (p ++ 0 :: rest) with
      | [] => [[u]]
      | q :: qs => (u :: q) :: qs) = _
    rw [ih1]

theorem blockOf_cons (p : List Nat) (ps : List (List Nat)) :
    blockOf (p :: ps) = p ++ 0 :: blockOf ps := by
  simp [blockOf]

theorem splitAtNUL_blockOf (ps : List (List Nat)) (h : ∀ p ∈ ps, 0 ∉ p) :
    splitAtNUL (blockOf ps) = ps ++ [[], []] := by
  induction ps with
  | nil => simp [blockOf, splitAtNUL]
  | cons p ps ih =>
    rw [blockOf_cons, splitAtNUL_piece p _ (h p (List.mem_cons_self _ _)),
      ih (fun q hq => h q (List.mem_cons_of_mem _ hq))]
    rfl

theorem blockStrings_blockOf (ps : List (List Nat)) (h : ∀ p ∈ ps, 0 ∉ p ∧ p ≠ []) :
    blockStrings (blockOf ps) = ps := by
  rw [blockStrings, splitAtNUL_blockOf ps (fun p hp => (h p hp).1)]
  induction ps with
  | nil => rfl
  | cons p ps ih =>
    have hp := (h p (List.mem_cons_self _ _)).2
    simp only [List.cons_append, List.takeWhile_cons, bne_iff_ne, ne_eq, hp, not_false_eq_true,
      decide_True, if_true]
    rw [ih (fun q hq => h q (List.mem_cons_of_mem _ hq))]

/-- In the layout of non-empty pieces without NUL, two NULs in a row only
occur at the end. -/
theorem blockOf_double_NUL (ps : List (List Nat)) (h : ∀ p ∈ ps, 0 ∉ p ∧ p ≠ []) :
    ∀ pre post, blockOf ps = pre ++ 0 :: 0 :: post → post = [] := by
  induction ps with
  | nil =>
    intro pre post heq
    have := congrArg List.length heq
    simp [blockOf] at this
    omega
  | cons p ps ih =>
    intro pre post heq
    obtain ⟨hp0, hpne⟩ := h p (List.mem_cons_self _ _)
    have hps := fun q hq => h q (List.mem_cons_of_mem _ hq)
    rw [blockOf_cons] at heq
    rcases List.append_eq_append_iff.1 heq with ⟨a1, h1, h2⟩ | ⟨c1, h1, h2⟩
    · -- `pre = p ++ a1`
      cases a1 with
      | nil =>
        simp only [List.nil_append, List.cons.injEq, true_and] at h2
        cases ps with
        | nil =>
          simp only [blockOf, List.map_nil, List.flatten_nil, List.nil_append,
            List.cons.injEq, true_and] at h2
          exact h2.symm
        | cons q qs =>
          exfalso
          obtain ⟨hq0, hqne⟩ := hps q (List.mem_cons_self _ _)
          rw [blockOf_cons] at h2
          cases q with
          | nil => exact hqne rfl
          | cons x q =>
            simp only [List.cons_append, List.cons.injEq] at h2
            exact hq0 (by rw [h2.1]; exact List.mem_cons_self _ _)
      | cons x a1 =>
        simp only [List.cons_append, List.cons.injEq] at h2
        exact ih hps a1 post h2.2
    · -- `p = pre ++ c1`, and `c1` starts with the NUL
      cases c1 with
      | nil =>
        simp only [List.nil_append, List.cons.injEq, true_and] at h2
        rw [List.append_nil] at h1
        cases ps with
        | nil =>
          simp only [blockOf, List.map_nil, List.flatten_nil, List.nil_append,
            List.cons.injEq, true_and] at h2
          exact h2
        | cons q qs =>
          exfalso
          obtain ⟨hq0, hqne⟩ := hps q (List.mem_cons_self _ _)
          rw [blockOf_cons] at h2
          cases q with
          | nil => exact hqne rfl
          | cons x q =>
            simp only [List.cons_append, List.cons.injEq] at h2
            exact hq0 (by rw [h2.1]; exact List.mem_cons_self _ _)
      | cons x c1 =>
        exfalso
        simp only [List.cons_append, List.cons.injEq] at h2
        apply hp0
        rw [h1, ← h2.1]
        simp

theorem blockOf_ends (ps : List (List Nat)) (hne : ps ≠ []) : [0, 0] <:+ blockOf ps := by
  rcases List.eq_nil_or_concat ps with h | ⟨init, last, rfl⟩
  · exact absurd h hne
  · refine ⟨(init.map (fun p => p ++ [0])).flatten ++ last, ?_⟩
    simp [blockOf]

/-- An accepted entry is not empty. -/
theorem entryAccepted_ne_nil {e : GoString} (h : entryAccepted e) : e ≠ [] := by
  rintro rfl
  have := h.2
  simp [parseEntry, Cut, IndexByte] at this

theorem encodeToUTF16Block_eq_blockOf (L : GoLib) (entries : List GoString)
    (h : ∀ e ∈ entries, 0 ∉ e) :
    encodeToUTF16Block L entries = blockOf (entries.map L.utf16) := by
  unfold encodeToUTF16Block blockOf
  rw [encode_foldl L entries h, List.nil_append, List.map_map]
  rfl

/-- Counterexample to C28 as stated: with the encoder writing U+FFFD for a
byte that is no UTF-8, the inputs `["A=\xff"]` and `["A=\xfe"]` are both
accepted and give the same block, so no way of reading blocks back yields the
emitted entries of both. -/
theorem block_does_not_determine_entries :
    ¬ ∃ decode : List Nat → List GoString, ∀ env : List GoString, env ≠ [] →
      (Build replacingLib env).2 = none →
      ∃ block, (Build replacingLib env).1 = some block ∧
        decode block = emitted replacingLib env := by
  rintro ⟨decode, h⟩
  obtain ⟨b1, hb1, hd1⟩ := h [lit "A=" ++ [255]] (by decide) (by decide)
  obtain ⟨b2, hb2, hd2⟩ := h [lit "A=" ++ [254]] (by decide) (by decide)
  have e1 : (Build replacingLib [lit "A=" ++ [255]]).1 = some [65, 61, 65533, 0, 0] := by decide
  have e2 : (Build replacingLib [lit "A=" ++ [254]]).1 = some [65, 61, 65533, 0, 0] := by decide
  rw [e1] at hb1
  rw [e2] at hb2
  have hb : b1 = b2 := by
    rw [← Option.some.injEq, ← hb1, ← hb2]
  rw [hb, hd2] at hd1
  exact absurd hd1 (by decide)

/-- C28 (amended): let the UTF-16 encoder write no NUL code unit for a string
without NUL byte and at least one code unit for a non-empty string.  Then the
block returned by a successful `Build` on a non-empty input is not empty, so
its first-element pointer is not nil; it ends with two NUL code units and has
no two NUL code units in a row before; the NUL-terminated strings read from it
are the encodings of the emitted entries in order, none of them empty; and for
every decoder that inverts the encoder on the emitted entries (as UTF-16
decoding does on entries that are valid UTF-8), decoding these strings yields
exactly the emitted entries in order. -/
theorem block_is_decodable (L : GoLib)
    (hnul : ∀ s : GoString, 0 ∉ s → 0 ∉ L.utf16 s)
    (hne : ∀ s : GoString, s ≠ [] → L.utf16 s ≠ [])
    (env : List GoString) (henv : env ≠ []) (h : (Build L env).2 = none) :
    ∃ block, (Build L env).1 = some block ∧
      block ≠ [] ∧ PointerToFirstElement (some block) ≠ none ∧
      [0, 0] <:+ block ∧
      (∀ pre post, block = pre ++ 0 :: 0 :: post → post = []) ∧
      blockStrings block = (emitted L env).map L.utf16 ∧
      (∀ p ∈ blockStrings block, p ≠ []) ∧
      (∀ dec : List Nat → GoString, (∀ e ∈ emitted L env, dec (L.utf16 e) = e) →
        (blockStrings block).map dec = emitted L env) := by
  obtain ⟨d, hd, hem, hb, -, -, hall⟩ := emitted_deduped h
  have hacc := (emitted_sorted h).1
  have hnoNUL : ∀ e ∈ emitted L env, 0 ∉ e := fun e he => (hacc e he).2.1
  have hpieces : ∀ p ∈ (emitted L env).map L.utf16, 0 ∉ p ∧ p ≠ [] := by
    intro p hp
    obtain ⟨e, he, rfl⟩ := List.mem_map.1 hp
    exact ⟨hnul e (hnoNUL e he), hne e (entryAccepted_ne_nil (hacc e he).2)⟩
  have hnonempty : (emitted L env).map L.utf16 ≠ [] := by
    obtain ⟨x, hx⟩ := List.exists_mem_of_ne_nil env henv
    obtain ⟨e, he, -⟩ := (emitted_last h).2.2 x hx
    intro hc
    rw [List.map_eq_nil_iff] at hc
    rw [hc] at he
    cases he
  have hblock := encodeToUTF16Block_eq_blockOf L (emitted L env) hnoNUL
  have hstrings := blockStrings_blockOf _ hpieces
  refine ⟨_, hb henv, ?_, ?_, ?_, ?_, ?_, ?_, ?_⟩
  · rw [encodeToUTF16Block]
    simp
  · have : (encodeToUTF16Block L (emitted L env)).length ≠ 0 := by
      rw [encodeToUTF16Block]
      simp
    simp [PointerToFirstElement, this]
  · rw [hblock]
    exact blockOf_ends _ hnonempty
  · rw [hblock]
    exact blockOf_double_NUL _ hpieces
  · rw [hblock, hstrings]
  · rw [hblock, hstrings]
    exact fun p hp => (hpieces p hp).2
  · intro dec hdec
    rw [hblock, hstrings, List.map_map]
    conv_rhs => rw [← List.map_id (emitted L env)]
    exact List.map_congr_left (fun e he => hdec e he)

/-- Witness of C28 (amended): the block of `["B=2", "A=1"]` is read back as
`["A=1", "B=2"]`. -/
theorem block_is_decodable_witness :
    ∃ block, (Build asciiLib [lit "B=2", lit "A=1"]).1 = some block ∧
      block ≠ [] ∧ PointerToFirstElement (some block) ≠ none ∧
      [0, 0] <:+ block ∧
      (∀ pre post, block = pre ++ 0 :: 0 :: post → post = []) ∧
      blockStrings block = (emitted asciiLib [lit "B=2", lit "A=1"]).map asciiLib.utf16 ∧
      (∀ p ∈ blockStrings block, p ≠ []) ∧
      (∀ dec : List Nat → GoString,
        (∀ e ∈ emitted asciiLib [lit "B=2", lit "A=1"], dec (asciiLib.utf16 e) = e) →
        (blockStrings block).map dec = emitted asciiLib [lit "B=2", lit "A=1"]) :=
  block_is_decodable asciiLib (fun _ hs => hs) (fun _ hs => hs) [lit "B=2", lit "A=1"]
    (by decide) (by decide)

end WinEnv

namespace Watchdog

/-! ## Invariants of the runs of the watchdog -/

theorem run_invariant (P : State → Prop)
    (hstep : ∀ s a s1, P s → step s a = some s1 → P s1) :
    ∀ (acts : List Action) (s0 s : State), P s0 → run s0 acts = some s → P s := by
  intro acts
  induction acts with
  | nil =>
    intro s0 s h0 h
    simp only [run, Option.some.injEq] at h
    exact h ▸ h0
  | cons a acts ih =>
    intro s0 s h0 h
    simp only [run] at h
    cases hs : step s0 a with
    | none => rw [hs] at h; cases h
    | some s1 =>
      rw [hs] at h
      exact ih s1 s (hstep s0 a s1 h0 hs) h

theorem Armed_append {tr : List Event} (h : Armed tr) (evs : List Event) : Armed (tr ++ evs) := by
  obtain ⟨e, he, ht⟩ := h
  exact ⟨e, List.mem_append_left _ he, ht⟩

theorem GuardedKills_append {tr evs : List Event} (h : GuardedKills tr)
    (hevs : (∃ e ∈ evs, e.isKill = true) → Armed tr) : GuardedKills (tr ++ evs) := by
  intro pre e post heq hk
  rcases List.append_eq_append_iff.1 heq with ⟨a1, hpre, hevs1⟩ | ⟨c1, htr, hc⟩
  · have : Armed tr := hevs ⟨e, by rw [hevs1]; simp, hk⟩
    rw [hpre]
    exact Armed_append this _
  · cases c1 with
    | nil =>
      simp only [List.nil_append] at hc
      simp only [List.append_nil] at htr
      rw [← htr]
      exact hevs ⟨e, by rw [← hc]; simp, hk⟩
    | cons x c1 =>
      simp only [List.cons_append, List.cons.injEq] at hc
      obtain ⟨rfl, -⟩ := hc
      exact h pre e c1 htr hk

theorem Armed_append_iff (tr evs : List Event) : Armed (tr ++ evs) ↔ Armed tr ∨ Armed evs := by
  simp only [Armed, List.mem_append]
  constructor
  · rintro ⟨e, he | he, ht⟩
    · exact Or.inl ⟨e, he, ht⟩
    · exact Or.inr ⟨e, he, ht⟩
  · rintro (⟨e, he, ht⟩ | ⟨e, he, ht⟩)
    · exact ⟨e, Or.inl he, ht⟩
    · exact ⟨e, Or.inr he, ht⟩

theorem Armed_cons_iff (e : Event) (tr : List Event) :
    Armed (e :: tr) ↔ e.isTerminating = true ∨ Armed tr := by
  simp [Armed]

theorem Armed_nil_iff : Armed [] ↔ False := by
  simp [Armed]

theorem ready_flags {s : State} {b : Branch} (h : ready s b = true) :
    s.shutdownC = true ∨ s.parentGone = true ∨ s.interruptPending = true := by
  cases b <;> simp_all [ready]

theorem InvArmed_step (s : State) (a : Action) (s1 : State) (hinv : InvArmed s)
    (h : step s a = some s1) : InvArmed s1 := by
  obtain ⟨harm, hg⟩ := hinv
  cases a <;> simp only [step] at h <;> (try split at h) <;> (try split at h) <;>
    (try (simp only [Option.some.injEq, reduceCtorEq] at h)) <;> (try subst h) <;>
    (try (simp only [processIncomingMessage]; split)) <;>
    refine ⟨?_, ?_⟩ <;> dsimp only
  all_goals first
    | exact hg
    | (apply GuardedKills_append hg
       intro hk
       first
         | (exfalso; revert hk; simp [Event.isKill]; done)
         | (refine harm ?_; simp_all [MainPC.pastSelect]; done))
    | (intro hor
       try simp only [Armed_append_iff, Armed_cons_iff, Armed_nil_iff, Event.isTerminating]
       first
         | (simp; done)
         | (refine harm ?_; simp_all [MainPC.pastSelect]; done)
         | (left; refine harm ?_; simp_all [MainPC.pastSelect]; done)
         | (left; refine harm ?_; have hr := ready_flags (by assumption); tauto))

theorem selections_append (tr evs : List Event) :
    selections (tr ++ evs) = selections tr ++ selections evs := by
  simp [selections]

theorem ackCount_append (tr evs : List Event) :
    ackCount (tr ++ evs) = ackCount tr + ackCount evs := by
  simp [ackCount]

theorem InvAck_step (s : State) (a : Action) (s1 : State) (hinv : InvAck s)
    (h : step s a = some s1) : InvAck s1 := by
  unfold InvAck at hinv ⊢
  cases a <;> simp only [step] at h <;> (try split at h) <;> (try split at h) <;>
    (try (simp only [Option.some.injEq, reduceCtorEq] at h)) <;> (try subst h) <;>
    (try (simp only [processIncomingMessage]; split)) <;> (try dsimp only)
  all_goals first
    | exact hinv
    | (simp only [selections_append, ackCount_append]
       simpa [selections, ackCount, Event.branch?, Event.isAck] using hinv)
    | (try simp only [selections_append, ackCount_append]
       simp_all [AckShape, selections, ackCount, Event.branch?, Event.isAck])

theorem mem_insertPID (pid q : Int) (l : List Int) :
    q ∈ (if pid ∈ l then l else l ++ [pid]) ↔ q ∈ l ∨ q = pid := by
  split_ifs with h
  · constructor
    · exact Or.inl
    · rintro (h1 | rfl)
      · exact h1
      · exact h
  · simp

theorem Killed_append (tr evs : List Event) (pid : Int) :
    Killed (tr ++ evs) pid ↔ Killed tr pid ∨ Killed evs pid := by
  simp only [Killed, List.mem_append]
  constructor
  · rintro ⟨f, h | h⟩
    · exact Or.inl ⟨f, h⟩
    · exact Or.inr ⟨f, h⟩
  · rintro (⟨f, h⟩ | ⟨f, h⟩)
    · exact ⟨f, Or.inl h⟩
    · exact ⟨f, Or.inr h⟩

theorem InvKill_step (s : State) (a : Action) (s1 : State) (hinv : InvKill s)
    (h : step s a = some s1) : InvKill s1 := by
  obtain ⟨h0, hrecv, hsd, hsel, hkill, hdone⟩ := hinv
  cases a <;> simp only [step] at h <;> (try split at h) <;> (try split at h) <;>
    (try (simp only [Option.some.injEq, reduceCtorEq] at h)) <;> (try subst h) <;>
    (try (simp only [processIncomingMessage]; split)) <;>
    refine ⟨?_, ?_, ?_, ?_, ?_, ?_⟩ <;> (try dsimp only)
  all_goals first
    | assumption
    | (simp_all [Killed_append, mem_insertPID, Killed]; done)
    | (intro pid hmem
       rw [mem_insertPID]
       rcases List.mem_append.1 hmem with h1 | h1
       · exact Or.inl (hrecv pid h1)
       · simp at h1
         exact Or.inr h1)
    | (intro b rem hpc
       exfalso
       simp_all [MainPC.holdsLock]
       done)
    | (intro hmem
       rcases List.mem_append.1 hmem with h1 | h1
       · exact hsel h1
       · simp at h1
         subst h1
         simp_all [ready])
    | (rename_i pid0 failed0 _ b0 rem0 heq0 hmem0
       intro b rem hpc pid hpid
       simp only [MainPC.killing.injEq] at hpc
       obtain ⟨rfl, rfl⟩ := hpc
       rw [Killed_append]
       rcases hkill b0 rem0 heq0 pid hpid with h1 | h1
       · by_cases hp : pid = pid0
         · right
           right
           exact ⟨failed0, by simp [hp]⟩
         · left
           exact (List.mem_erase_of_ne hp).2 h1
       · right
         left
         exact h1)

theorem InvArmed_init : InvArmed init := by
  constructor
  · simp [init, MainPC.pastSelect]
  · intro pre e post h
    simp [init] at h

theorem InvAck_init : InvAck init := by
  simp [InvAck, init, AckShape, selections, ackCount]

theorem InvKill_init : InvKill init := by
  simp [InvKill, init]

theorem run_append (s : State) (xs ys : List Action) :
    run s (xs ++ ys) = (run s xs).bind (fun s1 => run s1 ys) := by
  induction xs generalizing s with
  | nil => rfl
  | cons a xs ih =>
    simp only [List.cons_append, run]
    cases step s a with
    | none => rfl
    | some s1 => exact ih s1

theorem finalState_run (acts : List Action) (h : (run init acts).isSome = true) :
    run init acts = some (finalState acts h) := by
  simp [finalState]

theorem mem_selections (b : Branch) (tr : List Event) :
    b ∈ selections tr ↔ Event.selected b ∈ tr := by
  simp only [selections, List.mem_filterMap]
  constructor
  · rintro ⟨e, he, hb⟩
    cases e <;> simp [Event.branch?] at hb
    subst hb
    exact he
  · intro h
    exact ⟨_, h, rfl⟩

theorem isTerminating_iff (e : Event) :
    e.isTerminating = true ↔
      e = .received .Shutdown ∨ e = .parentTerminated ∨ e = .interruptSignal := by
  cases e with
  | received m => cases m <;> simp [Event.isTerminating]
  | _ => simp [Event.isTerminating]

theorem InvCause_init : InvCause init := by
  simp [InvCause, init, MainPC.pastSelect]

theorem InvCause_step (s : State) (a : Action) (s1 : State) (hinv : InvCause s)
    (h : step s a = some s1) : InvCause s1 := by
  obtain ⟨hp, hi, hsp, hsi, h0, hsd, hpast, hret⟩ := hinv
  cases a <;> simp only [step] at h <;> (try split at h) <;> (try split at h) <;>
    (try (simp only [Option.some.injEq, reduceCtorEq] at h)) <;> (try subst h) <;>
    (try (simp only [processIncomingMessage]; split)) <;>
    refine ⟨?_, ?_, ?_, ?_, ?_, ?_, ?_, ?_⟩ <;> (try dsimp only)
  all_goals first
    | assumption
    | (simp_all [MainPC.pastSelect]; done)
    | (intro hmem
       rcases List.mem_append.1 hmem with h1 | h1
       · first
           | exact List.mem_append_left _ (hsp h1)
           | exact List.mem_append_left _ (hsi h1)
       · simp at h1
         subst h1
         first
           | exact List.mem_append_left _ (hp (by simp_all [ready]))
           | exact List.mem_append_left _ (hi (by simp_all [ready])))

/-! ## The terminate phase runs to the end -/

theorem run_kills (results : Int → Bool) (b : Branch) :
    ∀ (rem : List Int) (s : State), s.pc = .killing b rem →
      ∃ s1, run s (rem.map fun p => Action.kill p (results p)) = some s1 ∧
        s1.pc = .killing b [] := by
  intro rem
  induction rem with
  | nil => intro s hs; exact ⟨s, rfl, hs⟩
  | cons p rem ih =>
    intro s hs
    simp only [List.map_cons, run, step, hs, List.mem_cons, true_or, if_true,
      List.erase_cons_head]
    exact ih _ rfl

theorem run_deferredCalls (b : Branch) (ackFailed : Bool) (s : State) (hs : s.pc = .deferred b) :
    ∃ s1, run s (deferredCalls b ackFailed) = some s1 ∧ s1.pc = .returned := by
  cases b <;> simp [deferredCalls, run, step, hs]

/-- After the `select`, the main goroutine runs to its return whatever
`KillProcess` and `SendGracefulShutdownCompleted` return. -/
theorem completion_returns (results : Int → Bool) (ackFailed : Bool) (s : State)
    (hs : s.pc.pastSelect = true ∨ s.pc = .returned) :
    ∃ s1, run s (completion results ackFailed s) = some s1 ∧ s1.pc = .returned := by
  have hunlock : ∀ (b : Branch) (s2 : State), s2.pc = .killing b [] →
      ∃ s1, run s2 (.unlock :: deferredCalls b ackFailed) = some s1 ∧ s1.pc = .returned := by
    intro b s2 h2
    simp only [run, step, h2]
    exact run_deferredCalls b ackFailed _ rfl
  have hkills : ∀ (b : Branch) (rem : List Int) (s2 : State), s2.pc = .killing b rem →
      ∃ s1, run s2 ((rem.map fun p => Action.kill p (results p)) ++
        .unlock :: deferredCalls b ackFailed) = some s1 ∧ s1.pc = .returned := by
    intro b rem s2 h2
    obtain ⟨s3, h3, hpc3⟩ := run_kills results b rem s2 h2
    rw [run_append, h3]
    exact hunlock b s3 hpc3
  cases hpc : s.pc with
  | start => simp [hpc, MainPC.pastSelect] at hs
  | waiting => simp [hpc, MainPC.pastSelect] at hs
  | selected b =>
    simp only [completion, hpc, run, step]
    exact hkills b _ _ rfl
  | killing b rem =>
    simp only [completion, hpc]
    exact hkills b rem s hpc
  | deferred b =>
    simp only [completion, hpc]
    exact run_deferredCalls b ackFailed s hpc
  | closing =>
    simp only [completion, hpc, run, step]
    exact ⟨_, rfl, rfl⟩
  | returned => exact ⟨s, by simp [completion, hpc, run], hpc⟩

/-! ## Claims on the watchdog receiver -/

/-- C8: in every run of `StartAndWaitForCompletion`, each call of
`KillProcess` comes after a terminating event (a processed `Shutdown`
message, the parent-termination channel firing, an interrupt signal); a run
in which none of the three has happened, whatever `ProcessToKill` messages
it received, contains no call of `KillProcess`. -/
theorem no_kill_before_terminating_event (acts : List Action) (s : State)
    (h : run init acts = some s) :
    (∀ pre pid failed post, s.trace = pre ++ Event.KillProcess pid failed :: post →
      ∃ e ∈ pre, e = .received .Shutdown ∨ e = .parentTerminated ∨ e = .interruptSignal) ∧
    ((Event.received .Shutdown ∉ s.trace ∧ Event.parentTerminated ∉ s.trace ∧
        Event.interruptSignal ∉ s.trace) →
      ∀ pid failed, Event.KillProcess pid failed ∉ s.trace) := by
  have hinv := run_invariant InvArmed InvArmed_step acts init s InvArmed_init h
  have key : ∀ pre pid failed post, s.trace = pre ++ Event.KillProcess pid failed :: post →
      ∃ e ∈ pre, e = .received .Shutdown ∨ e = .parentTerminated ∨ e = .interruptSignal := by
    intro pre pid failed post heq
    obtain ⟨e, he, ht⟩ := hinv.2 pre _ post heq rfl
    exact ⟨e, he, (isTerminating_iff e).1 ht⟩
  refine ⟨key, ?_⟩
  rintro ⟨h1, h2, h3⟩ pid failed hmem
  obtain ⟨pre, post, heq⟩ := List.append_of_mem hmem
  obtain ⟨e, he, hor⟩ := key pre pid failed post heq
  have hmem2 : e ∈ s.trace := by
    rw [heq]
    exact List.mem_append_left _ he
  rcases hor with rfl | rfl | rfl
  · exact h1 hmem2
  · exact h2 hmem2
  · exact h3 hmem2

/-- Witness of C8: in the run of the parent-termination test, the kill of
123654 comes after the parent-termination event. -/
theorem no_kill_before_terminating_event_witness :
    ∃ e ∈ [Event.log .info "Watchdog process has started",
        Event.received (.ProcessToKill 123654), Event.log .info "Adding process to kill",
        Event.parentTerminated, Event.selected .parentTerminated,
        Event.log .debug "Lost connection to parent, shutting down",
        Event.log .info "Trying to terminate children", Event.log .debug "Killing process"],
      e = .received .Shutdown ∨ e = .parentTerminated ∨ e = .interruptSignal :=
  (no_kill_before_terminating_event parentDeathSchedule (finalState parentDeathSchedule rfl)
    (finalState_run _ _)).1 _ 123654 false
    [Event.log .info "Watchdog process has exited", Event.returned false] rfl

/-- In a run that left the `select` through the Shutdown case and has
returned, every PID received in a `ProcessToKill` message has had
`KillProcess` called on it, and `SendGracefulShutdownCompleted` has been
called. -/
theorem shutdown_case_kills_all (acts : List Action) (s : State)
    (h : run init acts = some s) (hsel : Event.selected .shutdown ∈ s.trace)
    (hret : s.pc = .returned) :
    (∀ pid, Event.received (.ProcessToKill pid) ∈ s.trace →
      ∃ failed, Event.KillProcess pid failed ∈ s.trace) ∧
    ∃ failed, Event.SendGracefulShutdownCompleted failed ∈ s.trace := by
  have hack : InvAck s := run_invariant InvAck InvAck_step acts init s InvAck_init h
  have hkill : InvKill s := run_invariant InvKill InvKill_step acts init s InvKill_init h
  have hsel2 : Branch.shutdown ∈ selections s.trace := (mem_selections _ _).2 hsel
  obtain ⟨-, hrecv, -, -, -, hdone⟩ := hkill
  constructor
  · intro pid hpid
    exact hdone hsel (Or.inr (Or.inl hret)) pid (hrecv pid hpid)
  · unfold InvAck at hack
    rw [hret] at hack
    rcases hack with ⟨-, h1⟩ | ⟨h1, -⟩
    · have hpos : 0 < List.countP Event.isAck s.trace := by
        unfold ackCount at h1
        omega
      obtain ⟨e, he, hisack⟩ := List.countP_pos_iff.1 hpos
      cases e <;> simp [Event.isAck] at hisack
      exact ⟨_, he⟩
    · exact absurd hsel2 h1

/-- A run that has returned after a message was received, in which neither
the parent terminated nor an interrupt arrived, left the `select` through the
Shutdown case. -/
theorem quiet_run_takes_shutdown_case (acts : List Action) (s : State)
    (h : run init acts = some s) (hm : ∃ m, Event.received m ∈ s.trace)
    (hquiet : Event.parentTerminated ∉ s.trace ∧ Event.interruptSignal ∉ s.trace)
    (hret : s.pc = .returned) : Event.selected .shutdown ∈ s.trace := by
  obtain ⟨-, -, hsp, hsi, -, -, -, hsel⟩ :=
    run_invariant InvCause InvCause_step acts init s InvCause_init h
  obtain ⟨b, hb⟩ := hsel hret (Or.inr hm)
  cases b with
  | shutdown => exact hb
  | parentTerminated => exact absurd (hsp hb) hquiet.1
  | interrupt => exact absurd (hsi hb) hquiet.2

theorem completion_results (results : Int → Bool) (ackFailed : Bool) (s : State) :
    ∀ a ∈ completion results ackFailed s,
      (∀ pid failed, a = Action.kill pid failed → failed = results pid) ∧
      (∀ failed, a = Action.ack failed → failed = ackFailed) := by
  have hother : ∀ a : Action, a = .lock ∨ a = .unlock ∨ a = .finish →
      (∀ pid failed, a = Action.kill pid failed → failed = results pid) ∧
      (∀ failed, a = Action.ack failed → failed = ackFailed) := by
    rintro a (rfl | rfl | rfl)
    all_goals exact ⟨fun _ _ hc => (by cases hc), fun _ hc => (by cases hc)⟩
  have hd : ∀ b, ∀ a ∈ deferredCalls b ackFailed,
      (∀ pid failed, a = Action.kill pid failed → failed = results pid) ∧
      (∀ failed, a = Action.ack failed → failed = ackFailed) := by
    intro b a ha
    cases b <;> simp only [deferredCalls, List.mem_cons, List.mem_singleton, List.not_mem_nil,
      or_false] at ha
    · rcases ha with rfl | rfl
      · exact ⟨fun _ _ hc => (by cases hc), fun _ hc => (by cases hc; rfl)⟩
      · exact hother _ (Or.inr (Or.inr rfl))
    · exact hother _ (Or.inr (Or.inr ha))
    · exact hother _ (Or.inr (Or.inr ha))
  have hmap : ∀ l : List Int, ∀ a ∈ (l.map fun p => Action.kill p (results p)),
      (∀ pid failed, a = Action.kill pid failed → failed = results pid) ∧
      (∀ failed, a = Action.ack failed → failed = ackFailed) := by
    intro l a hl
    obtain ⟨p, -, rfl⟩ := List.mem_map.1 hl
    refine ⟨fun pid failed hc => ?_, fun _ hc => (by cases hc)⟩
    simp only [Action.kill.injEq] at hc
    rw [← hc.2, hc.1]
  intro a h
  unfold completion at h
  split at h
  · rename_i b _
    rcases List.mem_cons.1 h with h1 | h1
    · exact hother a (Or.inl h1)
    · rcases List.mem_append.1 h1 with h2 | h2
      · exact hmap _ a h2
      · rcases List.mem_cons.1 h2 with h3 | h3
        · exact hother a (Or.inr (Or.inl h3))
        · exact hd b a h3
  · rename_i b rem _
    rcases List.mem_append.1 h with h2 | h2
    · exact hmap _ a h2
    · rcases List.mem_cons.1 h2 with h3 | h3
      · exact hother a (Or.inr (Or.inl h3))
      · exact hd b a h3
  · rename_i b _
    exact hd b a h
  · exact hother a (Or.inr (Or.inr (by simpa using h)))
  · simp at h

/-- C9: in a run in which a Shutdown message has been received and neither
the parent terminated nor an interrupt arrived, (1) the main goroutine can
always go on to its return, whatever each call of `KillProcess` and the call
of `SendGracefulShutdownCompleted` return (`results`, `ackFailed`); and (2) once it has returned,
every PID received in a `ProcessToKill` message has had `KillProcess` called
on it, whether or not earlier calls failed, and
`SendGracefulShutdownCompleted` has been called. -/
theorem shutdown_kills_every_pid_and_acks (acts : List Action) (s : State)
    (h : run init acts = some s) (hsd : Event.received .Shutdown ∈ s.trace)
    (hquiet : Event.parentTerminated ∉ s.trace ∧ Event.interruptSignal ∉ s.trace) :
    (∀ (results : Int → Bool) (ackFailed : Bool), ∃ rest s1,
      run s rest = some s1 ∧ s1.pc = .returned ∧
      (∀ pid failed, Action.kill pid failed ∈ rest → failed = results pid) ∧
      (∀ failed, Action.ack failed ∈ rest → failed = ackFailed)) ∧
    (s.pc = .returned →
      (∀ pid, Event.received (.ProcessToKill pid) ∈ s.trace →
        ∃ failed, Event.KillProcess pid failed ∈ s.trace) ∧
      ∃ failed, Event.SendGracefulShutdownCompleted failed ∈ s.trace) := by
  constructor
  · intro results ackFailed
    obtain ⟨-, -, -, -, h0, hshut, -, -⟩ :=
      run_invariant InvCause InvCause_step acts init s InvCause_init h
    have hC := hshut hsd
    by_cases hw : s.pc = .waiting
    · have hstep : ∃ s2, step s (.select .shutdown) = some s2 ∧ s2.pc = .selected .shutdown := by
        simp only [step, hw, ready, hC, if_true]
        exact ⟨_, rfl, rfl⟩
      obtain ⟨s2, hs2, hpc2⟩ := hstep
      obtain ⟨s1, hs1, hpc1⟩ := completion_returns results ackFailed s2
        (Or.inl (by simp [hpc2, MainPC.pastSelect]))
      refine ⟨.select .shutdown :: completion results ackFailed s2, s1, ?_, hpc1, ?_, ?_⟩
      · simp only [run, hs2]
        exact hs1
      · intro pid failed hmem
        rcases List.mem_cons.1 hmem with h1 | h1
        · cases h1
        · exact (completion_results results ackFailed s2 _ h1).1 pid failed rfl
      · intro failed hmem
        rcases List.mem_cons.1 hmem with h1 | h1
        · cases h1
        · exact (completion_results results ackFailed s2 _ h1).2 failed rfl
    · have hpast : s.pc.pastSelect = true ∨ s.pc = .returned := by
        cases hpc : s.pc with
        | start => exact absurd hsd ((h0 hpc).2 _)
        | waiting => exact absurd hpc hw
        | returned => exact Or.inr rfl
        | _ => exact Or.inl rfl
      obtain ⟨s1, hs1, hpc1⟩ := completion_returns results ackFailed s hpast
      exact ⟨completion results ackFailed s, s1, hs1, hpc1,
        fun pid failed hmem => (completion_results results ackFailed s _ hmem).1 pid failed rfl,
        fun failed hmem => (completion_results results ackFailed s _ hmem).2 failed rfl⟩
  · intro hret
    exact shutdown_case_kills_all acts s h
      (quiet_run_takes_shutdown_case acts s h ⟨_, hsd⟩ hquiet hret) hret

/-- Witness of C9: PIDs 111 and 222, then Shutdown; the kill of 111 fails,
222 is killed all the same and the acknowledgement is sent. -/
theorem shutdown_kills_every_pid_and_acks_witness :
    (Event.KillProcess 111 true ∈ (finalState gracefulSchedule rfl).trace ∧
      ∃ failed, Event.KillProcess 222 failed ∈ (finalState gracefulSchedule rfl).trace) ∧
    ∃ failed,
      Event.SendGracefulShutdownCompleted failed ∈ (finalState gracefulSchedule rfl).trace :=
  ⟨⟨by decide,
    ((shutdown_kills_every_pid_and_acks gracefulSchedule (finalState gracefulSchedule rfl)
      (finalState_run _ _) (by decide) (by decide)).2 rfl).1 222 (by decide)⟩,
   ((shutdown_kills_every_pid_and_acks gracefulSchedule (finalState gracefulSchedule rfl)
      (finalState_run _ _) (by decide) (by decide)).2 rfl).2⟩

/-- C10: in every run, `SendGracefulShutdownCompleted` is called at most
once; when `StartAndWaitForCompletion` has returned, it has been called
exactly once if and only if the `select` was left through the Shutdown case;
and in a run that left the `select` through the parent-termination case or
the interrupt case it is never called. -/
theorem ack_iff_shutdown_case (acts : List Action) (s : State)
    (h : run init acts = some s) :
    s.trace.countP Event.isAck ≤ 1 ∧
    (s.pc = .returned →
      (s.trace.countP Event.isAck = 1 ↔ Event.selected .shutdown ∈ s.trace)) ∧
    ((Event.selected .parentTerminated ∈ s.trace ∨ Event.selected .interrupt ∈ s.trace) →
      ∀ failed, Event.SendGracefulShutdownCompleted failed ∉ s.trace) := by
  have hack : InvAck s := run_invariant InvAck InvAck_step acts init s InvAck_init h
  unfold InvAck ackCount at hack
  refine ⟨?_, ?_, ?_⟩
  · cases hpc : s.pc <;> rw [hpc] at hack <;> simp only [AckShape] at hack <;> omega
  · intro hret
    rw [hret] at hack
    rw [← mem_selections]
    rcases hack with ⟨h1, h2⟩ | ⟨h1, h2⟩
    · simp [h1, h2]
    · simp [h1, h2]
  · intro hor failed hmem
    have hpos : 0 < List.countP Event.isAck s.trace :=
      List.countP_pos_iff.2 ⟨_, hmem, rfl⟩
    have hsel : Branch.parentTerminated ∈ selections s.trace ∨
        Branch.interrupt ∈ selections s.trace := by
      rcases hor with h1 | h1
      · exact Or.inl ((mem_selections _ _).2 h1)
      · exact Or.inr ((mem_selections _ _).2 h1)
    cases hpc : s.pc <;> rw [hpc] at hack <;> simp only [AckShape] at hack
    all_goals first
      | omega
      | (rcases hack with ⟨h1, -⟩ | ⟨-, h2⟩
         · rw [h1] at hsel
           simp at hsel
         · omega)
      | (obtain ⟨h1, -⟩ := hack
         rw [h1] at hsel
         simp at hsel)

/-- Witness of C10: the run of the parent-termination test returns without
an acknowledgement and without having taken the Shutdown case. -/
theorem ack_iff_shutdown_case_witness :
    (finalState parentDeathSchedule rfl).trace.countP Event.isAck = 1 ↔
      Event.selected .shutdown ∈ (finalState parentDeathSchedule rfl).trace :=
  (ack_iff_shutdown_case parentDeathSchedule (finalState parentDeathSchedule rfl)
    (finalState_run _ _)).2.1 rfl

/-! ## Order of the kills, the Shutdown event and the acknowledgement -/

theorem split_append {tr evs pre post : List Event} {e : Event}
    (h : tr ++ evs = pre ++ e :: post) :
    (∃ post1, tr = pre ++ e :: post1) ∨ (∃ pre1, pre = tr ++ pre1 ∧ evs = pre1 ++ e :: post) := by
  rcases List.append_eq_append_iff.1 h with ⟨a1, hpre, hevs⟩ | ⟨c1, htr, hc⟩
  · exact Or.inr ⟨a1, hpre, hevs⟩
  · cases c1 with
    | nil =>
      simp only [List.nil_append] at hc
      simp only [List.append_nil] at htr
      exact Or.inr ⟨[], by simp [htr], by simp [hc]⟩
    | cons x c1 =>
      simp only [List.cons_append, List.cons.injEq] at hc
      obtain ⟨rfl, -⟩ := hc
      exact Or.inl ⟨c1, htr⟩

theorem Ordered_of_none {Q : Event → Bool} {R : List Event → Prop} {tr : List Event}
    (h : ∀ e ∈ tr, Q e = false) : Ordered Q R tr := by
  intro pre e post heq hq
  have : e ∈ tr := by rw [heq]; simp
  rw [h e this] at hq
  cases hq

theorem Ordered_append_none {Q : Event → Bool} {R : List Event → Prop} {tr evs : List Event}
    (h : Ordered Q R tr) (hevs : ∀ e ∈ evs, Q e = false) : Ordered Q R (tr ++ evs) := by
  intro pre e post heq hq
  rcases split_append heq with ⟨post1, h1⟩ | ⟨pre1, -, h2⟩
  · exact h pre e post1 h1 hq
  · have : e ∈ evs := by rw [h2]; simp
    rw [hevs e this] at hq
    cases hq

theorem Ordered_append_some {Q : Event → Bool} {R : List Event → Prop} {tr evs : List Event}
    (h : Ordered Q R tr) (hevs : ∀ pre1, (∀ x ∈ pre1, x ∈ evs) → R (tr ++ pre1)) :
    Ordered Q R (tr ++ evs) := by
  intro pre e post heq hq
  rcases split_append heq with ⟨post1, h1⟩ | ⟨pre1, h1, h2⟩
  · exact h pre e post1 h1 hq
  · rw [h1]
    apply hevs
    intro x hx
    rw [h2]
    exact List.mem_append_left _ hx

theorem ackCount_eq_zero_iff (tr : List Event) :
    ackCount tr = 0 ↔ ∀ e ∈ tr, e.isAck = false := by
  simp [ackCount, List.countP_eq_zero]

theorem mem_of_selections_eq {tr : List Event} {b : Branch} (h : selections tr = [b]) :
    Event.selected b ∈ tr :=
  (mem_selections b tr).1 (by rw [h]; simp)

theorem Ordered_select {tr : List Event} {b : Branch} {l : Level} {t : String}
    (h : Ordered Event.isShutdownSelect (fun pre => Event.received .Shutdown ∈ pre) tr)
    (hb : b = .shutdown → Event.received .Shutdown ∈ tr) :
    Ordered Event.isShutdownSelect (fun pre => Event.received .Shutdown ∈ pre)
      (tr ++ [.selected b, .log l t]) := by
  cases b with
  | shutdown =>
    apply Ordered_append_some h
    intro pre1 _
    exact List.mem_append_left _ (hb rfl)
  | parentTerminated => exact Ordered_append_none h (by simp [Event.isShutdownSelect])
  | interrupt => exact Ordered_append_none h (by simp [Event.isShutdownSelect])

theorem Ordered_kill {tr evs : List Event}
    (h : Ordered Event.isKill
      (fun pre => (∃ b, Event.selected b ∈ pre) ∧ ∀ x ∈ pre, x.isAck = false) tr)
    (hsel : ∃ b, Event.selected b ∈ tr) (hack : ackCount tr = 0)
    (hevs : ∀ x ∈ evs, x.isAck = false) :
    Ordered Event.isKill
      (fun pre => (∃ b, Event.selected b ∈ pre) ∧ ∀ x ∈ pre, x.isAck = false) (tr ++ evs) := by
  apply Ordered_append_some h
  intro pre1 hpre1
  obtain ⟨b, hb⟩ := hsel
  refine ⟨⟨b, List.mem_append_left _ hb⟩, ?_⟩
  intro x hx
  rcases List.mem_append.1 hx with h1 | h1
  · exact (ackCount_eq_zero_iff tr).1 hack x h1
  · exact hevs x (hpre1 x h1)

/-- Once the acknowledgement is in the trace the reader goroutine has returned. -/
theorem reader_stopped_of_ack {s : State} (hack : InvAck s) (hkill : InvKill s)
    (h : ackCount s.trace ≠ 0) : s.readerRunning = false := by
  obtain ⟨-, -, hsd, hsel, -, -⟩ := hkill
  have : Event.selected .shutdown ∈ s.trace := by
    unfold InvAck at hack
    cases hpc : s.pc <;> rw [hpc] at hack <;> simp only [AckShape] at hack
    all_goals first
      | exact absurd hack.2 h
      | exact mem_of_selections_eq hack.1
      | (rcases hack with h1 | h1
         · exact mem_of_selections_eq h1.1
         · exact absurd h1.2 h)
  exact hsd (hsel this)

theorem InvOrder_step (s : State) (a : Action) (s1 : State) (hall : InvAll s)
    (h : step s a = some s1) : InvOrder s1 := by
  obtain ⟨hack, hkill, hcause, o1, o2, o3, o4⟩ := hall
  have hreader := reader_stopped_of_ack hack hkill
  obtain ⟨-, -, -, hsel, -, hdone⟩ := hkill
  obtain ⟨-, -, -, -, -, -, hpast, -⟩ := hcause
  unfold InvAck at hack
  cases a <;> simp only [step] at h <;> (try split at h) <;> (try split at h) <;>
    (try (simp only [Option.some.injEq, reduceCtorEq] at h)) <;> (try subst h) <;>
    (try (simp only [processIncomingMessage]; split)) <;>
    refine ⟨?_, ?_, ?_, ?_⟩ <;> (try dsimp only)
  all_goals first
    | assumption
    | (intro hc; exact List.mem_append_left _ (o1 hc))
    | (intro _; simp; done)
    | (refine Ordered_append_none (by assumption) ?_
       first
         | (split_ifs <;> simp [Event.isShutdownSelect, Event.isKill, Event.isAck]; done)
         | (simp [Event.isShutdownSelect, Event.isKill, Event.isAck]; done))
    | (refine Ordered_select o2 ?_
       intro hb
       subst hb
       apply o1
       simp_all [ready]
       done)
    | (refine Ordered_kill o3 (hpast (by simp_all [MainPC.pastSelect])) ?_ ?_
       · simp_all [AckShape]
       · split_ifs <;> simp [Event.isAck])
    | (refine Ordered_of_none ?_
       have h0 : ackCount s.trace = 0 := by
         by_contra hc
         have := hreader hc
         simp_all
       have h1 := (ackCount_eq_zero_iff s.trace).1 h0
       intro e he
       rcases List.mem_append.1 he with h2 | h2
       · exact h1 e h2
       · simp at h2
         rcases h2 with rfl | rfl <;> rfl)
    | (refine Ordered_append_some o4 ?_
       intro pre1 _ pid hpid
       rw [Killed_append]
       left
       refine hdone ?_ ?_ pid hpid
       · apply mem_of_selections_eq
         simp_all [AckShape]
       · simp_all)

theorem InvAll_init : InvAll init := by
  refine ⟨InvAck_init, InvKill_init, InvCause_init, ?_, ?_, ?_, ?_⟩
  · simp [init]
  all_goals exact Ordered_of_none (by simp [init])

theorem InvAll_step (s : State) (a : Action) (s1 : State) (hall : InvAll s)
    (h : step s a = some s1) : InvAll s1 :=
  ⟨InvAck_step s a s1 hall.1 h, InvKill_step s a s1 hall.2.1 h,
    InvCause_step s a s1 hall.2.2.1 h, InvOrder_step s a s1 hall h⟩

/-- In a run that took the Shutdown case no other case was taken. -/
theorem selected_shutdown_only {s : State} (hack : InvAck s) {b : Branch}
    (hs : Event.selected .shutdown ∈ s.trace) (hb : Event.selected b ∈ s.trace) :
    b = .shutdown := by
  have hs2 := (mem_selections _ _).2 hs
  have hb2 := (mem_selections b _).2 hb
  unfold InvAck at hack
  cases hpc : s.pc <;> rw [hpc] at hack <;> simp only [AckShape] at hack
  all_goals first
    | (rw [hack.1] at hs2 hb2
       simp_all
       done)
    | (rcases hack with h1 | h1
       · rw [h1.1] at hb2
         simpa using hb2
       · exact absurd hs2 h1.1)

/-- C11: in a run that left the `select` through the Shutdown case, every
call of `KillProcess` comes after the Shutdown message was processed and
after the Shutdown case was taken, and before any call of
`SendGracefulShutdownCompleted`; when the acknowledgement is sent, every PID
of the kill set has had its `KillProcess` call, and no call of `KillProcess`
follows the acknowledgement. -/
theorem kills_between_shutdown_and_ack (acts : List Action) (s : State)
    (h : run init acts = some s) (hsel : Event.selected .shutdown ∈ s.trace) :
    (∀ pre pid failed post, s.trace = pre ++ Event.KillProcess pid failed :: post →
      Event.received .Shutdown ∈ pre ∧ Event.selected .shutdown ∈ pre ∧
      ∀ f, Event.SendGracefulShutdownCompleted f ∉ pre) ∧
    (∀ pre f post, s.trace = pre ++ Event.SendGracefulShutdownCompleted f :: post →
      (∀ pid ∈ s.processPIDsToKill, ∃ failed, Event.KillProcess pid failed ∈ pre) ∧
      ∀ pid failed, Event.KillProcess pid failed ∉ post) := by
  obtain ⟨hack, -, -, -, o2, o3, o4⟩ :=
    run_invariant InvAll InvAll_step acts init s InvAll_init h
  constructor
  · intro pre pid failed post heq
    obtain ⟨⟨b, hb⟩, hnoack⟩ := o3 pre _ post heq rfl
    have hb2 : Event.selected b ∈ s.trace := by
      rw [heq]
      exact List.mem_append_left _ hb
    have hbs : b = .shutdown := selected_shutdown_only hack hsel hb2
    subst hbs
    refine ⟨?_, hb, fun f hf => ?_⟩
    · obtain ⟨p1, p2, hp⟩ := List.append_of_mem hb
      have heq2 : s.trace = p1 ++ Event.selected .shutdown ::
          (p2 ++ Event.KillProcess pid failed :: post) := by
        rw [heq, hp]
        simp
      have := o2 p1 _ _ heq2 rfl
      rw [hp]
      exact List.mem_append_left _ this
    · have := hnoack _ hf
      simp [Event.isAck] at this
  · intro pre f post heq
    refine ⟨o4 pre _ post heq rfl, ?_⟩
    intro pid failed hmem
    obtain ⟨q1, q2, hq⟩ := List.append_of_mem hmem
    have heq2 : s.trace = (pre ++ Event.SendGracefulShutdownCompleted f :: q1) ++
        Event.KillProcess pid failed :: q2 := by
      rw [heq, hq]
      simp
    have := (o3 _ _ q2 heq2 rfl).2 (Event.SendGracefulShutdownCompleted f) (by simp)
    simp [Event.isAck] at this

/-- Witness of C11: in the run with PIDs 111 and 222 then Shutdown, the kill
of 222 comes after the Shutdown message and after the Shutdown case. -/
theorem kills_between_shutdown_and_ack_witness :
    Event.received .Shutdown ∈ (finalState gracefulSchedule rfl).trace.take 13 ∧
      Event.selected .shutdown ∈ (finalState gracefulSchedule rfl).trace.take 13 :=
  ⟨((kills_between_shutdown_and_ack gracefulSchedule (finalState gracefulSchedule rfl)
      (finalState_run _ _) (by decide)).1
      ((finalState gracefulSchedule rfl).trace.take 13) 222 false
      ((finalState gracefulSchedule rfl).trace.drop 14) rfl).1,
   ((kills_between_shutdown_and_ack gracefulSchedule (finalState gracefulSchedule rfl)
      (finalState_run _ _) (by decide)).1
      ((finalState gracefulSchedule rfl).trace.take 13) 222 false
      ((finalState gracefulSchedule rfl).trace.drop 14) rfl).2.1⟩

theorem kills_append (tr evs : List Event) : kills (tr ++ evs) = kills tr ++ kills evs := by
  simp [kills]

theorem mem_kills (tr : List Event) (pid : Int) : pid ∈ kills tr ↔ Killed tr pid := by
  simp only [kills, List.mem_filterMap, Killed]
  constructor
  · rintro ⟨e, he, hp⟩
    cases e <;> simp [Event.killPid?] at hp
    subst hp
    exact ⟨_, he⟩
  · rintro ⟨f, hf⟩
    exact ⟨_, hf, rfl⟩

theorem receivedBeforeSelect_append (tr evs : List Event) (pid : Int)
    (h : pid ∈ receivedBeforeSelect (tr ++ evs)) :
    pid ∈ receivedBeforeSelect tr ∨ (selections tr = [] ∧ pid ∈ receivedBeforeSelect evs) := by
  induction tr with
  | nil => exact Or.inr ⟨rfl, h⟩
  | cons e tr ih =>
    cases e with
    | selected b => simp [receivedBeforeSelect] at h
    | received m =>
      cases m with
      | ProcessToKill p =>
        simp only [List.cons_append, receivedBeforeSelect, List.mem_cons] at h ⊢
        rcases h with h | h
        · exact Or.inl (Or.inl h)
        · rcases ih h with h1 | h1
          · exact Or.inl (Or.inr h1)
          · exact Or.inr (by simpa [selections, Event.branch?] using h1)
      | Shutdown =>
        simp only [List.cons_append, receivedBeforeSelect] at h ⊢
        rcases ih h with h1 | h1
        · exact Or.inl h1
        · exact Or.inr (by simpa [selections, Event.branch?] using h1)
    | _ =>
      simp only [List.cons_append, receivedBeforeSelect] at h ⊢
      rcases ih h with h1 | h1
      · exact Or.inl h1
      · exact Or.inr (by simpa [selections, Event.branch?] using h1)

theorem nodup_insertPID (pid : Int) (l : List Int) (h : l.Nodup) :
    (if pid ∈ l then l else l ++ [pid]).Nodup := by
  split_ifs with hp
  · exact h
  · exact List.Nodup.append h (List.nodup_singleton _) (by simpa using hp)

/-- While the reader goroutine runs after the terminate phase, the `select`
has been left. -/
theorem selections_ne_nil_of_reader {s : State} (hack : InvAck s) (hcause : InvCause s)
    (hr : s.readerRunning = true)
    (hpc : s.pc = .closing ∨ s.pc = .returned ∨ ∃ b, s.pc = .deferred b) :
    selections s.trace ≠ [] := by
  obtain ⟨-, -, -, -, -, -, -, hret⟩ := hcause
  unfold InvAck at hack
  rcases hpc with hpc | hpc | ⟨b, hpc⟩
  · rw [hpc] at hack
    simp only [AckShape] at hack
    rw [hack.1]
    simp
  · obtain ⟨b, hb⟩ := hret hpc (Or.inl hr)
    intro hc
    have := (mem_selections b _).2 hb
    rw [hc] at this
    cases this
  · rw [hpc] at hack
    simp only [AckShape] at hack
    rw [hack.1]
    simp

theorem InvOnce_step_pids (s : State) (a : Action) (s1 : State)
    (n0 : s.processPIDsToKill.Nodup) (h : step s a = some s1) : s1.processPIDsToKill.Nodup := by
  cases a <;> simp only [step] at h <;> (try split at h) <;> (try split at h) <;>
    (try (simp only [Option.some.injEq, reduceCtorEq] at h)) <;> (try subst h) <;>
    (try (simp only [processIncomingMessage]; split)) <;> (try dsimp only)
  all_goals first
    | assumption
    | exact nodup_insertPID _ _ n0

theorem InvOnce_step_kills (s : State) (a : Action) (s1 : State)
    (n1 : (kills s.trace).Nodup)
    (n3 : ∀ b rem, s.pc = .killing b rem →
      rem.Nodup ∧ ∀ pid ∈ rem, pid ∈ s.processPIDsToKill ∧ pid ∉ kills s.trace)
    (h : step s a = some s1) : (kills s1.trace).Nodup := by
  cases a <;> simp only [step] at h <;> (try split at h) <;> (try split at h) <;>
    (try (simp only [Option.some.injEq, reduceCtorEq] at h)) <;> (try subst h) <;>
    (try (simp only [processIncomingMessage]; split)) <;> (try dsimp only)
  all_goals first
    | assumption
    | (simpa [kills_append, kills, Event.killPid?] using n1)
    | (rename_i heq0 hmem0 hf
       have h3 := ((n3 _ _ heq0).2 _ hmem0).2
       rw [kills_append]
       refine List.Nodup.append n1 ?_ ?_
       · simp [kills, Event.killPid?]
       · simpa [kills, Event.killPid?] using h3)

theorem InvOnce_step_sub (s : State) (a : Action) (s1 : State)
    (n7 : ∀ pid ∈ kills s.trace, pid ∈ s.processPIDsToKill)
    (n3 : ∀ b rem, s.pc = .killing b rem →
      rem.Nodup ∧ ∀ pid ∈ rem, pid ∈ s.processPIDsToKill ∧ pid ∉ kills s.trace)
    (h : step s a = some s1) : ∀ pid ∈ kills s1.trace, pid ∈ s1.processPIDsToKill := by
  cases a <;> simp only [step] at h <;> (try split at h) <;> (try split at h) <;>
    (try (simp only [Option.some.injEq, reduceCtorEq] at h)) <;> (try subst h) <;>
    (try (simp only [processIncomingMessage]; split)) <;> (try dsimp only)
  all_goals first
    | assumption
    | (simpa [kills_append, kills, Event.killPid?] using n7)
    | (intro pid hpid
       rw [mem_insertPID]
       left
       apply n7
       simpa [kills_append, kills, Event.killPid?] using hpid)
    | (rename_i heq0 hmem0 hf
       have h3 := ((n3 _ _ heq0).2 _ hmem0).1
       intro pid hpid
       rw [kills_append, List.mem_append] at hpid
       rcases hpid with h1 | h1
       · exact n7 pid h1
       · simp [kills, Event.killPid?] at h1
         rw [h1]
         exact h3)

theorem InvOnce_step_early (s : State) (a : Action) (s1 : State)
    (n2 : (s.pc = .start ∨ s.pc = .waiting ∨ ∃ b, s.pc = .selected b) → kills s.trace = [])
    (h : step s a = some s1) :
    (s1.pc = .start ∨ s1.pc = .waiting ∨ ∃ b, s1.pc = .selected b) → kills s1.trace = [] := by
  cases a <;> simp only [step] at h <;> (try split at h) <;> (try split at h) <;>
    (try (simp only [Option.some.injEq, reduceCtorEq] at h)) <;> (try subst h) <;>
    (try (simp only [processIncomingMessage]; split)) <;> (try dsimp only)
  all_goals first
    | assumption
    | (simp; done)
    | (intro hpc
       rw [kills_append, n2 (by simp_all)]
       simp [kills, Event.killPid?]
       done)

theorem InvOnce_step_killing (s : State) (a : Action) (s1 : State)
    (n0 : s.processPIDsToKill.Nodup)
    (n2 : (s.pc = .start ∨ s.pc = .waiting ∨ ∃ b, s.pc = .selected b) → kills s.trace = [])
    (n3 : ∀ b rem, s.pc = .killing b rem →
      rem.Nodup ∧ ∀ pid ∈ rem, pid ∈ s.processPIDsToKill ∧ pid ∉ kills s.trace)
    (h : step s a = some s1) :
    ∀ b rem, s1.pc = .killing b rem →
      rem.Nodup ∧ ∀ pid ∈ rem, pid ∈ s1.processPIDsToKill ∧ pid ∉ kills s1.trace := by
  cases a <;> simp only [step] at h <;> (try split at h) <;> (try split at h) <;>
    (try (simp only [Option.some.injEq, reduceCtorEq] at h)) <;> (try subst h) <;>
    (try (simp only [processIncomingMessage]; split)) <;> (try dsimp only)
  all_goals first
    | assumption
    | (simp; done)
    | (simpa [kills_append, kills, Event.killPid?] using n3)
    | (intro b rem hpc
       exfalso
       simp_all [MainPC.holdsLock]
       done)
    | (rename_i heq0
       intro b rem hpc
       simp only [MainPC.killing.injEq] at hpc
       obtain ⟨-, rfl⟩ := hpc
       refine ⟨n0, fun pid hpid => ⟨hpid, ?_⟩⟩
       rw [kills_append, n2 (Or.inr (Or.inr ⟨_, heq0⟩))]
       simp [kills, Event.killPid?])
    | (rename_i heq0 hmem0 hf
       obtain ⟨hnd, hrem⟩ := n3 _ _ heq0
       intro b rem hpc
       simp only [MainPC.killing.injEq] at hpc
       obtain ⟨-, rfl⟩ := hpc
       refine ⟨hnd.erase _, fun pid hpid => ?_⟩
       have hp := (List.Nodup.mem_erase_iff hnd).1 hpid
       refine ⟨(hrem pid hp.2).1, ?_⟩
       rw [kills_append, List.mem_append]
       rintro (h1 | h1)
       · exact (hrem pid hp.2).2 h1
       · simp [kills, Event.killPid?] at h1
         exact hp.1 h1)

theorem InvOnce_step_received (s : State) (a : Action) (s1 : State)
    (n4 : ∀ pid ∈ receivedBeforeSelect s.trace, pid ∈ s.processPIDsToKill)
    (h : step s a = some s1) :
    ∀ pid ∈ receivedBeforeSelect s1.trace, pid ∈ s1.processPIDsToKill := by
  cases a <;> simp only [step] at h <;> (try split at h) <;> (try split at h) <;>
    (try (simp only [Option.some.injEq, reduceCtorEq] at h)) <;> (try subst h) <;>
    (try (simp only [processIncomingMessage]; split)) <;> (try dsimp only)
  all_goals first
    | assumption
    | (intro pid hpid
       rcases receivedBeforeSelect_append _ _ _ hpid with h1 | ⟨-, h1⟩
       · first
           | exact n4 pid h1
           | (rw [mem_insertPID]; exact Or.inl (n4 pid h1))
       · first
           | (simp [receivedBeforeSelect] at h1; done)
           | (rw [mem_insertPID]
              right
              simpa [receivedBeforeSelect] using h1))

theorem InvOnce_step_covered (s : State) (a : Action) (s1 : State)
    (hsel : s.readerRunning = true →
      (s.pc = .closing ∨ s.pc = .returned ∨ ∃ b, s.pc = .deferred b) → selections s.trace ≠ [])
    (h0 : s.pc = .start → s.readerRunning = false ∧ s.processPIDsToKill = [] ∧ s.shutdownC = false)
    (hcover : ∀ b rem, s.pc = .killing b rem →
      ∀ pid ∈ s.processPIDsToKill, pid ∈ rem ∨ Killed s.trace pid)
    (n4 : ∀ pid ∈ receivedBeforeSelect s.trace, pid ∈ s.processPIDsToKill)
    (n5 : (s.pc = .closing ∨ s.pc = .returned ∨ ∃ b, s.pc = .deferred b) →
      ∀ pid ∈ receivedBeforeSelect s.trace, pid ∈ kills s.trace)
    (h : step s a = some s1) :
    (s1.pc = .closing ∨ s1.pc = .returned ∨ ∃ b, s1.pc = .deferred b) →
      ∀ pid ∈ receivedBeforeSelect s1.trace, pid ∈ kills s1.trace := by
  cases a <;> simp only [step] at h <;> (try split at h) <;> (try split at h) <;>
    (try (simp only [Option.some.injEq, reduceCtorEq] at h)) <;> (try subst h) <;>
    (try (simp only [processIncomingMessage]; split)) <;> (try dsimp only)
  all_goals first
    | assumption
    | (simp; done)
    | (rename_i heq0 hf
       intro _ pid hpid
       exfalso
       rcases receivedBeforeSelect_append _ _ _ hpid with h1 | ⟨-, h1⟩
       · have := n4 pid h1
         rw [(h0 heq0).2.1] at this
         cases this
       · simp [receivedBeforeSelect] at h1)
    | (rename_i heq0
       intro _ pid hpid
       rcases hcover _ _ heq0 pid (n4 pid hpid) with h1 | h1
       · cases h1
       · exact (mem_kills _ _).2 h1)
    | (intro hlate pid hpid
       rcases receivedBeforeSelect_append _ _ _ hpid with h1 | ⟨hs0, h1⟩
       · rw [kills_append]
         refine List.mem_append_left _ (n5 ?_ pid h1)
         simp_all
         done
       · first
           | (simp [receivedBeforeSelect] at h1; done)
           | (exfalso
              refine hsel ?_ ?_ hs0
              · simp_all
              · simp_all))

theorem InvOnce_init : InvOnce init := by
  simp [InvOnce, init, kills, receivedBeforeSelect]

theorem InvOnce_step (s : State) (a : Action) (s1 : State) (hall : InvAll s ∧ InvOnce s)
    (h : step s a = some s1) : InvAll s1 ∧ InvOnce s1 := by
  obtain ⟨hall, n0, n1, n7, n2, n3, n4, n5⟩ := hall
  refine ⟨InvAll_step s a s1 hall h, InvOnce_step_pids s a s1 n0 h,
    InvOnce_step_kills s a s1 n1 n3 h, InvOnce_step_sub s a s1 n7 n3 h,
    InvOnce_step_early s a s1 n2 h, InvOnce_step_killing s a s1 n0 n2 n3 h,
    InvOnce_step_received s a s1 n4 h, ?_⟩
  obtain ⟨hack, hkill, hcause, -⟩ := hall
  exact InvOnce_step_covered s a s1 (selections_ne_nil_of_reader hack hcause) hkill.1
    hkill.2.2.2.2.1 n4 n5 h

/-- Counterexample to C12 as stated: there is a run that returns after a
terminating event in which a PID of the kill set never had `KillProcess`
called on it. -/
theorem late_pid_is_never_killed :
    ¬ ∀ (acts : List Action) (s : State), run init acts = some s → s.pc = .returned →
      (∃ e ∈ s.trace, e.isTerminating = true) →
      ∀ pid ∈ s.processPIDsToKill, (kills s.trace).count pid = 1 := by
  intro hclaim
  have h := hclaim lateSchedule (finalState lateSchedule rfl) (finalState_run _ _) rfl
    ⟨Event.interruptSignal, by decide, rfl⟩ 7 (by decide)
  revert h
  decide

/-- C12 (amended): in every run `KillProcess` is called at most once per PID
(no retry after a failure, one call however often the PID was received) and
only on PIDs of the kill set; when `StartAndWaitForCompletion` has returned,
every PID received before the main goroutine left the `select` has had
exactly one call; and on the Shutdown path every PID of the kill set has had
exactly one call. -/
theorem kill_attempted_exactly_once (acts : List Action) (s : State)
    (h : run init acts = some s) :
    (kills s.trace).Nodup ∧
    (∀ pid ∈ kills s.trace, pid ∈ s.processPIDsToKill) ∧
    (s.pc = .returned →
      ∀ pid ∈ receivedBeforeSelect s.trace, (kills s.trace).count pid = 1) ∧
    (s.pc = .returned → Event.selected .shutdown ∈ s.trace →
      ∀ pid ∈ s.processPIDsToKill, (kills s.trace).count pid = 1) := by
  obtain ⟨⟨-, hkill, -, -⟩, -, n1, n7, -, -, -, n5⟩ :=
    run_invariant (fun s => InvAll s ∧ InvOnce s) InvOnce_step acts init s
      ⟨InvAll_init, InvOnce_init⟩ h
  refine ⟨n1, n7, ?_, ?_⟩
  · intro hret pid hpid
    exact List.count_eq_one_of_mem n1 (n5 (Or.inr (Or.inl hret)) pid hpid)
  · intro hret hsel pid hpid
    obtain ⟨-, -, -, -, -, hdone⟩ := hkill
    exact List.count_eq_one_of_mem n1
      ((mem_kills _ _).2 (hdone hsel (Or.inr (Or.inl hret)) pid hpid))

/-- Witness of C12 (amended): PID 123654 is received twice and killed once;
the failed kill of 64687 is not retried. -/
theorem kill_attempted_exactly_once_witness :
    (kills (finalState repeatedSchedule rfl).trace).count 123654 = 1 ∧
      (kills (finalState repeatedSchedule rfl).trace).count 64687 = 1 :=
  ⟨(kill_attempted_exactly_once repeatedSchedule (finalState repeatedSchedule rfl)
      (finalState_run _ _)).2.2.1 rfl 123654 (by decide),
   (kill_attempted_exactly_once repeatedSchedule (finalState repeatedSchedule rfl)
      (finalState_run _ _)).2.2.1 rfl 64687 (by decide)⟩

/-! ## How a run starts and returns -/

theorem InvRet_step_start (s : State) (a : Action) (s1 : State)
    (h0 : s.pc = .start → s.readerRunning = false)
    (r1 : s.pc = .start → ∀ e ∈ s.trace, e = .parentTerminated ∨ e = .interruptSignal)
    (h : step s a = some s1) :
    s1.pc = .start → ∀ e ∈ s1.trace, e = .parentTerminated ∨ e = .interruptSignal := by
  cases a <;> simp only [step] at h <;> (try split at h) <;> (try split at h) <;>
    (try (simp only [Option.some.injEq, reduceCtorEq] at h)) <;> (try subst h) <;>
    (try (simp only [processIncomingMessage]; split)) <;> (try dsimp only)
  all_goals first
    | assumption
    | (simp; done)
    | (intro hpc e he
       rcases List.mem_append.1 he with h1 | h1
       · exact r1 hpc e h1
       · simp at h1
         simp [h1])
    | (intro hpc
       exfalso
       simp_all)

theorem InvRet_step_failed (s : State) (a : Action) (s1 : State)
    (h0 : s.pc = .start → s.readerRunning = false)
    (r1 : s.pc = .start → ∀ e ∈ s.trace, e = .parentTerminated ∨ e = .interruptSignal)
    (r2 : Event.returned true ∈ s.trace → s.pc = .returned ∧ s.readerRunning = false ∧
      ∀ e ∈ s.trace, e = .returned true ∨ e = .parentTerminated ∨ e = .interruptSignal)
    (h : step s a = some s1) :
    Event.returned true ∈ s1.trace → s1.pc = .returned ∧ s1.readerRunning = false ∧
      ∀ e ∈ s1.trace, e = .returned true ∨ e = .parentTerminated ∨ e = .interruptSignal := by
  cases a <;> simp only [step] at h <;> (try split at h) <;> (try split at h) <;>
    (try (simp only [Option.some.injEq, reduceCtorEq] at h)) <;> (try subst h) <;>
    (try (simp only [processIncomingMessage]; split)) <;> (try dsimp only)
  all_goals first
    | assumption
    | (simp; done)
    | (intro hmem
       exfalso
       have hm : Event.returned true ∈ s.trace := by simpa using hmem
       have := r2 hm
       simp_all [MainPC.holdsLock]
       done)
    | (intro hmem
       have hm : Event.returned true ∈ s.trace := by simpa using hmem
       obtain ⟨h1, h2, h3⟩ := r2 hm
       refine ⟨h1, h2, ?_⟩
       intro e he
       rcases List.mem_append.1 he with h4 | h4
       · exact h3 e h4
       · simp at h4
         simp [h4])
    | (rename_i heq0 hf
       intro _
       refine ⟨rfl, h0 heq0, ?_⟩
       intro e he
       rcases List.mem_append.1 he with h4 | h4
       · rcases r1 heq0 e h4 with h5 | h5 <;> simp [h5]
       · simp at h4
         simp [h4])

theorem InvRet_step_nil (s : State) (a : Action) (s1 : State)
    (hpast : s.pc.pastSelect = true → ∃ b, Event.selected b ∈ s.trace)
    (r3 : Event.returned false ∈ s.trace → ∃ b, Event.selected b ∈ s.trace)
    (h : step s a = some s1) :
    Event.returned false ∈ s1.trace → ∃ b, Event.selected b ∈ s1.trace := by
  cases a <;> simp only [step] at h <;> (try split at h) <;> (try split at h) <;>
    (try (simp only [Option.some.injEq, reduceCtorEq] at h)) <;> (try subst h) <;>
    (try (simp only [processIncomingMessage]; split)) <;> (try dsimp only)
  all_goals first
    | assumption
    | (intro hmem
       have hm : Event.returned false ∈ s.trace := by simpa using hmem
       obtain ⟨b, hb⟩ := r3 hm
       exact ⟨b, List.mem_append_left _ hb⟩)
    | (intro _
       obtain ⟨b, hb⟩ := hpast (by simp_all [MainPC.pastSelect])
       exact ⟨b, List.mem_append_left _ hb⟩)

theorem InvRet_step_returned (s : State) (a : Action) (s1 : State)
    (r4 : s.pc = .returned ↔ ∃ f, Event.returned f ∈ s.trace)
    (h : step s a = some s1) :
    s1.pc = .returned ↔ ∃ f, Event.returned f ∈ s1.trace := by
  cases a <;> simp only [step] at h <;> (try split at h) <;> (try split at h) <;>
    (try (simp only [Option.some.injEq, reduceCtorEq] at h)) <;> (try subst h) <;>
    (try (simp only [processIncomingMessage]; split)) <;> (try dsimp only)
  all_goals first
    | assumption
    | (simp at r4 ⊢; exact r4)
    | simp_all

theorem InvRet_step_flags (s : State) (a : Action) (s1 : State)
    (r5 : Event.parentTerminated ∈ s.trace → s.parentGone = true)
    (r6 : Event.interruptSignal ∈ s.trace →
      s.interruptPending = true ∨ Event.selected .interrupt ∈ s.trace)
    (h : step s a = some s1) :
    (Event.parentTerminated ∈ s1.trace → s1.parentGone = true) ∧
    (Event.interruptSignal ∈ s1.trace →
      s1.interruptPending = true ∨ Event.selected .interrupt ∈ s1.trace) := by
  cases a <;> simp only [step] at h <;> (try split at h) <;> (try split at h) <;>
    (try (simp only [Option.some.injEq, reduceCtorEq] at h)) <;> (try subst h) <;>
    (try (simp only [processIncomingMessage]; split)) <;> refine ⟨?_, ?_⟩ <;> (try dsimp only)
  all_goals first
    | assumption
    | (simp; done)
    | (simpa using r5)
    | (simpa using r6)
    | (intro hmem
       have hm : Event.interruptSignal ∈ s.trace := by simpa using hmem
       rcases r6 hm with h1 | h1
       · first
           | exact Or.inl h1
           | (rename_i hb
              right
              simp [hb])
       · exact Or.inr (List.mem_append_left _ h1))

theorem InvRet_step_closed (s : State) (a : Action) (s1 : State)
    (hsd : s.shutdownC = true → s.readerRunning = false)
    (r1 : s.pc = .start → ∀ e ∈ s.trace, e = .parentTerminated ∨ e = .interruptSignal)
    (r7 : Event.channelClosed ∈ s.trace → s.readerRunning = false ∧ s.shutdownC = false)
    (h : step s a = some s1) :
    Event.channelClosed ∈ s1.trace → s1.readerRunning = false ∧ s1.shutdownC = false := by
  cases a <;> simp only [step] at h <;> (try split at h) <;> (try split at h) <;>
    (try (simp only [Option.some.injEq, reduceCtorEq] at h)) <;> (try subst h) <;>
    (try (simp only [processIncomingMessage]; split)) <;> (try dsimp only)
  all_goals first
    | assumption
    | (simpa using r7)
    | (intro hmem
       exfalso
       have hm : Event.channelClosed ∈ s.trace := by simpa using hmem
       have := r7 hm
       simp_all
       done)
    | (rename_i heq0 hf
       intro hmem
       exfalso
       have hm : Event.channelClosed ∈ s.trace := by simpa using hmem
       rcases r1 heq0 _ hm with h1 | h1 <;> cases h1)
    | (intro _
       refine ⟨rfl, ?_⟩
       cases hc : s.shutdownC with
       | false => rfl
       | true => simp_all)


theorem InvRet_step_pids (s : State) (a : Action) (s1 : State)
    (r8 : ∀ pid ∈ s.processPIDsToKill, Event.received (.ProcessToKill pid) ∈ s.trace)
    (h : step s a = some s1) :
    ∀ pid ∈ s1.processPIDsToKill, Event.received (.ProcessToKill pid) ∈ s1.trace := by
  cases a <;> simp only [step] at h <;> (try split at h) <;> (try split at h) <;>
    (try (simp only [Option.some.injEq, reduceCtorEq] at h)) <;> (try subst h) <;>
    (try (simp only [processIncomingMessage]; split)) <;> (try dsimp only)
  all_goals first
    | assumption
    | (intro pid hpid
       exact List.mem_append_left _ (r8 pid hpid))
    | (intro pid hpid
       rcases (mem_insertPID _ _ _).1 hpid with h1 | h1
       · exact List.mem_append_left _ (r8 pid h1)
       · subst h1
         simp)

theorem consumed_append (tr evs : List Event) :
    consumed (tr ++ evs) = consumed tr ++ consumed evs := by
  simp [consumed]

theorem mem_consumed (tr : List Event) (m : Message) :
    m ∈ consumed tr ↔ Event.received m ∈ tr := by
  simp only [consumed, List.mem_filterMap]
  constructor
  · rintro ⟨e, he, hm⟩
    cases e <;> simp [Event.message?] at hm
    subst hm
    exact he
  · intro h
    exact ⟨_, h, rfl⟩

theorem last_of_not_mem {α : Type} {c pre post : List α} {m x : α} (hno : x ∉ c)
    (h : c ++ [m] = pre ++ x :: post) : post = [] := by
  rcases List.eq_nil_or_concat post with rfl | ⟨post1, z, rfl⟩
  · rfl
  · exfalso
    have h1 : c ++ [m] = (pre ++ x :: post1) ++ [z] := by simpa using h
    have h2 := List.append_inj_left' h1 rfl
    apply hno
    rw [h2]
    simp

/-- What a step does to the consumed messages: nothing, or, while the reader
goroutine runs, one more message. -/
theorem step_consumed {s s1 : State} {a : Action} (h : step s a = some s1) :
    (consumed s1.trace = consumed s.trace ∧
      (s1.readerRunning = true → s.readerRunning = true ∨ s.pc = .start)) ∨
    (∃ m, a = .deliver m ∧ s.readerRunning = true ∧
      consumed s1.trace = consumed s.trace ++ [m] ∧
      (m = .Shutdown → s1.readerRunning = false)) := by
  cases a <;> simp only [step] at h <;> (try split at h) <;> (try split at h) <;>
    (try (simp only [Option.some.injEq, reduceCtorEq] at h)) <;> (try subst h) <;>
    (try (simp only [processIncomingMessage]; split))
  all_goals first
    | (left
       refine ⟨?_, ?_⟩
       · simp [consumed, Event.message?]
       · simp_all)
    | (right
       refine ⟨_, rfl, ?_, ?_, ?_⟩
       · simp_all
       · simp [consumed, Event.message?]
       · simp)

theorem InvMsgs_step (s : State) (a : Action) (s1 : State)
    (h0 : s.pc = .start → ∀ m, Event.received m ∉ s.trace)
    (hinv : InvMsgs s) (h : step s a = some s1) : InvMsgs s1 := by
  obtain ⟨m1, m2⟩ := hinv
  rcases step_consumed h with ⟨hc, hr⟩ | ⟨m, -, hr, hc, hm⟩
  · refine ⟨?_, by rw [hc]; exact m2⟩
    intro hmem
    rw [hc] at hmem
    cases hr1 : s1.readerRunning with
    | false => rfl
    | true =>
      exfalso
      rcases hr hr1 with h1 | h1
      · rw [m1 hmem] at h1
        cases h1
      · exact h0 h1 _ ((mem_consumed _ _).1 hmem)
  · have hno : Message.Shutdown ∉ consumed s.trace := by
      intro hmem
      rw [m1 hmem] at hr
      cases hr
    refine ⟨?_, ?_⟩
    · intro hmem
      rw [hc, List.mem_append] at hmem
      rcases hmem with h1 | h1
      · exact absurd h1 hno
      · exact hm (List.mem_singleton.1 h1).symm
    · intro pre post heq
      rw [hc] at heq
      exact last_of_not_mem hno heq

theorem InvRet_init : InvRet init := by
  simp [InvRet, init]

theorem InvMsgs_init : InvMsgs init := by
  simp [InvMsgs, init, consumed]

theorem InvRet_step (s : State) (a : Action) (s1 : State) (hcause : InvCause s)
    (hkill : InvKill s) (hinv : InvRet s) (h : step s a = some s1) : InvRet s1 := by
  obtain ⟨r1, r2, r3, r4, r5, r6, r7, r8⟩ := hinv
  have h0 : s.pc = .start → s.readerRunning = false := fun hpc => (hkill.1 hpc).1
  exact ⟨InvRet_step_start s a s1 h0 r1 h, InvRet_step_failed s a s1 h0 r1 r2 h,
    InvRet_step_nil s a s1 hcause.2.2.2.2.2.2.1 r3 h, InvRet_step_returned s a s1 r4 h,
    (InvRet_step_flags s a s1 r5 r6 h).1, (InvRet_step_flags s a s1 r5 r6 h).2,
    InvRet_step_closed s a s1 hkill.2.2.1 r1 r7 h, InvRet_step_pids s a s1 r8 h⟩

theorem InvFull_init : InvFull init :=
  ⟨⟨InvAll_init, InvOnce_init⟩, InvArmed_init, InvRet_init, InvMsgs_init⟩

theorem InvFull_step (s : State) (a : Action) (s1 : State) (hinv : InvFull s)
    (h : step s a = some s1) : InvFull s1 := by
  obtain ⟨hall, harmed, hret, hmsgs⟩ := hinv
  have hcause : InvCause s := hall.1.2.2.1
  exact ⟨InvOnce_step s a s1 hall h, InvArmed_step s a s1 harmed h,
    InvRet_step s a s1 hcause hall.1.2.1 hret h,
    InvMsgs_step s a s1 (fun hpc => (hcause.2.2.2.2.1 hpc).2) hmsgs h⟩

/-- Every state a schedule leads to satisfies the invariants. -/
theorem reach_InvFull {acts : List Action} {s : State} (h : run init acts = some s) :
    InvFull s :=
  run_invariant InvFull InvFull_step acts init s InvFull_init h

/-- A step only appends to the trace. -/
theorem step_trace {s s1 : State} {a : Action} (h : step s a = some s1) :
    ∃ evs, s1.trace = s.trace ++ evs := by
  cases a <;> simp only [step] at h <;> (try split at h) <;> (try split at h) <;>
    (try (simp only [Option.some.injEq, reduceCtorEq] at h)) <;> (try subst h) <;>
    (try (simp only [processIncomingMessage]; split))
  all_goals first
    | exact ⟨_, rfl⟩
    | exact ⟨[], (List.append_nil _).symm⟩

theorem run_trace : ∀ {acts : List Action} {s s1 : State}, run s acts = some s1 →
    ∃ evs, s1.trace = s.trace ++ evs
  | [], s, s1, h => by
    simp only [run, Option.some.injEq] at h
    exact ⟨[], by rw [h]; simp⟩
  | a :: acts, s, s1, h => by
    simp only [run] at h
    cases hs : step s a with
    | none => rw [hs] at h; cases h
    | some s2 =>
      rw [hs] at h
      obtain ⟨e1, h1⟩ := step_trace hs
      obtain ⟨e2, h2⟩ := run_trace h
      exact ⟨e1 ++ e2, by rw [h2, h1, List.append_assoc]⟩

/-- A step of the main goroutine consumes no message and observes no event of
the environment. -/
theorem step_main {s s1 : State} {a : Action} (ha : a.isMain = true)
    (h : step s a = some s1) :
    consumed s1.trace = consumed s.trace ∧
    (Event.parentTerminated ∈ s1.trace → Event.parentTerminated ∈ s.trace) ∧
    (Event.interruptSignal ∈ s1.trace → Event.interruptSignal ∈ s.trace) := by
  cases a <;> simp only [Action.isMain, reduceCtorEq] at ha <;>
    simp only [step] at h <;> (try split at h) <;> (try split at h) <;>
    (try (simp only [Option.some.injEq, reduceCtorEq] at h)) <;> (try subst h) <;>
    refine ⟨?_, ?_, ?_⟩
  all_goals simp [consumed, Event.message?]

theorem run_main : ∀ {acts : List Action} {s s1 : State},
    (∀ a ∈ acts, a.isMain = true) → run s acts = some s1 →
    consumed s1.trace = consumed s.trace ∧
    (Event.parentTerminated ∈ s1.trace → Event.parentTerminated ∈ s.trace) ∧
    (Event.interruptSignal ∈ s1.trace → Event.interruptSignal ∈ s.trace)
  | [], s, s1, _, h => by
    simp only [run, Option.some.injEq] at h
    subst h
    exact ⟨rfl, id, id⟩
  | a :: acts, s, s1, hm, h => by
    simp only [run] at h
    cases hs : step s a with
    | none => rw [hs] at h; cases h
    | some s2 =>
      rw [hs] at h
      obtain ⟨a1, a2, a3⟩ := step_main (hm a (List.mem_cons_self _ _)) hs
      obtain ⟨b1, b2, b3⟩ := run_main (fun x hx => hm x (List.mem_cons_of_mem _ hx)) h
      exact ⟨b1.trans a1, fun hh => a2 (b2 hh), fun hh => a3 (b3 hh)⟩

theorem completion_isMain (results : Int → Bool) (ackFailed : Bool) (s : State) :
    ∀ a ∈ completion results ackFailed s, a.isMain = true := by
  have hd : ∀ b, ∀ a ∈ deferredCalls b ackFailed, a.isMain = true := by
    intro b a ha
    cases b <;> simp [deferredCalls] at ha
    · rcases ha with rfl | rfl <;> rfl
    · subst ha; rfl
    · subst ha; rfl
  have hk : ∀ (l : List Int), ∀ a ∈ l.map (fun p => Action.kill p (results p)),
      a.isMain = true := by
    intro l a ha
    obtain ⟨p, -, rfl⟩ := List.mem_map.1 ha
    rfl
  intro a ha
  unfold completion at ha
  split at ha
  · rcases List.mem_cons.1 ha with rfl | h1
    · rfl
    · rcases List.mem_append.1 h1 with h2 | h2
      · exact hk _ a h2
      · rcases List.mem_cons.1 h2 with rfl | h3
        · rfl
        · exact hd _ a h3
  · rcases List.mem_append.1 ha with h2 | h2
    · exact hk _ a h2
    · rcases List.mem_cons.1 h2 with rfl | h3
      · rfl
      · exact hd _ a h3
  · exact hd _ a ha
  · rcases List.mem_singleton.1 ha with rfl
    rfl
  · simp at ha

/-! ## The return value -/

/-- Once the receiver is constructed and a terminating event has been
observed, the main goroutine can run to its return, whatever `KillProcess` and
`SendGracefulShutdownCompleted` return. -/
theorem can_return {acts : List Action} {s : State} (h : run init acts = some s)
    (hstarted : startedLog ∈ s.trace) (harmed : Armed s.trace) (results : Int → Bool)
    (ackFailed : Bool) :
    ∃ rest s1, run s rest = some s1 ∧ s1.pc = .returned ∧ (∀ a ∈ rest, a.isMain = true) ∧
      (∀ pid failed, Action.kill pid failed ∈ rest → failed = results pid) ∧
      (∀ failed, Action.ack failed ∈ rest → failed = ackFailed) := by
  obtain ⟨⟨⟨hack, hkill, hcause, horder⟩, honce⟩, -, hret, -⟩ := reach_InvFull h
  obtain ⟨r1, r2, r3, r4, r5, r6, r7, r8⟩ := hret
  have direct : (s.pc.pastSelect = true ∨ s.pc = .returned) →
      ∃ rest s1, run s rest = some s1 ∧ s1.pc = .returned ∧ (∀ a ∈ rest, a.isMain = true) ∧
        (∀ pid failed, Action.kill pid failed ∈ rest → failed = results pid) ∧
        (∀ failed, Action.ack failed ∈ rest → failed = ackFailed) := by
    intro hs
    obtain ⟨s1, hrun, hpc⟩ := completion_returns results ackFailed s hs
    exact ⟨_, s1, hrun, hpc, completion_isMain results ackFailed s,
      fun pid failed hm => (completion_results results ackFailed s _ hm).1 pid failed rfl,
      fun failed hm => (completion_results results ackFailed s _ hm).2 failed rfl⟩
  cases hpc : s.pc with
  | start =>
    exfalso
    rcases r1 hpc _ hstarted with h1 | h1 <;> simp [startedLog] at h1
  | waiting =>
    have hready : ∃ b, ready s b = true := by
      obtain ⟨e, he, hterm⟩ := harmed
      rcases (isTerminating_iff e).1 hterm with rfl | rfl | rfl
      · exact ⟨.shutdown, hcause.2.2.2.2.2.1 he⟩
      · exact ⟨.parentTerminated, r5 he⟩
      · refine ⟨.interrupt, ?_⟩
        rcases r6 he with h1 | h1
        · exact h1
        · exfalso
          have hsel := (mem_selections _ _).2 h1
          have hshape : AckShape s.pc (selections s.trace) (ackCount s.trace) := hack
          rw [hpc] at hshape
          rw [hshape.1] at hsel
          cases hsel
    obtain ⟨b, hb⟩ := hready
    obtain ⟨s2, hstep, hpc2⟩ : ∃ s2, step s (.select b) = some s2 ∧ s2.pc = .selected b := by
      refine ⟨{ s with
          pc := .selected b
          interruptPending := if b = .interrupt then false else s.interruptPending
          trace := s.trace ++ [.selected b, .log .debug b.text] }, ?_, rfl⟩
      simp [step, hpc, hb]
    obtain ⟨s1, hrun, hpc1⟩ := completion_returns results ackFailed s2
      (Or.inl (by rw [hpc2]; rfl))
    refine ⟨.select b :: completion results ackFailed s2, s1, ?_, hpc1, ?_, ?_, ?_⟩
    · simp only [run, hstep]
      exact hrun
    · intro a ha
      rcases List.mem_cons.1 ha with rfl | h1
      · rfl
      · exact completion_isMain results ackFailed _ a h1
    · intro pid failed hm
      rcases List.mem_cons.1 hm with h1 | h1
      · cases h1
      · exact (completion_results results ackFailed _ _ h1).1 pid failed rfl
    · intro failed hm
      rcases List.mem_cons.1 hm with h1 | h1
      · cases h1
      · exact (completion_results results ackFailed _ _ h1).2 failed rfl
  | selected b => exact direct (Or.inl (by rw [hpc]; rfl))
  | killing b rem => exact direct (Or.inl (by rw [hpc]; rfl))
  | deferred b => exact direct (Or.inl (by rw [hpc]; rfl))
  | closing => exact direct (Or.inl (by rw [hpc]; rfl))
  | returned => exact direct (Or.inr hpc)

/-- A return after the receiver was constructed is a return of nil. -/
theorem returned_nil_of_started {acts : List Action} {s : State} (h : run init acts = some s)
    (hstarted : startedLog ∈ s.trace) : Event.returned true ∉ s.trace := by
  obtain ⟨-, -, hret, -⟩ := reach_InvFull h
  intro hmem
  rcases (hret.2.1 hmem).2.2 _ hstarted with h1 | h1 | h1 <;> simp [startedLog] at h1

/-- C23: in every run, (1) when `StartAndWaitForCompletion` has returned an
error, the receiver was not constructed: the trace holds nothing but that
return and events of the environment, so no `KillProcess` call and no
acknowledgement; (2) once the receiver is constructed, every return is a
return of nil; (3) once the receiver is constructed and a terminating event
has been observed, the main goroutine can run on to its return, whatever each
`KillProcess` call and the `SendGracefulShutdownCompleted` call return
(`results`, `ackFailed`), and it then has returned nil. -/
theorem returns_nil_after_terminating_event (acts : List Action) (s : State)
    (h : run init acts = some s) :
    (Event.returned true ∈ s.trace →
      startedLog ∉ s.trace ∧
      ∀ e ∈ s.trace, e = .returned true ∨ e = .parentTerminated ∨ e = .interruptSignal) ∧
    (startedLog ∈ s.trace → ∀ f, Event.returned f ∈ s.trace → f = false) ∧
    (startedLog ∈ s.trace → (∃ e ∈ s.trace, e.isTerminating = true) →
      ∀ (results : Int → Bool) (ackFailed : Bool), ∃ rest s1,
        run s rest = some s1 ∧ s1.pc = .returned ∧
        Event.returned false ∈ s1.trace ∧ Event.returned true ∉ s1.trace ∧
        (∀ pid failed, Action.kill pid failed ∈ rest → failed = results pid) ∧
        (∀ failed, Action.ack failed ∈ rest → failed = ackFailed)) := by
  refine ⟨?_, ?_, ?_⟩
  · intro hmem
    obtain ⟨-, -, hret, -⟩ := reach_InvFull h
    exact ⟨fun hs => returned_nil_of_started h hs hmem, (hret.2.1 hmem).2.2⟩
  · intro hs f hf
    cases f with
    | false => rfl
    | true => exact absurd hf (returned_nil_of_started h hs)
  · intro hs harmed results ackFailed
    obtain ⟨rest, s1, hrun, hpc, -, hk, ha⟩ := can_return h hs harmed results ackFailed
    have hreach : run init (acts ++ rest) = some s1 := by
      rw [run_append, h]
      exact hrun
    obtain ⟨evs, htr⟩ := run_trace hrun
    have hs1 : startedLog ∈ s1.trace := by
      rw [htr]
      exact List.mem_append_left _ hs
    have hno := returned_nil_of_started hreach hs1
    obtain ⟨-, -, hret, -⟩ := reach_InvFull hreach
    obtain ⟨f, hf⟩ := hret.2.2.2.1.1 hpc
    refine ⟨rest, s1, hrun, hpc, ?_, hno, hk, ha⟩
    cases f with
    | false => exact hf
    | true => exact absurd hf hno

/-- Witness of C23: in the run of `TestWatchdog_StartAndWatch_KillProcessError`
the kill of 111 fails and the return is nil. -/
theorem returns_nil_after_terminating_event_witness :
    Event.returned true ∉ (finalState gracefulSchedule rfl).trace :=
  fun hmem => Bool.noConfusion
    ((returns_nil_after_terminating_event gracefulSchedule (finalState gracefulSchedule rfl)
      (finalState_run _ _)).2.1 (by decide) true hmem)

/-! ## A closed receiver channel -/

/-- C30: in every run in which the reader goroutine found the receiver
channel closed, (1) no further message is consumed; (2) no `Shutdown` message
was processed, the Shutdown case of the `select` is never taken and no
acknowledgement is written; (3) every `KillProcess` call comes after the
parent-termination channel fired or an interrupt signal arrived; and (4) as
long as neither has happened, the main goroutine waits in the `select`, no
case of which is ready: no `KillProcess` call was made and
`StartAndWaitForCompletion` has not returned. -/
theorem closed_channel_is_not_terminating (acts : List Action) (s : State)
    (h : run init acts = some s) (hclosed : Event.channelClosed ∈ s.trace) :
    (∀ m, step s (.deliver m) = none) ∧
    (Event.received .Shutdown ∉ s.trace ∧ Event.selected .shutdown ∉ s.trace ∧
      ∀ f, Event.SendGracefulShutdownCompleted f ∉ s.trace) ∧
    (∀ pre pid failed post, s.trace = pre ++ Event.KillProcess pid failed :: post →
      Event.parentTerminated ∈ pre ∨ Event.interruptSignal ∈ pre) ∧
    ((Event.parentTerminated ∉ s.trace ∧ Event.interruptSignal ∉ s.trace) →
      s.pc = .waiting ∧ (∀ b, ready s b = false) ∧ (∀ b, step s (.select b) = none) ∧
      (∀ pid failed, Event.KillProcess pid failed ∉ s.trace) ∧
      ∀ f, Event.returned f ∉ s.trace) := by
  obtain ⟨⟨⟨hack, hkill, hcause, horder⟩, honce⟩, harmed, hret, hmsgs⟩ := reach_InvFull h
  obtain ⟨r1, r2, r3, r4, r5, r6, r7, r8⟩ := hret
  obtain ⟨hreader, hsdC⟩ := r7 hclosed
  have hnosd : Event.received .Shutdown ∉ s.trace := by
    intro hmem
    have := hcause.2.2.2.2.2.1 hmem
    rw [hsdC] at this
    cases this
  have hnosel : Event.selected .shutdown ∉ s.trace := by
    intro hmem
    have := hkill.2.2.2.1 hmem
    rw [hsdC] at this
    cases this
  have hkills : ∀ pre pid failed post, s.trace = pre ++ Event.KillProcess pid failed :: post →
      Event.parentTerminated ∈ pre ∨ Event.interruptSignal ∈ pre := by
    intro pre pid failed post heq
    obtain ⟨e, he, hterm⟩ := harmed.2 pre _ post heq rfl
    rcases (isTerminating_iff e).1 hterm with rfl | rfl | rfl
    · exact absurd (by rw [heq]; exact List.mem_append_left _ he) hnosd
    · exact Or.inl he
    · exact Or.inr he
  refine ⟨?_, ⟨hnosd, hnosel, ?_⟩, hkills, ?_⟩
  · intro m
    simp [step, hreader]
  · intro f hf
    have hshape : AckShape s.pc (selections s.trace) (ackCount s.trace) := hack
    have hcount : ackCount s.trace ≠ 0 := by
      intro h0
      have := (ackCount_eq_zero_iff _).1 h0 _ hf
      simp [Event.isAck] at this
    have hsel : selections s.trace = [.shutdown] := by
      cases hpc : s.pc <;> rw [hpc] at hshape <;> simp only [AckShape] at hshape
      · exact absurd hshape.2 hcount
      · exact absurd hshape.2 hcount
      · exact absurd hshape.2 hcount
      · exact absurd hshape.2 hcount
      · exact absurd hshape.2 hcount
      · exact hshape.1
      · rcases hshape with h1 | h1
        · exact h1.1
        · exact absurd h1.2 hcount
    exact hnosel (mem_of_selections_eq hsel)
  · rintro ⟨hnp, hni⟩
    have hnosel2 : ∀ b, Event.selected b ∉ s.trace := by
      intro b hb
      cases b with
      | shutdown => exact hnosel hb
      | parentTerminated => exact hnp (hcause.2.2.1 hb)
      | interrupt => exact hni (hcause.2.2.2.1 hb)
    have hnoret : ∀ f, Event.returned f ∉ s.trace := by
      intro f hf
      cases f with
      | false =>
        obtain ⟨b, hb⟩ := r3 hf
        exact hnosel2 b hb
      | true =>
        rcases (r2 hf).2.2 _ hclosed with h1 | h1 | h1 <;> cases h1
    have hready : ∀ b, ready s b = false := by
      intro b
      cases b with
      | shutdown => exact hsdC
      | parentTerminated =>
        cases hp : s.parentGone with
        | false => simp [ready, hp]
        | true => exact absurd (hcause.1 hp) hnp
      | interrupt =>
        cases hp : s.interruptPending with
        | false => simp [ready, hp]
        | true => exact absurd (hcause.2.1 hp) hni
    have hpc : s.pc = .waiting := by
      cases hpc : s.pc with
      | waiting => rfl
      | start =>
        exfalso
        rcases r1 hpc _ hclosed with h1 | h1 <;> cases h1
      | returned =>
        exfalso
        obtain ⟨f, hf⟩ := r4.1 hpc
        exact hnoret f hf
      | selected b =>
        exfalso
        obtain ⟨b1, hb1⟩ := hcause.2.2.2.2.2.2.1 (by rw [hpc]; rfl)
        exact hnosel2 b1 hb1
      | killing b rem =>
        exfalso
        obtain ⟨b1, hb1⟩ := hcause.2.2.2.2.2.2.1 (by rw [hpc]; rfl)
        exact hnosel2 b1 hb1
      | deferred b =>
        exfalso
        obtain ⟨b1, hb1⟩ := hcause.2.2.2.2.2.2.1 (by rw [hpc]; rfl)
        exact hnosel2 b1 hb1
      | closing =>
        exfalso
        obtain ⟨b1, hb1⟩ := hcause.2.2.2.2.2.2.1 (by rw [hpc]; rfl)
        exact hnosel2 b1 hb1
    refine ⟨hpc, hready, ?_, ?_, hnoret⟩
    · intro b
      simp [step, hpc, hready b]
    · intro pid failed hmem
      obtain ⟨pre, post, heq⟩ := List.append_of_mem hmem
      rcases hkills pre pid failed post heq with h1 | h1
      · exact hnp (by rw [heq]; exact List.mem_append_left _ h1)
      · exact hni (by rw [heq]; exact List.mem_append_left _ h1)

/-- Witness of C30: after PID 5 was received and the channel was closed, the
main goroutine waits and PID 5 has not been killed. -/
theorem closed_channel_is_not_terminating_witness :
    (finalState closedChannelSchedule rfl).pc = .waiting ∧
      Event.KillProcess 5 false ∉ (finalState closedChannelSchedule rfl).trace :=
  ⟨((closed_channel_is_not_terminating closedChannelSchedule
      (finalState closedChannelSchedule rfl) (finalState_run _ _) (by decide)).2.2.2
      (by decide)).1,
   ((closed_channel_is_not_terminating closedChannelSchedule
      (finalState closedChannelSchedule rfl) (finalState_run _ _) (by decide)).2.2.2
      (by decide)).2.2.2.1 5 false⟩

/-! ## The kill set of a graceful shutdown -/

theorem pidsBeforeShutdown_eq (pre rest : List Message) (hpre : Message.Shutdown ∉ pre) :
    pidsBeforeShutdown (pre ++ Message.Shutdown :: rest) = pre.filterMap Message.pid? ∧
    pre = (pre.filterMap Message.pid?).map Message.ProcessToKill := by
  induction pre with
  | nil => exact ⟨rfl, rfl⟩
  | cons m pre ih =>
    have ih1 := ih (fun hm => hpre (List.mem_cons_of_mem _ hm))
    cases m with
    | Shutdown => exact absurd (List.mem_cons_self _ _) hpre
    | ProcessToKill pid =>
      constructor
      · show pid :: pidsBeforeShutdown (pre ++ Message.Shutdown :: rest) = _
        rw [ih1.1]
        simp [Message.pid?]
      · simp only [Message.pid?, List.filterMap_cons, List.map_cons]
        rw [← ih1.2]

theorem mem_pidsBeforeShutdown (pre rest : List Message) (hpre : Message.Shutdown ∉ pre)
    (pid : Int) :
    pid ∈ pidsBeforeShutdown (pre ++ Message.Shutdown :: rest) ↔
      Message.ProcessToKill pid ∈ pre := by
  obtain ⟨h1, h2⟩ := pidsBeforeShutdown_eq pre rest hpre
  rw [h1]
  constructor
  · intro h
    rw [h2]
    exact List.mem_map.2 ⟨pid, h, rfl⟩
  · intro h
    exact List.mem_filterMap.2 ⟨_, h, rfl⟩

/-- In a run that returned nil without a parent termination and without an
interrupt, the consumed messages are `ProcessToKill` messages followed by one
`Shutdown`, and the Shutdown case was taken. -/
theorem quiet_return_shape {acts : List Action} {s : State} (h : run init acts = some s)
    (hnp : Event.parentTerminated ∉ s.trace) (hni : Event.interruptSignal ∉ s.trace)
    (hret : Event.returned false ∈ s.trace) :
    Event.selected .shutdown ∈ s.trace ∧ s.pc = .returned ∧
    ∃ pre, consumed s.trace = pre ++ [Message.Shutdown] ∧ Message.Shutdown ∉ pre := by
  obtain ⟨⟨⟨hack, hkill, hcause, horder⟩, honce⟩, harmed, hr, hmsgs⟩ := reach_InvFull h
  obtain ⟨r1, r2, r3, r4, r5, r6, r7, r8⟩ := hr
  have hsel : Event.selected .shutdown ∈ s.trace := by
    obtain ⟨b, hb⟩ := r3 hret
    cases b with
    | shutdown => exact hb
    | parentTerminated => exact absurd (hcause.2.2.1 hb) hnp
    | interrupt => exact absurd (hcause.2.2.2.1 hb) hni
  have hsd : Message.Shutdown ∈ consumed s.trace :=
    (mem_consumed _ _).2 (horder.1 (hkill.2.2.2.1 hsel))
  obtain ⟨pre, post, heq⟩ := List.append_of_mem hsd
  have hpost := hmsgs.2 pre post heq
  subst hpost
  refine ⟨hsel, r4.2 ⟨_, hret⟩, pre, heq, ?_⟩
  intro hmem
  obtain ⟨p1, p2, hp⟩ := List.append_of_mem hmem
  have := hmsgs.2 p1 (p2 ++ [Message.Shutdown]) (by rw [heq, hp]; simp)
  simp at this

/-- The reader goroutine can consume any messages without a `Shutdown` while
the main goroutine waits. -/
theorem run_deliveries : ∀ (pre : List Message) (s : State),
    s.pc = .waiting → s.readerRunning = true → Message.Shutdown ∉ pre →
    ∃ s1, run s (deliveries pre) = some s1 ∧ s1.pc = .waiting ∧ s1.readerRunning = true ∧
      consumed s1.trace = consumed s.trace ++ pre ∧
      (Event.parentTerminated ∈ s1.trace → Event.parentTerminated ∈ s.trace) ∧
      (Event.interruptSignal ∈ s1.trace → Event.interruptSignal ∈ s.trace)
  | [], s, hpc, hr, _ => ⟨s, rfl, hpc, hr, by simp, id, id⟩
  | m :: pre, s, hpc, hr, hno => by
    cases m with
    | Shutdown => exact absurd (List.mem_cons_self _ _) hno
    | ProcessToKill pid =>
      have hstep : step s (.deliver (.ProcessToKill pid)) =
          some (processIncomingMessage s (.ProcessToKill pid)) := by
        simp [step, hr, hpc, MainPC.holdsLock]
      obtain ⟨s1, h1, h2, h3, h4, h5, h6⟩ :=
        run_deliveries pre (processIncomingMessage s (.ProcessToKill pid)) hpc hr
          (fun hm => hno (List.mem_cons_of_mem _ hm))
      refine ⟨s1, ?_, h2, h3, ?_, ?_, ?_⟩
      · simp only [deliveries, List.map_cons, run, hstep]
        exact h1
      · rw [h4]
        simp [processIncomingMessage, consumed, Event.message?]
      · intro hm
        simpa [processIncomingMessage] using h5 hm
      · intro hm
        simpa [processIncomingMessage] using h6 hm

theorem exists_first_shutdown : ∀ (msgs : List Message), Message.Shutdown ∈ msgs →
    ∃ pre rest, msgs = pre ++ Message.Shutdown :: rest ∧ Message.Shutdown ∉ pre
  | [], h => by cases h
  | .Shutdown :: msgs, _ => ⟨[], msgs, rfl, by simp⟩
  | .ProcessToKill pid :: msgs, h => by
    have hm : Message.Shutdown ∈ msgs := by
      rcases List.mem_cons.1 h with h1 | h1
      · cases h1
      · exact h1
    obtain ⟨pre, rest, heq, hpre⟩ := exists_first_shutdown msgs hm
    refine ⟨.ProcessToKill pid :: pre, rest, by rw [heq]; rfl, ?_⟩
    intro hmem
    rcases List.mem_cons.1 hmem with h1 | h1
    · cases h1
    · exact hpre h1

/-- A prefix of the channel in which a `Shutdown` can only be the last
message either stops before the first `Shutdown` or ends with it. -/
theorem prefix_first_shutdown (rest : List Message) :
    ∀ (pre c : List Message), c <+: pre ++ Message.Shutdown :: rest →
      Message.Shutdown ∉ pre →
      (∀ p q, c = p ++ Message.Shutdown :: q → q = []) →
      (Message.Shutdown ∉ c ∧ c <+: pre) ∨ c = pre ++ [Message.Shutdown]
  | [], [], _, _, _ => Or.inl ⟨by simp, List.prefix_refl _⟩
  | [], y :: c, hc, _, hlast => by
    right
    rw [List.nil_append, List.cons_prefix_cons] at hc
    obtain ⟨rfl, -⟩ := hc
    rw [hlast [] c rfl]
    rfl
  | x :: pre, [], _, _, _ => Or.inl ⟨by simp, List.nil_prefix⟩
  | x :: pre, y :: c, hc, hpre, hlast => by
    rw [List.cons_append, List.cons_prefix_cons] at hc
    obtain ⟨rfl, hc1⟩ := hc
    have hy : y ≠ Message.Shutdown := fun hh => hpre (by rw [hh]; exact List.mem_cons_self _ _)
    rcases prefix_first_shutdown rest pre c hc1
        (fun hm => hpre (List.mem_cons_of_mem _ hm))
        (fun p q hpq => hlast (y :: p) q (by rw [hpq]; rfl)) with ⟨h1, h2⟩ | h1
    · left
      refine ⟨?_, List.cons_prefix_cons.2 ⟨rfl, h2⟩⟩
      intro hm
      rcases List.mem_cons.1 hm with h3 | h3
      · exact hy h3.symm
      · exact h1 h3
    · right
      rw [h1]
      rfl

/-- For a channel whose first `Shutdown` comes after `pre`, a run without
parent termination and interrupt, complete or not, has only killed PIDs of
`pre`. -/
theorem quiet_kills_before_shutdown {acts : List Action} {s : State}
    (h : run init acts = some s) (pre rest : List Message) (hpre : Message.Shutdown ∉ pre)
    (hc : consumed s.trace <+: pre ++ Message.Shutdown :: rest) :
    ∀ pid ∈ kills s.trace, Message.ProcessToKill pid ∈ pre := by
  obtain ⟨⟨-, honce⟩, -, hret, hmsgs⟩ := reach_InvFull h
  intro pid hpid
  have hrec : Message.ProcessToKill pid ∈ consumed s.trace :=
    (mem_consumed _ _).2 (hret.2.2.2.2.2.2.2 pid (honce.2.2.1 pid hpid))
  rcases prefix_first_shutdown rest pre _ hc hpre hmsgs.2 with ⟨-, h2⟩ | h2
  · exact h2.subset hrec
  · rw [h2] at hrec
    rcases List.mem_append.1 hrec with h3 | h3
    · exact h3
    · simp at h3

/-- C21: let `msgs` be the messages on the receiver channel, with a `Shutdown`
among them.  (1) In every run that consumes messages of this channel and in
which neither the parent terminates nor an interrupt arrives, `KillProcess` is
only called on PIDs of `ProcessToKill` messages that precede the first
`Shutdown`; once a `Shutdown` is consumed no further message is; and when the
run has returned, the PIDs on which `KillProcess` was called are exactly the
PIDs of the `ProcessToKill` messages before the first `Shutdown`, and the
consumed messages are exactly these messages and that `Shutdown`.  (2) Such a
run that returns exists. -/
theorem kill_set_is_pids_before_shutdown (msgs : List Message)
    (hsd : Message.Shutdown ∈ msgs) :
    (∀ acts s, run init acts = some s → consumed s.trace <+: msgs →
      Event.parentTerminated ∉ s.trace → Event.interruptSignal ∉ s.trace →
      (∀ pid ∈ kills s.trace, pid ∈ pidsBeforeShutdown msgs) ∧
      (Message.Shutdown ∈ consumed s.trace → ∀ m, step s (.deliver m) = none) ∧
      (Event.returned false ∈ s.trace →
        (∀ pid, pid ∈ kills s.trace ↔ pid ∈ pidsBeforeShutdown msgs) ∧
        consumed s.trace =
          (pidsBeforeShutdown msgs).map Message.ProcessToKill ++ [Message.Shutdown])) ∧
    (∃ acts s, run init acts = some s ∧ consumed s.trace <+: msgs ∧
      Event.parentTerminated ∉ s.trace ∧ Event.interruptSignal ∉ s.trace ∧
      Event.returned false ∈ s.trace) := by
  obtain ⟨pre, rest, hmsgs, hpre⟩ := exists_first_shutdown msgs hsd
  subst hmsgs
  obtain ⟨hpids, hpremap⟩ := pidsBeforeShutdown_eq pre rest hpre
  constructor
  · intro acts s h hc hnp hni
    have hsub := quiet_kills_before_shutdown h pre rest hpre hc
    obtain ⟨⟨⟨hack, hkill, hcause, horder⟩, honce⟩, harmed, hret, hm⟩ := reach_InvFull h
    refine ⟨fun pid hpid => (mem_pidsBeforeShutdown pre rest hpre pid).2 (hsub pid hpid), ?_, ?_⟩
    · intro hmem m
      simp [step, hm.1 hmem]
    · intro hreturned
      obtain ⟨hsel, hpc, c, hceq, hcno⟩ := quiet_return_shape h hnp hni hreturned
      have hcpre : c = pre := by
        rcases prefix_first_shutdown rest pre _ hc hpre hm.2 with ⟨h1, -⟩ | h1
        · exact absurd (by rw [hceq]; simp) h1
        · rw [hceq] at h1
          exact List.append_inj_left' h1 rfl
      subst hcpre
      refine ⟨fun pid => ⟨fun hpid =>
          (mem_pidsBeforeShutdown c rest hpre pid).2 (hsub pid hpid), fun hpid => ?_⟩, ?_⟩
      · have h1 : Message.ProcessToKill pid ∈ consumed s.trace := by
          rw [hceq]
          exact List.mem_append_left _ ((mem_pidsBeforeShutdown c rest hpre pid).1 hpid)
        have h2 := hkill.2.1 pid ((mem_consumed _ _).1 h1)
        exact (mem_kills _ _).2 (hkill.2.2.2.2.2 hsel (Or.inr (Or.inl hpc)) pid h2)
      · rw [hceq, hpids, ← hpremap]
  · obtain ⟨s1, hrun1, hpc1, hr1, hc1, hp1, hi1⟩ :=
      run_deliveries pre
        { init with
          pc := .waiting
          readerRunning := true
          trace := [.log .info "Watchdog process has started"] } rfl rfl hpre
    have hstep : step s1 (.deliver .Shutdown) = some (processIncomingMessage s1 .Shutdown) := by
      simp [step, hr1, hpc1, MainPC.holdsLock]
    have hreach : run init (.newReceiver false :: (deliveries pre ++ [.deliver .Shutdown])) =
        some (processIncomingMessage s1 .Shutdown) := by
      simp only [run, step, init, Bool.false_eq_true, if_false, List.nil_append]
      rw [run_append]
      simp only [init] at hrun1
      rw [hrun1]
      simp only [Option.bind, run, hstep]
    have hstarted1 : startedLog ∈ s1.trace := by
      obtain ⟨evs, hevs⟩ := run_trace hrun1
      rw [hevs]
      simp [startedLog]
    have hstarted : startedLog ∈ (processIncomingMessage s1 .Shutdown).trace := by
      simp only [processIncomingMessage]
      exact List.mem_append_left _ hstarted1
    obtain ⟨tail, s3, hrun3, hpc3, hmain, -, -⟩ := can_return hreach hstarted
      ⟨.received .Shutdown, by simp [processIncomingMessage], rfl⟩ (fun _ => false) false
    obtain ⟨hc3, hp3, hi3⟩ := run_main hmain hrun3
    have hreach3 : run init
        ((.newReceiver false :: (deliveries pre ++ [.deliver .Shutdown])) ++ tail) = some s3 := by
      rw [run_append, hreach]
      exact hrun3
    refine ⟨_, s3, hreach3, ?_, ?_, ?_, ?_⟩
    · rw [hc3]
      simp only [processIncomingMessage, consumed_append, hc1]
      simp [consumed, Event.message?]
    · intro hm
      have := hp1 (by simpa [processIncomingMessage] using hp3 hm)
      simp at this
    · intro hm
      have := hi1 (by simpa [processIncomingMessage] using hi3 hm)
      simp at this
    · obtain ⟨evs, hevs⟩ := run_trace hrun3
      have hs3 : startedLog ∈ s3.trace := by
        rw [hevs]
        exact List.mem_append_left _ hstarted
      obtain ⟨-, -, hret3, -⟩ := reach_InvFull hreach3
      obtain ⟨f, hf⟩ := hret3.2.2.2.1.1 hpc3
      cases f with
      | false => exact hf
      | true => exact absurd hf (returned_nil_of_started hreach3 hs3)

/-- Witness of C21: with PIDs 111 and 222, a `Shutdown` and then PID 333 on
the channel, the run of the kill-error test kills 111, and 333 exactly if it
is among the PIDs before the `Shutdown` (it is not). -/
theorem kill_set_is_pids_before_shutdown_witness :
    (111 ∈ kills (finalState gracefulSchedule rfl).trace ↔
      111 ∈ pidsBeforeShutdown
        [.ProcessToKill 111, .ProcessToKill 222, .Shutdown, .ProcessToKill 333]) ∧
    (333 ∈ kills (finalState gracefulSchedule rfl).trace ↔
      333 ∈ pidsBeforeShutdown
        [.ProcessToKill 111, .ProcessToKill 222, .Shutdown, .ProcessToKill 333]) :=
  ⟨(((kill_set_is_pids_before_shutdown
      [.ProcessToKill 111, .ProcessToKill 222, .Shutdown, .ProcessToKill 333] (by decide)).1
      gracefulSchedule (finalState gracefulSchedule rfl) (finalState_run _ _) (by decide)
      (by decide) (by decide)).2.2 (by decide)).1 111,
   (((kill_set_is_pids_before_shutdown
      [.ProcessToKill 111, .ProcessToKill 222, .Shutdown, .ProcessToKill 333] (by decide)).1
      gracefulSchedule (finalState gracefulSchedule rfl) (finalState_run _ _) (by decide)
      (by decide) (by decide)).2.2 (by decide)).1 333⟩

/-! ## The order of the kill attempts -/

/-- The loop of `terminateAllProcesses` can visit the remaining keys in any
order. -/
theorem run_kills_in_order (results : Int → Bool) (b : Branch) :
    ∀ (order rem : List Int) (s : State), s.pc = .killing b rem → order.Perm rem →
      ∃ s1, run s (order.map fun p => Action.kill p (results p)) = some s1 ∧
        s1.pc = .killing b [] ∧ kills s1.trace = kills s.trace ++ order
  | [], rem, s, hs, hp => by
    have : rem = [] := List.Perm.eq_nil hp.symm
    subst this
    exact ⟨s, rfl, hs, by simp⟩
  | p :: order, rem, s, hs, hp => by
    have hmem : p ∈ rem := hp.subset (List.mem_cons_self _ _)
    have hp1 : order.Perm (rem.erase p) := by
      have := hp.erase p
      rwa [List.erase_cons_head] at this
    obtain ⟨s1, h1, h2, h3⟩ := run_kills_in_order results b order (rem.erase p)
      { s with
        pc := .killing b (rem.erase p)
        trace := s.trace ++ ([.log .debug "Killing process", .KillProcess p (results p)] ++
          (if results p then [.log .error "Failed to kill child"] else [])) } rfl hp1
    refine ⟨s1, ?_, h2, ?_⟩
    · simp only [List.map_cons, run, step, hs, hmem, if_true]
      exact h1
    · rw [h3, kills_append]
      cases results p <;> simp [kills, Event.killPid?]

/-- Counterexample to C22 as stated: PIDs 111 and 222 are received in this
order, then `Shutdown`, and there is a run in which `KillProcess(222)` is
called before `KillProcess(111)`. -/
theorem kill_order_is_not_insertion_order :
    ¬ ∀ (acts : List Action) (s : State), run init acts = some s → s.pc = .returned →
      consumed s.trace = [.ProcessToKill 111, .ProcessToKill 222, .Shutdown] →
      kills s.trace = [111, 222] := by
  intro hall
  have := hall reversedKillSchedule (finalState reversedKillSchedule rfl) (finalState_run _ _)
    (by decide) (by decide)
  exact absurd this (by decide)

/-- C22 (amended): in a run that left the `select` through the Shutdown case
and has returned, the kill attempts are a rearrangement of the kill set: one
attempt on every PID, in an order the code does not fix; and after any case of
the `select`, for every order of the kill set, the terminate phase can make
its attempts in that order, whatever they return. -/
theorem kill_attempts_in_any_order (acts : List Action) (s : State)
    (h : run init acts = some s) :
    (s.pc = .returned → Event.selected .shutdown ∈ s.trace →
      (kills s.trace).Perm s.processPIDsToKill) ∧
    (∀ b, s.pc = .selected b → ∀ (results : Int → Bool) (order : List Int),
      order.Perm s.processPIDsToKill →
      ∃ s1, run s (terminatePhase results order) = some s1 ∧ s1.pc = .deferred b ∧
        kills s1.trace = order) := by
  obtain ⟨⟨⟨hack, hkill, hcause, horder⟩, honce⟩, -, -, -⟩ := reach_InvFull h
  obtain ⟨n0, n1, n7, n2, n3, n4, n5⟩ := honce
  constructor
  · intro hpc hsel
    rw [List.perm_ext_iff_of_nodup n1 n0]
    intro pid
    exact ⟨n7 pid, fun hpid =>
      (mem_kills _ _).2 (hkill.2.2.2.2.2 hsel (Or.inr (Or.inl hpc)) pid hpid)⟩
  · intro b hpc results order hperm
    obtain ⟨s1, h1, h2, h3⟩ := run_kills_in_order results b order s.processPIDsToKill
      { s with
        pc := .killing b s.processPIDsToKill
        trace := s.trace ++ [.log .info "Trying to terminate children"] } rfl hperm
    refine ⟨{ s1 with pc := .deferred b }, ?_, rfl, ?_⟩
    · simp only [terminatePhase, run, step, hpc]
      rw [run_append, h1]
      simp [run, step, h2]
    · show kills s1.trace = order
      rw [h3, kills_append, n2 (Or.inr (Or.inr ⟨b, hpc⟩))]
      simp [kills, Event.killPid?]

/-- Witness of C22 (amended): in the run with PIDs 111 and 222 in which 222
is visited first, the kill attempts are a rearrangement of the kill set. -/
theorem kill_attempts_in_any_order_witness :
    (kills (finalState reversedKillSchedule rfl).trace).Perm
      (finalState reversedKillSchedule rfl).processPIDsToKill :=
  (kill_attempts_in_any_order reversedKillSchedule (finalState reversedKillSchedule rfl)
    (finalState_run _ _)).1 rfl (by decide)

end Watchdog

theorem list_split_append {α : Type} {xs ys pre post : List α} {e : α}
    (h : xs ++ ys = pre ++ e :: post) :
    (∃ post1, xs = pre ++ e :: post1) ∨ (∃ pre1, pre = xs ++ pre1 ∧ ys = pre1 ++ e :: post) := by
  rcases List.append_eq_append_iff.1 h with ⟨a1, hpre, hys⟩ | ⟨c1, hxs, hc⟩
  · exact Or.inr ⟨a1, hpre, hys⟩
  · cases c1 with
    | nil =>
      simp only [List.nil_append] at hc
      simp only [List.append_nil] at hxs
      exact Or.inr ⟨[], by simp [hxs], by simp [hc]⟩
    | cons x c1 =>
      simp only [List.cons_append, List.cons.injEq] at hc
      obtain ⟨rfl, -⟩ := hc
      exact Or.inl ⟨c1, hxs⟩

namespace WatchdogFacade

/-! ## The facade: `Start`, `RegisterProcessPIDWithWatchdog`, `Stop` -/

/-- The calls of `Start` begin with the log line, `Stdio()` and `NewClient`. -/
theorem Start_calls (w : Watchdog) (stdio : Nat) (nc : Option Nat × Option GoError)
    (ps : Option GoError) :
    ∃ rest, (Start w stdio nc ps).2.1 =
        [.log .debug "Starting watchdog", .Stdio stdio, .NewClient stdio nc.1 nc.2] ++ rest ∧
      (nc.2.isSome = true → rest = []) := by
  unfold Start
  cases h1 : nc.2 with
  | some err => exact ⟨[], by simp, fun _ => rfl⟩
  | none =>
    cases ps with
    | some err =>
      exact ⟨[.ProcessStart (some err), .log .error "Failed to start watchdog process"], rfl,
        by simp⟩
    | none =>
      by_cases hs : w.startedC = true
      · exact ⟨[.ProcessStart none, .panic], by simp [hs], by simp⟩
      · exact ⟨[.ProcessStart none, .closeStartedC, .log .debug "Started watchdog"],
          by simp [hs], by simp⟩

/-- C13: `Start` first calls `Stdio()` on the watchdog process and then
`NewClient` with the stdio it got, in every case; when `NewClient` returns no
error, the next call is `WatchdogProcess.Start`, so the process is started
only after the client is constructed, and every `WatchdogProcess.Start` in the
calls comes after `Stdio()` and a `NewClient` without error.  When `NewClient`
returns an error, `Start` makes no further call, returns that error and
leaves the facade as it was; when `WatchdogProcess.Start` returns an error,
`Start` logs it and returns that error; when neither fails, on a facade that
is not yet started, `Start` closes the latch and returns nil. -/
theorem Start_constructs_client_first (w : Watchdog) (stdio : Nat)
    (nc : Option Nat × Option GoError) (ps : Option GoError) :
    (∃ rest, (Start w stdio nc ps).2.1 =
      [.log .debug "Starting watchdog", .Stdio stdio, .NewClient stdio nc.1 nc.2] ++ rest) ∧
    (nc.2 = none → ∃ rest, (Start w stdio nc ps).2.1 =
      [.log .debug "Starting watchdog", .Stdio stdio, .NewClient stdio nc.1 none,
        .ProcessStart ps] ++ rest) ∧
    (∀ pre e post, (Start w stdio nc ps).2.1 = pre ++ Call.ProcessStart e :: post →
      ∃ p1 p2 p3, pre = p1 ++ Call.Stdio stdio :: p2 ++ Call.NewClient stdio nc.1 none :: p3) ∧
    (∀ err, nc.2 = some err →
      Start w stdio nc ps =
        (w, [.log .debug "Starting watchdog", .Stdio stdio, .NewClient stdio nc.1 (some err)],
          .returned (some err)) ∧
      (∀ e, Call.ProcessStart e ∉ (Start w stdio nc ps).2.1)) ∧
    (∀ err, nc.2 = none → ps = some err →
      Start w stdio nc ps =
        ({ w with client := nc.1 },
          [.log .debug "Starting watchdog", .Stdio stdio, .NewClient stdio nc.1 none,
            .ProcessStart (some err), .log .error "Failed to start watchdog process"],
          .returned (some err))) ∧
    (nc.2 = none → ps = none → w.startedC = false →
      Start w stdio nc ps =
        ({ client := nc.1, startedC := true },
          [.log .debug "Starting watchdog", .Stdio stdio, .NewClient stdio nc.1 none,
            .ProcessStart none, .closeStartedC, .log .debug "Started watchdog"],
          .returned none)) := by
  refine ⟨?_, ?_, ?_, ?_, ?_, ?_⟩
  · obtain ⟨rest, hcalls, -⟩ := Start_calls w stdio nc ps
    exact ⟨rest, hcalls⟩
  · intro hnc
    unfold Start
    rw [hnc]
    cases ps with
    | some err => exact ⟨_, rfl⟩
    | none =>
      by_cases hs : w.startedC = true
      · exact ⟨[.panic], by simp [hs]⟩
      · exact ⟨[.closeStartedC, .log .debug "Started watchdog"], by simp [hs]⟩
  · intro pre e post heq
    obtain ⟨rest, hcalls, hrest⟩ := Start_calls w stdio nc ps
    rw [hcalls] at heq
    rcases list_split_append heq with ⟨post1, h1⟩ | ⟨pre1, h1, h2⟩
    · exfalso
      have : Call.ProcessStart e ∈
          [Call.log .debug "Starting watchdog", .Stdio stdio, .NewClient stdio nc.1 nc.2] := by
        rw [h1]
        simp
      simp at this
    · have hnone : nc.2 = none := by
        cases hn : nc.2 with
        | none => rfl
        | some err =>
          have := hrest (by simp [hn])
          rw [this] at h2
          simp at h2
      refine ⟨[.log .debug "Starting watchdog"], [], pre1, ?_⟩
      rw [h1, hnone]
      rfl
  · intro err herr
    constructor
    · simp [Start, herr]
    · simp [Start, herr]
  · intro err hnc hps
    simp [Start, hnc, hps]
  · intro hnc hps hs
    simp [Start, hnc, hps, hs]

/-- What a `Start` does to the latch: either it succeeds, on an open latch,
with exactly the calls of the successful path, or it leaves the latch as it
was and does not run `close(w.startedC)`. -/
theorem Start_effect (w : Watchdog) (stdio : Nat) (nc : Option Nat × Option GoError)
    (ps : Option GoError) :
    ((Start w stdio nc ps).2.1 =
        [.log .debug "Starting watchdog", .Stdio stdio, .NewClient stdio nc.1 none,
          .ProcessStart none, .closeStartedC, .log .debug "Started watchdog"] ∧
      w.startedC = false ∧ (Start w stdio nc ps).1.startedC = true ∧
      (Start w stdio nc ps).2.2 = .returned none ∧ nc.2 = none ∧ ps = none) ∨
    ((Start w stdio nc ps).1.startedC = w.startedC ∧
      Call.closeStartedC ∉ (Start w stdio nc ps).2.1 ∧
      (Start w stdio nc ps).2.2 ≠ .returned none) := by
  unfold Start
  cases h1 : nc.2 with
  | some err => right; simp
  | none =>
    cases ps with
    | some err => right; simp
    | none =>
      by_cases hs : w.startedC = true
      · right
        simp [hs]
      · left
        simp [hs]

theorem Start_no_client_call (w : Watchdog) (stdio : Nat) (nc : Option Nat × Option GoError)
    (ps : Option GoError) : ∀ c ∈ (Start w stdio nc ps).2.1, c.isClientCall = false := by
  unfold Start
  cases h1 : nc.2 with
  | some err => simp [Call.isClientCall]
  | none =>
    cases ps with
    | some err => simp [Call.isClientCall]
    | none =>
      by_cases hs : w.startedC = true
      · simp [hs, Call.isClientCall]
      · simp [hs, Call.isClientCall]

/-- A `RegisterProcessPIDWithWatchdog` or `Stop` that gets past its wait found
the latch closed, leaves the facade as it was and does not close the latch. -/
theorem Register_effect (w : Watchdog) (pid : Int) (send : Option GoError) :
    (RegisterProcessPIDWithWatchdog w pid send = (w, [], .blocked) ∧ w.startedC = false) ∨
    (w.startedC = true ∧ (RegisterProcessPIDWithWatchdog w pid send).1 = w ∧
      (RegisterProcessPIDWithWatchdog w pid send).2.2 ≠ .blocked ∧
      Call.closeStartedC ∉ (RegisterProcessPIDWithWatchdog w pid send).2.1) := by
  unfold RegisterProcessPIDWithWatchdog
  by_cases hs : w.startedC = true
  · right
    cases hc : w.client <;> simp [hs]
  · left
    simp [hs]

theorem Stop_effect (w : Watchdog) (send : Option GoError) :
    (Stop w send = (w, [], .blocked) ∧ w.startedC = false) ∨
    (w.startedC = true ∧ (Stop w send).1 = w ∧ (Stop w send).2.2 ≠ .blocked ∧
      Call.closeStartedC ∉ (Stop w send).2.1) := by
  unfold Stop
  by_cases hs : w.startedC = true
  · right
    cases hc : w.client <;> simp [hs]
  · left
    simp [hs]

/-- The result of a step: the calls are appended to the run. -/
theorem step_some {r r1 : Run} {op : Op} (h : step r op = some r1) :
    ∃ w1 calls out,
      (match op with
        | .Start stdio nc ps => Start r.w stdio nc ps
        | .Register pid send => RegisterProcessPIDWithWatchdog r.w pid send
        | .Stop send => Stop r.w send) = (w1, calls, out) ∧
      out ≠ .blocked ∧ r1.w = w1 ∧ r1.calls = r.calls ++ calls := by
  unfold step at h
  split_ifs at h
  generalize (match op with
        | .Start stdio nc ps => Start r.w stdio nc ps
        | .Register pid send => RegisterProcessPIDWithWatchdog r.w pid send
        | .Stop send => Stop r.w send) = res at h ⊢
  obtain ⟨w1, calls, out⟩ := res
  cases out with
  | blocked => simp at h
  | panicked =>
    simp only [Option.some.injEq] at h
    subst h
    exact ⟨w1, calls, _, rfl, by simp, rfl, rfl⟩
  | returned e =>
    simp only [Option.some.injEq] at h
    subst h
    exact ⟨w1, calls, _, rfl, by simp, rfl, rfl⟩

/-- The three parts of the invariant after calls were appended that contain
no call on the client unless the latch was closed before, and no
`close(w.startedC)`. -/
theorem FacadeInv_append {r : Run} {w1 : Watchdog} {calls : List Call} (hinv : FacadeInv r)
    (hlatch : w1.startedC = r.w.startedC) (hclose : Call.closeStartedC ∉ calls)
    (hclient : (∃ c ∈ calls, c.isClientCall = true) → r.w.startedC = true) :
    FacadeInv { w := w1, calls := r.calls ++ calls, crashed := false } ∧
    FacadeInv { w := w1, calls := r.calls ++ calls, crashed := true } := by
  obtain ⟨i1, i2, i3⟩ := hinv
  have key : (w1.startedC = true ↔ Call.closeStartedC ∈ r.calls ++ calls) ∧
      (∀ pre c post, r.calls ++ calls = pre ++ c :: post → c.isClientCall = true →
        Call.closeStartedC ∈ pre) ∧
      (∀ pre post, r.calls ++ calls = pre ++ Call.closeStartedC :: post →
        ∃ p1 stdio client,
          pre = p1 ++ [Call.NewClient stdio client none, Call.ProcessStart none]) := by
    refine ⟨?_, ?_, ?_⟩
    · rw [hlatch, i1, List.mem_append]
      constructor
      · exact Or.inl
      · rintro (h | h)
        · exact h
        · exact absurd h hclose
    · intro pre c post heq hc
      rcases list_split_append heq with ⟨post1, h1⟩ | ⟨pre1, h1, h2⟩
      · exact i2 pre c post1 h1 hc
      · rw [h1]
        exact List.mem_append_left _ (i1.1 (hclient ⟨c, by rw [h2]; simp, hc⟩))
    · intro pre post heq
      rcases list_split_append heq with ⟨post1, h1⟩ | ⟨pre1, h1, h2⟩
      · exact i3 pre post1 h1
      · exact absurd (by rw [h2]; simp) hclose
  exact ⟨key, key⟩

theorem FacadeInv_step (r : Run) (op : Op) (r1 : Run) (hinv : FacadeInv r)
    (h : step r op = some r1) : FacadeInv r1 := by
  obtain ⟨w1, calls, out, hres, hnb, hw, hcalls⟩ := step_some h
  have hr1 : FacadeInv { w := w1, calls := r.calls ++ calls, crashed := r1.crashed } →
      FacadeInv r1 := by
    intro hh
    obtain ⟨a1, a2, a3⟩ := hh
    exact ⟨by rw [hw, hcalls]; exact a1, by rw [hcalls]; exact a2, by rw [hcalls]; exact a3⟩
  have pick : (FacadeInv { w := w1, calls := r.calls ++ calls, crashed := false } ∧
      FacadeInv { w := w1, calls := r.calls ++ calls, crashed := true }) → FacadeInv r1 := by
    intro hh
    apply hr1
    cases r1.crashed
    · exact hh.1
    · exact hh.2
  cases op with
  | Start stdio nc ps =>
    simp only at hres
    have heff := Start_effect r.w stdio nc ps
    have hno := Start_no_client_call r.w stdio nc ps
    rw [hres] at heff hno
    simp only at heff hno
    rcases heff with ⟨hc, hopen, hclosed, -, -, -⟩ | ⟨hsame, hnc, -⟩
    · obtain ⟨i1, i2, i3⟩ := hinv
      have hnot : Call.closeStartedC ∉ r.calls := by
        intro hmem
        have := i1.2 hmem
        rw [hopen] at this
        cases this
      apply hr1
      refine ⟨?_, ?_, ?_⟩
      · simp [hclosed, hc]
      · intro pre c post heq hcc
        rcases list_split_append heq with ⟨post1, h1⟩ | ⟨pre1, h1, h2⟩
        · exact i2 pre c post1 h1 hcc
        · have : c ∈ calls := by rw [h2]; simp
          rw [hno c this] at hcc
          cases hcc
      · intro pre post heq
        rcases list_split_append heq with ⟨post1, h1⟩ | ⟨pre1, h1, h2⟩
        · exact absurd (by rw [h1]; simp) hnot
        · rw [hc] at h2
          refine ⟨r.calls ++ [.log .debug "Starting watchdog", .Stdio stdio], stdio, nc.1, ?_⟩
          rw [h1]
          rcases pre1 with _ | ⟨x1, _ | ⟨x2, _ | ⟨x3, _ | ⟨x4, _ | ⟨x5, pre1⟩⟩⟩⟩⟩ <;>
            simp at h2
          · obtain ⟨rfl, rfl, rfl, rfl, -⟩ := h2
            simp
          · exfalso
            obtain ⟨-, -, -, -, -, h6⟩ := h2
            rcases pre1 with _ | ⟨y, _ | ⟨z, t⟩⟩ <;> simp at h6
    · exact pick (FacadeInv_append hinv hsame hnc
        (fun ⟨c, hc, hcc⟩ => by rw [hno c hc] at hcc; cases hcc))
  | Register pid send =>
    simp only at hres
    have heff := Register_effect r.w pid send
    rw [hres] at heff
    simp only at heff
    rcases heff with ⟨hb, -⟩ | ⟨hs, hsame, -, hnc⟩
    · simp only [Prod.mk.injEq] at hb
      exact absurd hb.2.2 hnb
    · exact pick (FacadeInv_append hinv (by rw [hsame]) hnc (fun _ => hs))
  | Stop send =>
    simp only at hres
    have heff := Stop_effect r.w send
    rw [hres] at heff
    simp only at heff
    rcases heff with ⟨hb, -⟩ | ⟨hs, hsame, -, hnc⟩
    · simp only [Prod.mk.injEq] at hb
      exact absurd hb.2.2 hnb
    · exact pick (FacadeInv_append hinv (by rw [hsame]) hnc (fun _ => hs))

theorem facade_run_invariant (P : Run → Prop)
    (hstep : ∀ r op r1, P r → step r op = some r1 → P r1) :
    ∀ (ops : List Op) (r0 r : Run), P r0 → run r0 ops = some r → P r := by
  intro ops
  induction ops with
  | nil =>
    intro r0 r h0 h
    simp only [run, Option.some.injEq] at h
    exact h ▸ h0
  | cons op ops ih =>
    intro r0 r h0 h
    simp only [run] at h
    cases hs : step r0 op with
    | none => rw [hs] at h; cases h
    | some r1 =>
      rw [hs] at h
      exact ih r1 r (hstep r0 op r1 h0 hs) h

theorem FacadeInv_initial : FacadeInv initial := by
  refine ⟨by simp [initial, New], ?_, ?_⟩
  · intro pre c post h
    simp [initial] at h
  · intro pre post h
    simp [initial] at h

theorem finalRun_run (ops : List Op) (h : (run initial ops).isSome = true) :
    run initial ops = some (finalRun ops h) := by
  simp [finalRun]

/-- While every `Start` fails, the latch stays open. -/
theorem latch_open_of_failed_starts : ∀ (ops : List Op) (r0 r : Run),
    r0.w.startedC = false →
    (∀ stdio nc ps, Op.Start stdio nc ps ∈ ops → (Op.Start stdio nc ps).isFailedStart = true) →
    run r0 ops = some r → r.w.startedC = false := by
  intro ops
  induction ops with
  | nil =>
    intro r0 r h0 _ h
    simp only [run, Option.some.injEq] at h
    exact h ▸ h0
  | cons op ops ih =>
    intro r0 r h0 hfail h
    simp only [run] at h
    cases hs : step r0 op with
    | none => rw [hs] at h; cases h
    | some r1 =>
      rw [hs] at h
      refine ih r1 r ?_ (fun stdio nc ps hmem => hfail stdio nc ps (List.mem_cons_of_mem _ hmem)) h
      obtain ⟨w1, calls, out, hres, hnb, hw, -⟩ := step_some hs
      cases op with
      | Start stdio nc ps =>
        simp only at hres
        have heff := Start_effect r0.w stdio nc ps
        rw [hres] at heff
        simp only at heff
        rcases heff with ⟨-, -, -, -, hnc, hps⟩ | ⟨hsame, -, -⟩
        · have := hfail stdio nc ps (List.mem_cons_self _ _)
          simp [Op.isFailedStart, hnc, hps] at this
        · rw [hw, hsame, h0]
      | Register pid send =>
        simp only at hres
        have heff := Register_effect r0.w pid send
        rw [hres] at heff
        simp only at heff
        rcases heff with ⟨hb, -⟩ | ⟨hopen, -⟩
        · simp only [Prod.mk.injEq] at hb
          exact absurd hb.2.2 hnb
        · rw [h0] at hopen
          cases hopen
      | Stop send =>
        simp only at hres
        have heff := Stop_effect r0.w send
        rw [hres] at heff
        simp only at heff
        rcases heff with ⟨hb, -⟩ | ⟨hopen, -⟩
        · simp only [Prod.mk.injEq] at hb
          exact absurd hb.2.2 hnb
        · rw [h0] at hopen
          cases hopen

/-- C14: in every run of method calls on a fresh facade, each call on the
transport client (`SendProcessPID`, `SendStop`) comes after the statement
`close(w.startedC)`, and that statement comes directly after a `NewClient`
and a `WatchdogProcess.Start` that both returned no error, so only a `Start`
that succeeded closes the latch; and when every `Start` of the run failed, the
latch is open, the client has not been called, and
`RegisterProcessPIDWithWatchdog` and `Stop` wait on the latch without making
any call. -/
theorem latch_guards_client (ops : List Op) (r : Run) (h : run initial ops = some r) :
    (∀ pre c post, r.calls = pre ++ c :: post → c.isClientCall = true →
      Call.closeStartedC ∈ pre) ∧
    (∀ pre post, r.calls = pre ++ Call.closeStartedC :: post →
      ∃ p1 stdio client,
        pre = p1 ++ [Call.NewClient stdio client none, Call.ProcessStart none]) ∧
    ((∀ op ∈ ops, op.isFailedStart = true) →
      r.w.startedC = false ∧ (∀ c ∈ r.calls, c.isClientCall = false) ∧
      ∀ pid send,
        RegisterProcessPIDWithWatchdog r.w pid send = (r.w, [], .blocked) ∧
        Stop r.w send = (r.w, [], .blocked) ∧
        step r (.Register pid send) = none ∧ step r (.Stop send) = none) := by
  have hinv : FacadeInv r :=
    facade_run_invariant FacadeInv FacadeInv_step ops initial r FacadeInv_initial h
  obtain ⟨i1, i2, i3⟩ := hinv
  refine ⟨i2, i3, ?_⟩
  intro hfail
  have hopen : r.w.startedC = false :=
    latch_open_of_failed_starts ops initial r rfl (fun _ _ _ hmem => hfail _ hmem) h
  refine ⟨hopen, ?_, ?_⟩
  · intro c hc
    cases hcc : c.isClientCall with
    | false => rfl
    | true =>
      exfalso
      obtain ⟨pre, post, hsplit⟩ := List.append_of_mem hc
      have hmem := i2 pre c post hsplit hcc
      have : Call.closeStartedC ∈ r.calls := by
        rw [hsplit]
        exact List.mem_append_left _ hmem
      have := i1.2 this
      rw [hopen] at this
      cases this
  · intro pid send
    refine ⟨?_, ?_, ?_, ?_⟩
    · simp [RegisterProcessPIDWithWatchdog, hopen]
    · simp [Stop, hopen]
    · simp [step, RegisterProcessPIDWithWatchdog, hopen]
    · simp [step, Stop, hopen]

/-- Two failed calls of `Start` leave the latch open, and a
`RegisterProcessPIDWithWatchdog` after them waits on it. -/
theorem latch_guards_client_witness :
    (finalRun failedStarts rfl).w.startedC = false ∧
      RegisterProcessPIDWithWatchdog (finalRun failedStarts rfl).w 42 none =
        ((finalRun failedStarts rfl).w, [], .blocked) :=
  ⟨((latch_guards_client failedStarts (finalRun failedStarts rfl) (finalRun_run _ _)).2.2
      (by decide)).1,
   (((latch_guards_client failedStarts (finalRun failedStarts rfl) (finalRun_run _ _)).2.2
      (by decide)).2.2 42 none).1⟩

/-- On a facade whose latch is closed and whose client is `c`, the two
methods make one call on `c` and return what it returned. -/
theorem Register_Stop_started (w : Watchdog) (c : Nat) (hs : w.startedC = true)
    (hc : w.client = some c) (pid : Int) (send : Option GoError) :
    RegisterProcessPIDWithWatchdog w pid send =
      (w, [.log .debug "Adding child process to watchdog", .SendProcessPID c pid send],
        .returned send) ∧
    Stop w send =
      (w, [.log .debug "Sending graceful shutdown signal to watchdog", .SendStop c send],
        .returned send) := by
  simp [RegisterProcessPIDWithWatchdog, Stop, hs, hc]

/-- C15: when `Start` has returned nil, with `c` the client that `NewClient`
returned, `RegisterProcessPIDWithWatchdog(pid)` on the resulting facade makes
exactly one call on the client, `c.SendProcessPID(pid)`, and returns the
error `send` that this call returned (nil or not), and `Stop()` makes exactly
one call on the client, `c.SendStop()`, and returns what it returned; neither
changes the facade. -/
theorem Register_and_Stop_forward_to_client (w : Watchdog) (stdio c : Nat)
    (ps : Option GoError) (pid : Int) (send : Option GoError)
    (hstart : (Start w stdio (some c, none) ps).2.2 = .returned none) :
    RegisterProcessPIDWithWatchdog (Start w stdio (some c, none) ps).1 pid send =
      ((Start w stdio (some c, none) ps).1,
        [.log .debug "Adding child process to watchdog", .SendProcessPID c pid send],
        .returned send) ∧
    Stop (Start w stdio (some c, none) ps).1 send =
      ((Start w stdio (some c, none) ps).1,
        [.log .debug "Sending graceful shutdown signal to watchdog", .SendStop c send],
        .returned send) := by
  have heff := Start_effect w stdio (some c, none) ps
  rcases heff with ⟨-, hopen, hclosed, -, -, hps⟩ | ⟨-, -, hne⟩
  · refine Register_Stop_started _ c hclosed ?_ pid send
    subst hps
    simp [Start, hopen]
  · exact absurd hstart hne

/-- After a successful `Start` on a fresh facade, registering PID 123654
sends it to the client and returns the client's error. -/
theorem Register_and_Stop_forward_to_client_witness :
    RegisterProcessPIDWithWatchdog (Start New 3 (some 7, none) none).1 123654 (some 9) =
      ((Start New 3 (some 7, none) none).1,
        [.log .debug "Adding child process to watchdog", .SendProcessPID 7 123654 (some 9)],
        .returned (some 9)) :=
  (Register_and_Stop_forward_to_client New 3 7 none 123654 (some 9) rfl).1

end WatchdogFacade

namespace WatchdogProcess

open WinEnv

/-! ## The command line of the watchdog process -/

/-- C16: when `osLayer.Args()` is `programPath :: rest`, `New` calls
`osLayer.Command` exactly once, with `programPath` and the argument list
`["--"+WatchdogMode, "--"+BaseDir, directory.BaseDir(), "--"+ServerInstanceID,
directory.ID()]` in this order, whatever `rest` is and whatever the pipes
return; when the three pipes are obtained, the returned process holds that
command. -/
theorem New_command_line (flags : Flags) (programPath : GoString) (rest : List GoString)
    (baseDir id : GoString) (stdinPipe stdoutPipe stderrPipe : Option GoError) :
    commands (New flags (programPath :: rest) baseDir id stdinPipe stdoutPipe stderrPipe).1 =
      [Cmd.mk programPath
        [lit "--" ++ flags.WatchdogMode, lit "--" ++ flags.BaseDir, baseDir,
          lit "--" ++ flags.ServerInstanceID, id]] ∧
    (New flags (programPath :: rest) baseDir id none none none).2 =
      Result.process (Cmd.mk programPath
        [lit "--" ++ flags.WatchdogMode, lit "--" ++ flags.BaseDir, baseDir,
          lit "--" ++ flags.ServerInstanceID, id]) := by
  constructor
  · cases stdinPipe <;> cases stdoutPipe <;> cases stderrPipe <;> rfl
  · rfl

end WatchdogProcess

namespace ProcessLauncher

open WinEnv

/-! ## The MATLAB child of the launcher -/

/-- What the loop over the snapshot returns: the first entry, in the order of
the snapshot, that is a child of the launcher named `MATLAB.exe` and whose
process can be opened. -/
theorem searchSnapshot_some (os : OSLayer) (launcher : Nat) :
    ∀ (entries : List ProcessEntry32) (p : Process),
      searchSnapshot os launcher entries = some p →
      ∃ pre e post, entries = pre ++ e :: post ∧ isMATLABChild os launcher e = true ∧
        os.FindProcess e.ProcessID = none ∧ p.Pid = e.ProcessID ∧
        ∀ e1 ∈ pre, isMATLABChild os launcher e1 = false ∨ (os.FindProcess e1.ProcessID).isSome
  | [], p, h => by simp [searchSnapshot] at h
  | e0 :: rest, p, h => by
    have ih := searchSnapshot_some os launcher rest p
    have skip : searchSnapshot os launcher rest = some p →
        (isMATLABChild os launcher e0 = false ∨ (os.FindProcess e0.ProcessID).isSome) →
        ∃ pre e post, e0 :: rest = pre ++ e :: post ∧ isMATLABChild os launcher e = true ∧
          os.FindProcess e.ProcessID = none ∧ p.Pid = e.ProcessID ∧
          ∀ e1 ∈ pre, isMATLABChild os launcher e1 = false ∨
            (os.FindProcess e1.ProcessID).isSome := by
      intro hrest h0
      obtain ⟨pre, e, post, heq, hm, hf, hp, hpre⟩ := ih hrest
      refine ⟨e0 :: pre, e, post, by rw [heq]; rfl, hm, hf, hp, ?_⟩
      intro e1 he1
      rcases List.mem_cons.1 he1 with rfl | hmem
      · exact h0
      · exact hpre e1 hmem
    simp only [searchSnapshot] at h
    by_cases h1 : e0.ParentProcessID ≠ launcher
    · rw [if_pos h1] at h
      exact skip h (Or.inl (by
        simp only [isMATLABChild, decide_eq_false_iff_not, not_and]
        exact fun hh => absurd hh h1))
    · rw [if_neg h1] at h
      by_cases h2 : os.UTF16ToString e0.ExeFile ≠ EXPECTED_CHILD_MATLAB_PROCESS_NAME
      · rw [if_pos h2] at h
        exact skip h (Or.inl (by
          simp only [isMATLABChild, decide_eq_false_iff_not, not_and]
          exact fun _ => h2))
      · rw [if_neg h2] at h
        cases hf : os.FindProcess e0.ProcessID with
        | some err =>
          rw [hf] at h
          exact skip h (Or.inr (by simp [hf]))
        | none =>
          rw [hf] at h
          simp only [Option.some.injEq] at h
          refine ⟨[], e0, rest, rfl, ?_, hf, by rw [← h], by simp⟩
          simp only [isMATLABChild, decide_eq_true_eq]
          exact ⟨not_not.1 h1, not_not.1 h2⟩

theorem searchSnapshot_none (os : OSLayer) (launcher : Nat) :
    ∀ (entries : List ProcessEntry32),
      (∀ e ∈ entries, isMATLABChild os launcher e = false) →
      searchSnapshot os launcher entries = none
  | [], _ => rfl
  | e0 :: rest, h => by
    have ih := searchSnapshot_none os launcher rest
      (fun e he => h e (List.mem_cons_of_mem _ he))
    have h0 := h e0 (List.mem_cons_self _ _)
    simp only [isMATLABChild, decide_eq_false_iff_not, not_and] at h0
    simp only [searchSnapshot]
    by_cases h1 : e0.ParentProcessID ≠ launcher
    · rw [if_pos h1]
      exact ih
    · rw [if_neg h1, if_pos (h0 (not_not.1 h1))]
      exact ih

/-- The claim of a unique child fails on a snapshot in which the launcher
has two children named `MATLAB.exe`: the search returns the first of them,
and the second one is such a child too. -/
theorem returned_child_is_not_unique :
    ¬ ∀ (os : OSLayer) (entries : List ProcessEntry32) (launcher : Nat),
      (∀ p, getMATLABChildProcess os (some entries) launcher = some p →
        (∃ e ∈ entries, e.ProcessID = p.Pid ∧ isMATLABChild os launcher e = true) ∧
        ∀ e ∈ entries, isMATLABChild os launcher e = true → e.ProcessID = p.Pid) ∧
      ((∀ e ∈ entries, isMATLABChild os launcher e = false) →
        getMATLABChildProcess os (some entries) launcher = none) := by
  intro h
  have h1 := ((h plainOS twoChildren 1).1 (Process.mk 10) (by decide)).2
    (ProcessEntry32.mk 11 1 (exeFile "MATLAB.exe")) (by decide) (by decide)
  exact absurd h1 (by decide)

/-- C17 (amended): `getMATLABChildProcess` returns a process only if the
snapshot has an entry with that PID whose `ParentProcessID` is the PID of the
launcher and whose executable name is exactly `MATLAB.exe`, and the entry it
takes is the first one in the order of the snapshot that is such a child and
whose process `os.FindProcess` opens; it returns nil when no entry is such a
child and when the snapshot cannot be created; and when the snapshot has at
most one such entry, the returned process is that unique child. -/
theorem getMATLABChildProcess_first_match (os : OSLayer) (entries : List ProcessEntry32)
    (launcher : Nat) :
    (∀ p, getMATLABChildProcess os (some entries) launcher = some p →
      ∃ pre e post, entries = pre ++ e :: post ∧ isMATLABChild os launcher e = true ∧
        os.FindProcess e.ProcessID = none ∧ p.Pid = e.ProcessID ∧
        ∀ e1 ∈ pre, isMATLABChild os launcher e1 = false ∨
          (os.FindProcess e1.ProcessID).isSome) ∧
    ((∀ e ∈ entries, isMATLABChild os launcher e = false) →
      getMATLABChildProcess os (some entries) launcher = none) ∧
    getMATLABChildProcess os none launcher = none ∧
    (∀ p, getMATLABChildProcess os (some entries) launcher = some p →
      (∀ e1 ∈ entries, ∀ e2 ∈ entries, isMATLABChild os launcher e1 = true →
        isMATLABChild os launcher e2 = true → e1 = e2) →
      ∀ e ∈ entries, isMATLABChild os launcher e = true → e.ProcessID = p.Pid) := by
  refine ⟨fun p h => searchSnapshot_some os launcher entries p h,
    fun h => searchSnapshot_none os launcher entries h, rfl, ?_⟩
  intro p h huniq e he hm
  obtain ⟨pre, e0, post, heq, hm0, -, hp, -⟩ := searchSnapshot_some os launcher entries p h
  have he0 : e0 ∈ entries := by rw [heq]; simp
  rw [hp, huniq e he e0 he0 hm hm0]

/-- In a snapshot where the launcher 1 has the children `matlab.exe` (PID 10)
and `MATLAB.exe` (PID 11), the search returns PID 11, and every child named
`MATLAB.exe` has that PID. -/
theorem getMATLABChildProcess_first_match_witness :
    getMATLABChildProcess plainOS (some oneChild) 1 = some (Process.mk 11) ∧
      (ProcessEntry32.mk 11 1 (exeFile "MATLAB.exe")).ProcessID = (Process.mk 11).Pid :=
  ⟨by decide,
   (getMATLABChildProcess_first_match plainOS oneChild 1).2.2.2 (Process.mk 11) (by decide)
     (by decide) (ProcessEntry32.mk 11 1 (exeFile "MATLAB.exe")) (by decide) (by decide)⟩

/-! ## The environment pointer passed to `CreateProcess` -/

/-- Counterexample to C29 as stated: with an empty `env`, when `matlab.exe`
does not exist, `startMatlab` returns the error of `os.Stat`, not the error
"failed to get environment block pointer". -/
theorem empty_env_error_comes_after_stat :
    ¬ ∀ (L : GoLib) (os : StartOS) (matlabRoot workingDir : GoString) (args : List GoString),
      (startMatlab L os matlabRoot workingDir args []).2 =
        .failed (.errorf (lit "failed to get environment block pointer") none) := by
  intro h
  have h1 := h asciiLib missingExeOS (lit "C:") (lit "D:") []
  have h2 : (startMatlab asciiLib missingExeOS (lit "C:") (lit "D:") [] []).2 =
      .failed (.asIs (lit "The system cannot find the file specified.")) := rfl
  rw [h2] at h1
  cases h1

/-- C29 (amended): `startMatlab` passes to `CreateProcess` a pointer into a
non-empty environment block, never the nil pointer.  When `env` is empty, or
when `Build` returns an error, no process is created; and then, once
`os.Stat` has found `matlab.exe` (its error is returned first), `startMatlab`
returns the error "failed to get environment block pointer" for the empty
`env`, and the error "failed to build environment block: " wrapping the error
of `Build` when `Build` fails. -/
theorem startMatlab_never_passes_nil_env (L : GoLib) (os : StartOS)
    (matlabRoot workingDir : GoString) (args env : List GoString) :
    (∀ cmdLine envPtr envBlock wd,
      StartCall.CreateProcess cmdLine envPtr envBlock wd ∈
        (startMatlab L os matlabRoot workingDir args env).1 →
      envPtr = some 0 ∧ envBlock ≠ [] ∧ (Build L env).1 = some envBlock ∧
        (Build L env).2 = none) ∧
    (env = [] →
      (∀ c ∈ (startMatlab L os matlabRoot workingDir args env).1, c.isCreateProcess = false) ∧
      (os.Stat (os.Join [matlabRoot, lit "bin", lit "matlab.exe"]) = none →
        (startMatlab L os matlabRoot workingDir args env).2 =
          .failed (.errorf (lit "failed to get environment block pointer") none))) ∧
    (∀ err, (Build L env).2 = some err →
      (∀ c ∈ (startMatlab L os matlabRoot workingDir args env).1, c.isCreateProcess = false) ∧
      (os.Stat (os.Join [matlabRoot, lit "bin", lit "matlab.exe"]) = none →
        (startMatlab L os matlabRoot workingDir args env).2 =
          .failed (.errorf (lit "failed to build environment block: ") (some err)))) := by
  have hptr : ∀ (blk : Option (List Nat)) (p : Nat), PointerToFirstElement blk = some p →
      p = 0 ∧ blk.getD [] ≠ [] ∧ blk = some (blk.getD []) := by
    intro blk p hp
    unfold PointerToFirstElement at hp
    split at hp
    · cases hp
    · rename_i hlen
      simp only [Option.some.injEq] at hp
      refine ⟨hp.symm, fun hc => hlen (by rw [hc]; rfl), ?_⟩
      cases blk with
      | none => exact absurd rfl hlen
      | some b => rfl
  refine ⟨?_, ?_, ?_⟩
  · intro cmdLine envPtr envBlock wd hmem
    unfold startMatlab at hmem
    simp only at hmem
    split at hmem
    · simp at hmem
    · rcases hB : Build L env with ⟨blk, _ | err⟩
      · rw [hB] at hmem
        simp only at hmem
        split at hmem
        · simp at hmem
        · rename_i p hp
          obtain ⟨h1, h2, h3⟩ := hptr blk p hp
          split at hmem
          · simp at hmem
          · split at hmem
            · simp at hmem
            · split at hmem <;>
                simp only [List.mem_cons, reduceCtorEq, StartCall.CreateProcess.injEq,
                  List.mem_singleton, List.not_mem_nil, or_false, false_or] at hmem <;>
                (obtain ⟨-, rfl, rfl, -⟩ := hmem
                 exact ⟨by rw [h1], h2, h3, rfl⟩)
      · rw [hB] at hmem
        simp at hmem
  · intro henv
    subst henv
    have hB : Build L [] = (none, none) := rfl
    constructor
    · intro c hc
      unfold startMatlab at hc
      simp only [hB, PointerToFirstElement] at hc
      split at hc <;> simp at hc <;> subst hc <;> rfl
    · intro hstat
      unfold startMatlab
      simp only [hstat, hB, PointerToFirstElement]
      rfl
  · intro err herr
    rcases hB : Build L env with ⟨blk, e⟩
    rw [hB] at herr
    simp only at herr
    subst herr
    constructor
    · intro c hc
      unfold startMatlab at hc
      simp only [hB] at hc
      split at hc <;> simp at hc <;> subst hc <;> rfl
    · intro hstat
      unfold startMatlab
      simp only [hstat, hB]

/-- Witness of C29 (amended): with `matlab.exe` in place, the empty environment and the
environment `["A"]`, which `Build` refuses, both end in the error of their
case. -/
theorem startMatlab_never_passes_nil_env_witness :
    (startMatlab asciiLib plainStartOS (lit "C:") (lit "D:") [] []).2 =
        .failed (.errorf (lit "failed to get environment block pointer") none) ∧
      (startMatlab asciiLib plainStartOS (lit "C:") (lit "D:") [] [lit "A"]).2 =
        .failed (.errorf (lit "failed to build environment block: ")
          (some (formatError asciiLib (lit "A")))) :=
  ⟨((startMatlab_never_passes_nil_env asciiLib plainStartOS (lit "C:") (lit "D:") [] []).2.1
      rfl).2 rfl,
   ((startMatlab_never_passes_nil_env asciiLib plainStartOS (lit "C:") (lit "D:") []
      [lit "A"]).2.2 _ (by decide)).2 rfl⟩

end ProcessLauncher

namespace LifecycleSignaler

/-! ## The lifecycle signaler -/

theorem register_shutdownFuncs (fns : List ShutdownFunction) :
    ∀ s : State, (fns.foldl AddShutdownFunction s) =
      { s with shutdownFuncs := s.shutdownFuncs ++ fns } := by
  induction fns with
  | nil => intro s; simp
  | cons fn fns ih =>
    intro s
    rw [List.foldl_cons, ih]
    simp [AddShutdownFunction]

theorem runShutdownFunctions_eq (fns : List ShutdownFunction) :
    ∀ (invoked : List Nat) (firstErr : Option GoError),
      runShutdownFunctions fns invoked firstErr =
        (invoked ++ fns.map ShutdownFunction.label,
          match firstErr with
          | some e => some e
          | none => firstError fns) := by
  induction fns with
  | nil =>
    intro invoked firstErr
    cases firstErr <;> simp [runShutdownFunctions, firstError]
  | cons fn fns ih =>
    intro invoked firstErr
    simp only [runShutdownFunctions]
    rw [ih]
    cases firstErr with
    | some e => simp
    | none =>
      cases hfn : fn.err with
      | none => simp [firstError, hfn]
      | some e => simp [firstError, hfn]

theorem requestShutdowns_requested (s : State) (hs : s.requested = true) :
    ∀ n, requestShutdowns s n = s := by
  intro n
  induction n with
  | zero => rfl
  | succ n ih =>
    rw [requestShutdowns]
    have : RequestShutdown s = s := by simp [RequestShutdown, hs]
    rw [this, ih]

/-- C18: with the closures `fns` registered in this order, no closure is
invoked before `RequestShutdown` and `WaitForShutdownToComplete` blocks;
after one or more calls of `RequestShutdown` the closures invoked are exactly
the registered ones, each once, in registration order, whatever errors they
return, and `WaitForShutdownToComplete`, when the timeout does not elapse,
returns the first non-nil error among the errors they returned (nil when there
is none). -/
theorem shutdown_runs_every_closure_once (fns : List ShutdownFunction) (n : Nat)
    (timeoutElapses : Bool) :
    (register fns).invoked = [] ∧
    WaitForShutdownToComplete (register fns) timeoutElapses = none ∧
    (requestShutdowns (register fns) (n + 1)).invoked = fns.map ShutdownFunction.label ∧
    WaitForShutdownToComplete (requestShutdowns (register fns) (n + 1)) false =
      some (firstError fns) := by
  have hreg : register fns =
      { shutdownFuncs := fns, requested := false, invoked := [], firstErr := none } := by
    rw [register, register_shutdownFuncs]
    simp [New]
  have hreq : RequestShutdown (register fns) =
      { shutdownFuncs := fns, requested := true,
        invoked := fns.map ShutdownFunction.label, firstErr := firstError fns } := by
    rw [hreg]
    simp [RequestShutdown, runShutdownFunctions_eq]
  have hall : requestShutdowns (register fns) (n + 1) =
      { shutdownFuncs := fns, requested := true,
        invoked := fns.map ShutdownFunction.label, firstErr := firstError fns } := by
    rw [requestShutdowns, hreq, requestShutdowns_requested _ rfl]
  refine ⟨by rw [hreg], by rw [hreg]; rfl, by rw [hall], by rw [hall]; rfl⟩

end LifecycleSignaler

namespace GlobalMATLAB

/-! ## The global engine session -/

end GlobalMATLAB

namespace AppDirectory

open WinEnv

/-! ## Sub-directories of the application directory -/

theorem HasSuffix_dash (p : GoString) : HasSuffix p (lit "-") = true ↔ p.getLast? = some 45 := by
  have hlit : lit "-" = [45] := by decide
  rw [HasSuffix, hlit, List.isSuffixOf_iff_suffix]
  constructor
  · rintro ⟨t, rfl⟩
    simp
  · intro h
    obtain ⟨ys, rfl⟩ := List.getLast?_eq_some_iff.1 h
    exact ⟨ys, rfl⟩

/-- C20: for every pattern `p` and id, `CreateSubDir(p)` makes exactly one
call of the temp-directory primitive, with the base directory and the pattern
`p' + id + "-"`, where `p'` is `p` when the last byte of `p` is `-` and
`p + "-"` otherwise, and returns the path the primitive created (the empty
path and the error when the primitive fails); `test-pattern` and
`test-pattern-` with id `123` both give `test-pattern-123-`. -/
theorem CreateSubDir_pattern (d : Directory) (p : GoString)
    (MkdirTemp : GoString → GoString → GoString × Option GoError) :
    (p.getLast? = some 45 →
      (CreateSubDir d p MkdirTemp).1 = [.MkdirTemp d.baseDir (p ++ d.id ++ lit "-")] ∧
      ((MkdirTemp d.baseDir (p ++ d.id ++ lit "-")).2 = none →
        (CreateSubDir d p MkdirTemp).2 =
          ((MkdirTemp d.baseDir (p ++ d.id ++ lit "-")).1, none))) ∧
    (p.getLast? ≠ some 45 →
      (CreateSubDir d p MkdirTemp).1 =
        [.MkdirTemp d.baseDir (p ++ lit "-" ++ d.id ++ lit "-")] ∧
      ((MkdirTemp d.baseDir (p ++ lit "-" ++ d.id ++ lit "-")).2 = none →
        (CreateSubDir d p MkdirTemp).2 =
          ((MkdirTemp d.baseDir (p ++ lit "-" ++ d.id ++ lit "-")).1, none))) ∧
    (CreateSubDir (Directory.mk d.baseDir (lit "123")) (lit "test-pattern") MkdirTemp).1 =
      [.MkdirTemp d.baseDir (lit "test-pattern-123-")] ∧
    (CreateSubDir (Directory.mk d.baseDir (lit "123")) (lit "test-pattern-") MkdirTemp).1 =
      [.MkdirTemp d.baseDir (lit "test-pattern-123-")] := by
  have hcalls : ∀ (d1 : Directory) (q : GoString), (CreateSubDir d1 q MkdirTemp).1 =
      [.MkdirTemp d1.baseDir
        ((if HasSuffix q (lit "-") then q else q ++ lit "-") ++ d1.id ++ lit "-")] := by
    intro d1 q
    simp only [CreateSubDir]
    split <;> rfl
  have hres : ∀ (d1 : Directory) (q pat : GoString),
      pat = (if HasSuffix q (lit "-") then q else q ++ lit "-") ++ d1.id ++ lit "-" →
      (MkdirTemp d1.baseDir pat).2 = none →
      (CreateSubDir d1 q MkdirTemp).2 = ((MkdirTemp d1.baseDir pat).1, none) := by
    intro d1 q pat hpat hok
    subst hpat
    simp only [CreateSubDir]
    split
    · rename_i heq
      rw [heq] at hok
      cases hok
    · rename_i heq
      rw [heq]
  refine ⟨?_, ?_, ?_, ?_⟩
  · intro h
    have hs := (HasSuffix_dash p).2 h
    exact ⟨by rw [hcalls, if_pos hs], hres d p _ (by rw [if_pos hs])⟩
  · intro h
    have hs : ¬ HasSuffix p (lit "-") = true := fun hh => h ((HasSuffix_dash p).1 hh)
    exact ⟨by rw [hcalls, if_neg hs], hres d p _ (by rw [if_neg hs])⟩
  · have e : (if HasSuffix (lit "test-pattern") (lit "-") then lit "test-pattern"
        else lit "test-pattern" ++ lit "-") ++ lit "123" ++ lit "-" =
        lit "test-pattern-123-" := by decide
    rw [hcalls]
    show [Call.MkdirTemp d.baseDir ((if HasSuffix (lit "test-pattern") (lit "-") then
      lit "test-pattern" else lit "test-pattern" ++ lit "-") ++ lit "123" ++ lit "-")] = _
    rw [e]
  · have e : (if HasSuffix (lit "test-pattern-") (lit "-") then lit "test-pattern-"
        else lit "test-pattern-" ++ lit "-") ++ lit "123" ++ lit "-" =
        lit "test-pattern-123-" := by decide
    rw [hcalls]
    show [Call.MkdirTemp d.baseDir ((if HasSuffix (lit "test-pattern-") (lit "-") then
      lit "test-pattern-" else lit "test-pattern-" ++ lit "-") ++ lit "123" ++ lit "-")] = _
    rw [e]

end AppDirectory
